import Mathlib

/-!
# Kuzu storage core: relationship table data, version record handlers, overflow file

A shallow embedding of
* `src/storage/store/rel_table_data.cpp` (`RelTableData`, `PersistentVersionRecordHandler`,
  `InMemoryVersionRecordHandler`),
* `src/include/storage/storage_structure/overflow_file.h` (`OverflowFileHandle`),

followed by the properties established about them.

Conventions.
* Unsigned 64-bit values (`row_idx_t`, `offset_t`, `node_group_idx_t`) are natural numbers;
  arithmetic that can wrap is written with an explicit `% 2 ^ 64`.
* A member function that mutates the object returns the new object.
* `KU_ASSERT(c)` with `c` false, and a dereference of a missing object, end the call with a
  `Fault`; a `while (true)` loop is run with a fuel bound and `Exec.fuelOut` marks a run
  that did not leave the loop within the bound.
* Member functions of classes whose bodies are outside the sources (`CSRNodeGroup`,
  `NodeGroup`, `NodeGroupCollection`, `Transaction`) are either arguments of the
  embedding (`NodeGroupImpl`) or definitions modelled from the specification; the latter
  say so in their doc comment.
-/

namespace kuzu

/-! ## Outcomes of a call -/

/-- How a call can end without returning. -/
inductive Fault where
  /-- A `KU_ASSERT` whose condition is false. -/
  | assertion
  /-- A dereference of a null pointer or an access outside a container. -/
  | invalidAccess
  deriving DecidableEq, Repr

/-- Outcome of running a member function. -/
inductive Exec (α : Type) where
  /-- The call returned `a`. -/
  | done (a : α)
  /-- The call ended in a fault. -/
  | fault (f : Fault)
  /-- The loop bound was reached before the loop was left. -/
  | fuelOut
  deriving DecidableEq, Repr

/-- Sequencing of calls: the first fault or exhausted bound ends the run. -/
def Exec.bind {α β : Type} (x : Exec α) (f : α → Exec β) : Exec β :=
  match x with
  | .done a => f a
  | .fault e => .fault e
  | .fuelOut => .fuelOut

instance : Monad Exec where
  pure := Exec.done
  bind := Exec.bind

/-! ## Common types -/

/-- The value `UINT64_MAX`. -/
def UINT64_MAX : Nat := 2 ^ 64 - 1

/-- Modelled from the spec: the constant `INVALID_ROW_IDX` of `common/types/types.h` is
declared outside the sources; it is the sentinel row index, the largest `row_idx_t`. -/
def INVALID_ROW_IDX : Nat := UINT64_MAX

/-- Modelled from the spec: the node-group capacity is declared outside the sources; the
spec gives "fixed capacity, e.g. 2^18". -/
def NODE_GROUP_SIZE : Nat := 2 ^ 18

/-- Modelled from the spec: `StorageUtils::getNodeGroupIdx` is declared outside the sources;
the spec gives `node_group_idx = floor(nodeOffset / groupCapacity)`. -/
def StorageUtils.getNodeGroupIdx (nodeOffset : Nat) : Nat :=
  nodeOffset / NODE_GROUP_SIZE

/-- The enum `CSRNodeGroupScanSource`, with the three values the sources name. -/
inductive CSRNodeGroupScanSource where
  | COMMITTED_PERSISTENT
  | COMMITTED_IN_MEMORY
  | NONE
  deriving DecidableEq, Repr

/-- A selection vector: its selected size and the buffer `operator[]` reads. -/
structure SelectionVector where
  selectedSize : Nat
  positions : List Nat
  deriving DecidableEq, Repr

/-- The accessor `getSelSize()`. -/
def SelectionVector.getSelSize (s : SelectionVector) : Nat := s.selectedSize

/-- The accessor `operator[]`. -/
def SelectionVector.get (s : SelectionVector) (i : Nat) : Nat := s.positions.getD i 0

/-- A value vector: the selection vector of its state, its null mask and its values, and
the flag `state->isFlat()` of its state. For a vector of internal IDs a value is the
`offset` component of the ID. -/
structure ValueVector where
  selVector : SelectionVector
  nullMask : List Bool
  values : List Nat
  isFlat : Bool := true
  deriving DecidableEq, Repr

/-- The accessor `isNull(pos)`. -/
def ValueVector.isNull (v : ValueVector) (pos : Nat) : Bool := v.nullMask.getD pos false

/-- The accessor `getValue<T>(pos)` (for an ID, its offset). -/
def ValueVector.getValue (v : ValueVector) (pos : Nat) : Nat := v.values.getD pos 0

/-! ## Scans -/

/-- What `findMatchingRow` can read after one call of `scan` that did not report
`NODE_GROUP_SCAN_EMMPTY_RESULT`: the output state, shared by the rel-ID vector and the
row-index vector (`rowIdxVector->state = scannedIDVector->state`), the two vectors, and the
`source` field of the node-group scan state. -/
structure ScanBatch where
  outState : SelectionVector
  scannedIDVector : List Nat
  rowIdxVector : List Nat
  source : CSRNodeGroupScanSource
  deriving DecidableEq, Repr

/-- The rel-ID offset of the `i`-th selected row of a batch. -/
def ScanBatch.relOffsetAt (b : ScanBatch) (i : Nat) : Nat :=
  b.scannedIDVector.getD (b.outState.get i) 0

/-- The row index of the `i`-th selected row of a batch. -/
def ScanBatch.rowIdxAt (b : ScanBatch) (i : Nat) : Nat :=
  b.rowIdxVector.getD (b.outState.get i) 0

/-- The successive results of calling `scan` on one initialised scan state: `s k` is the
result of call number `k` (from 0), `none` standing for `NODE_GROUP_SCAN_EMMPTY_RESULT`. -/
abbrev ScanStream := Nat → Option ScanBatch

/-- The `for` loop of `findMatchingRow` over one batch, from index `i` with `n` indices
left: at the first selected row whose rel-ID offset is `relOffset` it stores that row's
index and the scan source and breaks. -/
def findMatchingRowInBatch (b : ScanBatch) (relOffset : Nat) :
    Nat → Nat → CSRNodeGroupScanSource × Nat → CSRNodeGroupScanSource × Nat
  | 0, _, acc => acc
  | n + 1, i, acc =>
    if b.relOffsetAt i = relOffset then (b.source, b.rowIdxAt i)
    else findMatchingRowInBatch b relOffset n (i + 1) acc

/-- The `while (true)` loop of `findMatchingRow`, from call number `k` of the scan, with
the current `(source, matchingRowIdx)`. -/
def findMatchingRowLoop (scan : ScanStream) (relOffset : Nat) :
    Nat → Nat → CSRNodeGroupScanSource × Nat → Exec (CSRNodeGroupScanSource × Nat)
  | 0, _, _ => .fuelOut
  | fuel + 1, k, acc =>
    match scan k with
    | none => .done acc
    | some b =>
      let acc1 := findMatchingRowInBatch b relOffset b.outState.getSelSize 0 acc
      if acc1.2 ≠ INVALID_ROW_IDX then .done acc1
      else findMatchingRowLoop scan relOffset fuel (k + 1) acc1

/-! ## Node groups, the node-group collection and the transaction -/

/-- Modelled from the spec: one physical row of a relationship table; the class that
stores rows is outside the sources. A row belongs to the CSR range of its bound (source)
node, carries its rel-ID offset and property values, and a flag telling whether it is
marked deleted under the visibility of the running transaction. -/
structure StoredRow where
  boundNodeOffset : Nat
  relOffset : Nat
  values : List Nat
  deleted : Bool
  deriving DecidableEq, Repr

/-- Modelled from the spec: a chunked group (`ChunkedNodeGroup`, declared outside the
sources), the unit of row storage a version record handler operates on. -/
structure ChunkedNodeGroup where
  rows : List StoredRow
  deriving DecidableEq, Repr

/-- The accessor `ChunkedNodeGroup::getNumRows()`. -/
def ChunkedNodeGroup.getNumRows (c : ChunkedNodeGroup) : Nat := c.rows.length

/-- Modelled from the spec: a CSR node group (`CSRNodeGroup`, declared outside the
sources): its index, its persistent chunked group if it has one, its in-memory
(not yet checkpointed) chunk if it has one, and the row count `NodeGroup::getNumRows()`
reports. -/
structure CSRNodeGroup where
  nodeGroupIdx : Nat
  persistentChunkedGroup : Option ChunkedNodeGroup
  inMemChunkedGroup : Option ChunkedNodeGroup
  numRows : Nat
  deriving DecidableEq, Repr

/-- The accessor `getPersistentChunkedGroup()`. -/
def CSRNodeGroup.getPersistentChunkedGroup (g : CSRNodeGroup) : Option ChunkedNodeGroup :=
  g.persistentChunkedGroup

/-- The accessor `getNumRows()`. -/
def CSRNodeGroup.getNumRows (g : CSRNodeGroup) : Nat := g.numRows

/-- The accessor `getNodeGroupIdx()`. -/
def CSRNodeGroup.getNodeGroupIdx (g : CSRNodeGroup) : Nat := g.nodeGroupIdx

/-- The type `version_record_handler_op_t`: a member function of `ChunkedNodeGroup` taking
`(startRow, numRows, commitTS)`. -/
abbrev version_record_handler_op_t := ChunkedNodeGroup → Nat → Nat → Nat → ChunkedNodeGroup

/-- The two handler objects a `RelTableData` owns, `persistentVersionRecordHandler` and
`inMemoryVersionRecordHandler`; a `const VersionRecordHandler*` is one of them. -/
inductive VersionRecordHandlerRef where
  | persistentVersionRecordHandler
  | inMemoryVersionRecordHandler
  deriving DecidableEq, Repr

/-- A record of the undo buffer. -/
inductive UndoRecord where
  | insertInfo (nodeGroupIdx startRow numRows : Nat) (handler : VersionRecordHandlerRef)
  | deleteInfo (nodeGroupIdx startRow numRows : Nat) (handler : VersionRecordHandlerRef)
  deriving DecidableEq, Repr

/-- Modelled from the spec: the transaction context (`Transaction`, declared outside the
sources), "exposing ... undo-buffer push operations": its undo-buffer policy, its commit
timestamp and the undo buffer, newest record last. -/
structure Transaction where
  appendToUndoBuffer : Bool
  commitTS : Nat
  undoBuffer : List UndoRecord
  deriving DecidableEq, Repr

/-- The accessor `shouldAppendToUndoBuffer()`. -/
def Transaction.shouldAppendToUndoBuffer (tx : Transaction) : Bool := tx.appendToUndoBuffer

/-- Modelled from the spec: `Transaction::pushDeleteInfo` is outside the sources; it
appends one delete record to the undo buffer. -/
def Transaction.pushDeleteInfo (tx : Transaction) (nodeGroupIdx startRow numRows : Nat)
    (handler : VersionRecordHandlerRef) : Transaction :=
  { tx with undoBuffer := tx.undoBuffer ++ [.deleteInfo nodeGroupIdx startRow numRows handler] }

/-- Modelled from the spec: `Transaction::pushInsertInfo` is outside the sources; it
appends one insert record to the undo buffer. -/
def Transaction.pushInsertInfo (tx : Transaction) (nodeGroupIdx startRow numRows : Nat)
    (handler : VersionRecordHandlerRef) : Transaction :=
  { tx with undoBuffer := tx.undoBuffer ++ [.insertInfo nodeGroupIdx startRow numRows handler] }

/-- Unsigned 64-bit subtraction `a - b` of two 64-bit values. -/
def sub64 (a b : Nat) : Nat := (a + 2 ^ 64 - b) % 2 ^ 64

/-- Unsigned 64-bit addition `a + b`. -/
def add64 (a b : Nat) : Nat := (a + b) % 2 ^ 64

/-- Modelled from the spec: the node-group collection (`NodeGroupCollection`, declared
outside the sources), an "ordered sequence of NodeGroup, indexed by node_group_idx",
together with the row count of the table's row accounting. -/
structure NodeGroupCollection where
  nodeGroups : List CSRNodeGroup
  numTotalRows : Nat
  deriving DecidableEq, Repr

/-- Modelled from the spec: `NodeGroupCollection::pushInsertInfo` is outside the sources;
it "records that numRows new rows were appended" in the undo buffer with the handler it is
given and, when `incrementNumRows` is set, adds `numRows` to the row count. -/
def NodeGroupCollection.pushInsertInfo (c : NodeGroupCollection) (tx : Transaction)
    (nodeGroupIdx startRow numRows : Nat) (handler : VersionRecordHandlerRef)
    (incrementNumRows : Bool) : Transaction × NodeGroupCollection :=
  (tx.pushInsertInfo nodeGroupIdx startRow numRows handler,
   if incrementNumRows then { c with numTotalRows := add64 c.numTotalRows numRows } else c)

/-- Modelled from the spec: `NodeGroupCollection::rollbackInsert` is outside the sources;
it is the notification by which the table shrinks its row accounting: when `updateNumRows`
is set it subtracts `numRows` from the row count. -/
def NodeGroupCollection.rollbackInsert (c : NodeGroupCollection) (numRows : Nat)
    (updateNumRows : Bool) : NodeGroupCollection :=
  if updateNumRows then { c with numTotalRows := sub64 c.numTotalRows numRows } else c

/-- A physical column: its name, whether the object is an `InternalIDColumn` (the subclass
the sources show), and the common table ID an `InternalIDColumn` has been given, if any. -/
structure Column where
  name : String
  isInternalIDColumn : Bool := false
  commonTableID : Option Nat := none
  deriving DecidableEq, Repr

/-- The checkpoint state `CSRNodeGroupCheckpointState` as far as `RelTableData::checkpoint`
fills it: the column IDs and the column pointers (`none` for a null pointer). -/
structure CSRNodeGroupCheckpointState where
  columnIDs : List Nat
  columns : List (Option Column)
  deriving DecidableEq, Repr

/-- Modelled from the spec: `NodeGroup::applyFuncToChunkedGroups` is outside the sources;
for the in-memory variant the operation goes to "the node group's uncommitted chunk", with
the arguments it was called with, and to nothing when the group has no such chunk. -/
def NodeGroup.applyFuncToChunkedGroups (func : version_record_handler_op_t) (g : CSRNodeGroup)
    (startRow numRows commitTS : Nat) : CSRNodeGroup :=
  match g.inMemChunkedGroup with
  | none => g
  | some chunk => { g with inMemChunkedGroup := some (func chunk startRow numRows commitTS) }

/-- The member functions of `CSRNodeGroup`, `NodeGroup`, `ChunkedNodeGroup` and
`NodeGroupCollection` that the embedded code calls, whose bodies are outside the sources
and which the embedding takes as an argument. -/
structure NodeGroupImpl where
  /-- The results of `CSRNodeGroup::scan` on a scan state initialised for a transaction, a
  node group and a bound node offset. -/
  scan : Transaction → CSRNodeGroup → Nat → ScanStream
  /-- The call `CSRNodeGroup::update(transaction, source, rowIdx, columnID, dataVector)`. -/
  update : Transaction → CSRNodeGroup → CSRNodeGroupScanSource → Nat → Nat → ValueVector →
    CSRNodeGroup
  /-- The call `CSRNodeGroup::delete_(transaction, source, rowIdx)`. -/
  delete_ : Transaction → CSRNodeGroup → CSRNodeGroupScanSource → Nat → Bool × CSRNodeGroup
  /-- The call `NodeGroup::rollbackInsert(startRow)`. -/
  rollbackInsert : CSRNodeGroup → Nat → CSRNodeGroup
  /-- The member function `ChunkedNodeGroup::rollbackInsert`, the rollback primitive. -/
  chunkRollbackInsert : version_record_handler_op_t
  /-- The call `NodeGroupCollection::checkpoint(memoryManager, state)`. -/
  checkpoint : NodeGroupCollection → CSRNodeGroupCheckpointState → NodeGroupCollection

/-! ## `RelTableData` -/

/-- The part of `RelTableData` the embedded member functions read and write: the column
list (a `unique_ptr` is `none` when null) and the node-group collection. -/
structure RelTableData where
  columns : List (Option Column)
  nodeGroups : NodeGroupCollection
  deriving DecidableEq, Repr

/-- The accessor `getNumNodeGroups()`. -/
def RelTableData.getNumNodeGroups (t : RelTableData) : Nat := t.nodeGroups.nodeGroups.length

/-- The accessor `getNodeGroupNoLock(nodeGroupIdx)`; `none` when there is no such group. -/
def RelTableData.getNodeGroupNoLock (t : RelTableData) (nodeGroupIdx : Nat) :
    Option CSRNodeGroup :=
  t.nodeGroups.nodeGroups[nodeGroupIdx]?

/-- The accessor `getNodeGroup(nodeGroupIdx)`; `none` when there is no such group. -/
def RelTableData.getNodeGroup (t : RelTableData) (nodeGroupIdx : Nat) : Option CSRNodeGroup :=
  t.nodeGroups.nodeGroups[nodeGroupIdx]?

/-- The table after a mutation, through the pointer `getNodeGroup` returned, of the group
at `nodeGroupIdx`. -/
def RelTableData.setNodeGroup (t : RelTableData) (nodeGroupIdx : Nat) (g : CSRNodeGroup) :
    RelTableData :=
  { t with nodeGroups := { t.nodeGroups with
      nodeGroups := t.nodeGroups.nodeGroups.set nodeGroupIdx g } }

/-- The member function `RelTableData::rollbackGroupCollectionInsert`
(rel_table_data.cpp:288). -/
def RelTableData.rollbackGroupCollectionInsert (t : RelTableData) (numRows_ : Nat)
    (isPersistent : Bool) : RelTableData :=
  { t with nodeGroups := t.nodeGroups.rollbackInsert numRows_ (!isPersistent) }

/-- The member function `RelTableData::getVersionRecordHandler` (rel_table_data.cpp:279). -/
def RelTableData.getVersionRecordHandler (source : CSRNodeGroupScanSource) :
    Exec VersionRecordHandlerRef :=
  if source = .COMMITTED_PERSISTENT then
    .done .persistentVersionRecordHandler
  else
    if source = .COMMITTED_IN_MEMORY then .done .inMemoryVersionRecordHandler
    else .fault .assertion

/-! ## Version record handlers -/

/-- The member function `PersistentVersionRecordHandler::applyFuncToChunkedGroups`
(rel_table_data.cpp:22). -/
def PersistentVersionRecordHandler.applyFuncToChunkedGroups (func : version_record_handler_op_t)
    (t : RelTableData) (nodeGroupIdx startRow numRows commitTS : Nat) : Exec RelTableData :=
  if nodeGroupIdx < t.getNumNodeGroups then
    match t.getNodeGroupNoLock nodeGroupIdx with
    | none => .fault .invalidAccess
    | some nodeGroup =>
      match nodeGroup.getPersistentChunkedGroup with
      | some persistentChunkedGroup =>
        .done (t.setNodeGroup nodeGroupIdx { nodeGroup with
          persistentChunkedGroup := some (func persistentChunkedGroup startRow numRows commitTS) })
      | none => .done t
  else .done t

/-- The member function `InMemoryVersionRecordHandler::applyFuncToChunkedGroups`
(rel_table_data.cpp:44). -/
def InMemoryVersionRecordHandler.applyFuncToChunkedGroups
    (func : version_record_handler_op_t) (t : RelTableData)
    (nodeGroupIdx startRow numRows commitTS : Nat) : Exec RelTableData :=
  match t.getNodeGroupNoLock nodeGroupIdx with
  | none => .fault .invalidAccess
  | some nodeGroup =>
    .done (t.setNodeGroup nodeGroupIdx
      (NodeGroup.applyFuncToChunkedGroups func nodeGroup startRow numRows commitTS))

/-- Modelled from the spec: the base-class `VersionRecordHandler::rollbackInsert` is outside
the sources; it "invokes the generic rollback primitive" on the chunks its variant routes
to, that is, it calls the variant's `applyFuncToChunkedGroups` with the primitive and the
transaction's commit timestamp. -/
def VersionRecordHandler.rollbackInsert
    (applyFuncToChunkedGroups : version_record_handler_op_t → RelTableData → Nat → Nat → Nat →
      Nat → Exec RelTableData)
    (primitive : version_record_handler_op_t) (transaction : Transaction) (t : RelTableData)
    (nodeGroupIdx startRow numRows : Nat) : Exec RelTableData :=
  applyFuncToChunkedGroups primitive t nodeGroupIdx startRow numRows transaction.commitTS

/-- The member function `PersistentVersionRecordHandler::rollbackInsert`
(rel_table_data.cpp:34). -/
def PersistentVersionRecordHandler.rollbackInsert (impl : NodeGroupImpl)
    (transaction : Transaction) (t : RelTableData) (nodeGroupIdx startRow numRows : Nat) :
    Exec RelTableData := do
  let t1 ← VersionRecordHandler.rollbackInsert PersistentVersionRecordHandler.applyFuncToChunkedGroups
    impl.chunkRollbackInsert transaction t nodeGroupIdx startRow numRows
  .done (t1.rollbackGroupCollectionInsert numRows true)

/-- The row count `numRowsToRollback` of `InMemoryVersionRecordHandler::rollbackInsert`
(rel_table_data.cpp:56): `std::min(numRows, nodeGroup->getNumRows() - startRow)` on
unsigned 64-bit values. -/
def InMemoryVersionRecordHandler.numRowsToRollback (numRows currentRows startRow : Nat) : Nat :=
  min numRows (sub64 currentRows startRow)

/-- The member function `InMemoryVersionRecordHandler::rollbackInsert`
(rel_table_data.cpp:51). -/
def InMemoryVersionRecordHandler.rollbackInsert (impl : NodeGroupImpl)
    (transaction : Transaction) (t : RelTableData) (nodeGroupIdx startRow numRows : Nat) :
    Exec RelTableData := do
  let t1 ← VersionRecordHandler.rollbackInsert
    InMemoryVersionRecordHandler.applyFuncToChunkedGroups
    impl.chunkRollbackInsert transaction t nodeGroupIdx startRow numRows
  match t1.getNodeGroupNoLock nodeGroupIdx with
  | none => .fault .invalidAccess
  | some nodeGroup =>
    let numRowsToRollback :=
      InMemoryVersionRecordHandler.numRowsToRollback numRows nodeGroup.getNumRows startRow
    let t2 := t1.setNodeGroup nodeGroupIdx (impl.rollbackInsert nodeGroup startRow)
    .done (t2.rollbackGroupCollectionInsert numRowsToRollback false)

/-- The call `handler->rollbackInsert(...)` through a `const VersionRecordHandler*`. -/
def VersionRecordHandlerRef.rollbackInsert (h : VersionRecordHandlerRef) (impl : NodeGroupImpl)
    (transaction : Transaction) (t : RelTableData) (nodeGroupIdx startRow numRows : Nat) :
    Exec RelTableData :=
  match h with
  | .persistentVersionRecordHandler =>
    PersistentVersionRecordHandler.rollbackInsert impl transaction t nodeGroupIdx startRow numRows
  | .inMemoryVersionRecordHandler =>
    InMemoryVersionRecordHandler.rollbackInsert impl transaction t nodeGroupIdx startRow numRows

/-! ## Point operations of `RelTableData` -/

/-- The member function `RelTableData::findMatchingRow` (rel_table_data.cpp:160). -/
def RelTableData.findMatchingRow (impl : NodeGroupImpl) (fuel : Nat) (transaction : Transaction)
    (t : RelTableData) (boundNodeIDVector relIDVector : ValueVector) :
    Exec (CSRNodeGroupScanSource × Nat) :=
  if boundNodeIDVector.selVector.getSelSize ≠ 1 then .fault .assertion
  else if relIDVector.selVector.getSelSize ≠ 1 then .fault .assertion
  else
    let boundNodePos := boundNodeIDVector.selVector.get 0
    let relIDPos := relIDVector.selVector.get 0
    let boundNodeOffset := boundNodeIDVector.getValue boundNodePos
    let relOffset := relIDVector.getValue relIDPos
    let nodeGroupIdx := StorageUtils.getNodeGroupIdx boundNodeOffset
    match t.getNodeGroup nodeGroupIdx with
    | none => .fault .invalidAccess
    | some nodeGroup =>
      findMatchingRowLoop (impl.scan transaction nodeGroup boundNodeOffset) relOffset fuel 0
        (.NONE, INVALID_ROW_IDX)

/-- The member function `RelTableData::update` (rel_table_data.cpp:114). It returns the
boolean and the table with the node group `CSRNodeGroup::update` was called on. -/
def RelTableData.update (impl : NodeGroupImpl) (fuel : Nat) (transaction : Transaction)
    (t : RelTableData) (boundNodeIDVector relIDVector : ValueVector) (columnID : Nat)
    (dataVector : ValueVector) : Exec (Bool × RelTableData) :=
  if boundNodeIDVector.selVector.getSelSize ≠ 1 then .fault .assertion
  else if relIDVector.selVector.getSelSize ≠ 1 then .fault .assertion
  else
    let boundNodePos := boundNodeIDVector.selVector.get 0
    let relIDPos := relIDVector.selVector.get 0
    if boundNodeIDVector.isNull boundNodePos || relIDVector.isNull relIDPos then
      .done (false, t)
    else do
      let (source, rowIdx) ←
        RelTableData.findMatchingRow impl fuel transaction t boundNodeIDVector relIDVector
      if rowIdx = INVALID_ROW_IDX then .fault .assertion
      else
        let boundNodeOffset := boundNodeIDVector.getValue boundNodePos
        let nodeGroupIdx := StorageUtils.getNodeGroupIdx boundNodeOffset
        match t.getNodeGroup nodeGroupIdx with
        | none => .fault .invalidAccess
        | some csrNodeGroup =>
          .done (true, t.setNodeGroup nodeGroupIdx
            (impl.update transaction csrNodeGroup source rowIdx columnID dataVector))

/-- The member function `RelTableData::delete_` (rel_table_data.cpp:132). It returns the
boolean, the transaction with its undo buffer, and the table. -/
def RelTableData.delete_ (impl : NodeGroupImpl) (fuel : Nat) (transaction : Transaction)
    (t : RelTableData) (boundNodeIDVector relIDVector : ValueVector) :
    Exec (Bool × Transaction × RelTableData) :=
  let boundNodePos := boundNodeIDVector.selVector.get 0
  let relIDPos := relIDVector.selVector.get 0
  if boundNodeIDVector.isNull boundNodePos || relIDVector.isNull relIDPos then
    .done (false, transaction, t)
  else do
    let (source, rowIdx) ←
      RelTableData.findMatchingRow impl fuel transaction t boundNodeIDVector relIDVector
    if rowIdx = INVALID_ROW_IDX then .done (false, transaction, t)
    else
      let boundNodeOffset := boundNodeIDVector.getValue boundNodePos
      let nodeGroupIdx := StorageUtils.getNodeGroupIdx boundNodeOffset
      match t.getNodeGroup nodeGroupIdx with
      | none => .fault .invalidAccess
      | some csrNodeGroup =>
        let (isDeleted, csrNodeGroup1) := impl.delete_ transaction csrNodeGroup source rowIdx
        let t1 := t.setNodeGroup nodeGroupIdx csrNodeGroup1
        if isDeleted && transaction.shouldAppendToUndoBuffer then do
          let handler ← RelTableData.getVersionRecordHandler source
          .done (isDeleted, transaction.pushDeleteInfo nodeGroupIdx rowIdx 1 handler, t1)
        else .done (isDeleted, transaction, t1)

/-- The `while (true)` loop of `checkIfNodeHasRels`, from call number `k` of the scan. -/
def checkIfNodeHasRelsLoop (scan : ScanStream) : Nat → Nat → Exec Bool
  | 0, _ => .fuelOut
  | fuel + 1, k =>
    match scan k with
    | none => .done false
    | some b =>
      if b.outState.getSelSize > 0 then .done true
      else checkIfNodeHasRelsLoop scan fuel (k + 1)

/-- The member function `RelTableData::checkIfNodeHasRels` (rel_table_data.cpp:207). -/
def RelTableData.checkIfNodeHasRels (impl : NodeGroupImpl) (fuel : Nat)
    (transaction : Transaction) (t : RelTableData) (srcNodeIDVector : ValueVector) :
    Exec Bool :=
  if srcNodeIDVector.isFlat = false then .fault .assertion
  else
    let nodeIDPos := srcNodeIDVector.selVector.get 0
    let nodeOffset := srcNodeIDVector.getValue nodeIDPos
    let nodeGroupIdx := StorageUtils.getNodeGroupIdx nodeOffset
    if nodeGroupIdx ≥ t.getNumNodeGroups then .done false
    else
      match t.getNodeGroup nodeGroupIdx with
      | none => .fault .invalidAccess
      | some nodeGroup =>
        checkIfNodeHasRelsLoop (impl.scan transaction nodeGroup nodeOffset) fuel 0

/-! ## Inserts and checkpoint -/

/-- The condition of the `KU_ASSERT` of `RelTableData::pushInsertInfo`
(rel_table_data.cpp:244). -/
def RelTableData.pushInsertInfoAssertion (nodeGroup : CSRNodeGroup)
    (source : CSRNodeGroupScanSource) : Bool :=
  source != .COMMITTED_PERSISTENT ||
    (match nodeGroup.getPersistentChunkedGroup with
     | none => true
     | some persistentChunkedGroup => persistentChunkedGroup.getNumRows == 0)

/-- The pair `(startRow, shouldIncrementNumRows)` of `RelTableData::pushInsertInfo`
(rel_table_data.cpp:248). -/
def RelTableData.pushInsertInfoStart (nodeGroup : CSRNodeGroup)
    (source : CSRNodeGroupScanSource) : Nat × Bool :=
  if source = .COMMITTED_PERSISTENT then (0, false) else (nodeGroup.getNumRows, true)

/-- The member function `RelTableData::pushInsertInfo` (rel_table_data.cpp:240). -/
def RelTableData.pushInsertInfo (transaction : Transaction) (t : RelTableData)
    (nodeGroup : CSRNodeGroup) (numRows_ : Nat) (source : CSRNodeGroupScanSource) :
    Exec (Transaction × RelTableData) :=
  if !RelTableData.pushInsertInfoAssertion nodeGroup source then .fault .assertion
  else do
    let (startRow, shouldIncrementNumRows) := RelTableData.pushInsertInfoStart nodeGroup source
    let handler ← RelTableData.getVersionRecordHandler source
    let (transaction1, nodeGroups1) := t.nodeGroups.pushInsertInfo transaction
      nodeGroup.getNodeGroupIdx startRow numRows_ handler shouldIncrementNumRows
    .done (transaction1, { t with nodeGroups := nodeGroups1 })

/-- The first loop of `RelTableData::checkpoint` (rel_table_data.cpp:259): each
`std::move(columns[columnID])` takes the pointer out of the column list, leaving a null
pointer in its slot, and pushes it to `checkpointColumns`. -/
def RelTableData.checkpointMoveColumns :
    List Nat → List (Option Column) → List (Option Column) → Exec (List (Option Column))
  | [], _, checkpointColumns => .done checkpointColumns
  | columnID :: rest, columns, checkpointColumns =>
    match columns[columnID]? with
    | none => .fault .invalidAccess
    | some column =>
      RelTableData.checkpointMoveColumns rest (columns.set columnID none)
        (checkpointColumns ++ [column])

/-- The member function `RelTableData::checkpoint` (rel_table_data.cpp:257). It returns the
table and the checkpoint state handed to `NodeGroupCollection::checkpoint`. -/
def RelTableData.checkpoint (impl : NodeGroupImpl) (t : RelTableData) (columnIDs : List Nat) :
    Exec (RelTableData × CSRNodeGroupCheckpointState) := do
  let checkpointColumns ← RelTableData.checkpointMoveColumns columnIDs t.columns []
  let columns := checkpointColumns
  let checkpointColumnPtrs := columns.map (fun column => column)
  let state : CSRNodeGroupCheckpointState :=
    { columnIDs := columnIDs, columns := checkpointColumnPtrs }
  .done ({ columns := columns, nodeGroups := impl.checkpoint t.nodeGroups state }, state)

/-! ## Creation of the property columns -/

/-- Modelled from the spec: the constant `NBR_ID_COLUMN_ID` is declared outside the sources;
the spec gives "index 0 reserved for neighbor-id". -/
def NBR_ID_COLUMN_ID : Nat := 0

/-- Modelled from the spec: the constant `REL_ID_COLUMN_ID` is declared outside the sources;
the spec gives "one index reserved for rel-id", here the index after the neighbour-ID
column. -/
def REL_ID_COLUMN_ID : Nat := 1

/-- A declared property: its name and the name of its logical type. -/
structure PropertyDefinition where
  name : String
  type : String
  deriving DecidableEq, Repr

/-- What `RelTableData::initPropertyColumns` reads from the catalog entry of the table
(`TableCatalogEntry` and `RelTableCatalogEntry`, declared outside the sources):
`getTableID()`, the properties `getProperty(0) .. getProperty(getNumProperties() - 1)`,
`getColumnID(name)`, `getMaxColumnID()` and `getNbrTableID(direction)`. -/
structure TableCatalogEntry where
  tableID : Nat
  properties : List PropertyDefinition
  getColumnID : String → Nat
  maxColumnID : Nat
  nbrTableID : Nat

/-- The functions that build columns and whose bodies are outside the sources:
`StorageUtils::getColumnName(name, ColumnType::DEFAULT, direction)` for the direction of the
table, and `ColumnFactory::createColumn(name, type, ...)`. The embedding takes them as an
argument. -/
structure ColumnImpl where
  getColumnName : String → String
  createColumn : String → String → Column

/-- The constructor `InternalIDColumn(name, ...)`: an internal-ID column without a common
table ID yet. -/
def InternalIDColumn.new (name : String) : Column :=
  { name := name, isInternalIDColumn := true, commonTableID := none }

/-- The statement `columns[columnID]->cast<InternalIDColumn>().setCommonTableID(tableID)`:
an index outside the list and a null pointer are invalid accesses, `cast` asserts that
the column is an `InternalIDColumn`, and the column is given the common table ID. -/
def setCommonTableIDAt (columns : List (Option Column)) (columnID tableID : Nat) :
    Exec (List (Option Column)) :=
  match columns[columnID]? with
  | none => .fault .invalidAccess
  | some none => .fault .invalidAccess
  | some (some column) =>
    if column.isInternalIDColumn then
      .done (columns.set columnID (some { column with commonTableID := some tableID }))
    else .fault .assertion

/-- The `for` loop of `RelTableData::initPropertyColumns` (rel_table_data.cpp:99) over the
properties still to visit. -/
def RelTableData.initPropertyColumnsLoop (impl : ColumnImpl) (tableEntry : TableCatalogEntry) :
    List PropertyDefinition → List (Option Column) → Exec (List (Option Column))
  | [], columns => .done columns
  | property :: rest, columns =>
    let columnID := tableEntry.getColumnID property.name
    let colName := impl.getColumnName property.name
    if columnID < columns.length then
      RelTableData.initPropertyColumnsLoop impl tableEntry rest
        (columns.set columnID (some (impl.createColumn colName property.type)))
    else .fault .invalidAccess

/-- The call `columns.resize(size)` on a vector of `unique_ptr`: the first `size` entries
are kept and null pointers fill the rest. -/
def resizeColumns (columns : List (Option Column)) (size : Nat) : List (Option Column) :=
  columns.take size ++ List.replicate (size - columns.length) none

/-- The member function `RelTableData::initPropertyColumns` (rel_table_data.cpp:91), on the
column list of the table; `tableID` is the member set by the constructor and `bits` is the
width of the unsigned type `column_id_t`, on which `maxColumnID + 1` is computed. It
returns the column list. -/
def RelTableData.initPropertyColumns (impl : ColumnImpl) (bits : Nat) (tableID : Nat)
    (columns : List (Option Column)) (tableEntry : TableCatalogEntry) :
    Exec (List (Option Column)) :=
  let maxColumnID := tableEntry.maxColumnID
  let columns1 := resizeColumns columns ((maxColumnID + 1) % 2 ^ bits)
  let nbrIDColName := impl.getColumnName "NBR_ID"
  let nbrIDColumn := InternalIDColumn.new nbrIDColName
  if NBR_ID_COLUMN_ID < columns1.length then
    let columns2 := columns1.set NBR_ID_COLUMN_ID (some nbrIDColumn)
    match RelTableData.initPropertyColumnsLoop impl tableEntry tableEntry.properties columns2 with
    | .done columns3 =>
      let nbrTableID := tableEntry.nbrTableID
      match setCommonTableIDAt columns3 NBR_ID_COLUMN_ID nbrTableID with
      | .done columns4 => setCommonTableIDAt columns4 REL_ID_COLUMN_ID tableID
      | .fault e => .fault e
      | .fuelOut => .fuelOut
    | .fault e => .fault e
    | .fuelOut => .fuelOut
  else .fault .invalidAccess

/-! ## The overflow file handle -/

/-- A write position `PageCursor`: a page index and a position in that page. -/
structure PageCursor where
  pageIdx : Nat
  elemPosInPage : Nat
  deriving DecidableEq, Repr

/-- The header `StringOverflowFileHeader` of an overflow file with `n` cursor slots
(`n` is `NUM_HASH_INDEXES`, a constant declared outside the sources). -/
structure StringOverflowFileHeader (n : Nat) where
  pages : Nat
  cursors : Fin n → PageCursor

/-- The constructor `StringOverflowFileHeader()`: `pages{1}, cursors{}`. The initialiser
`cursors{}` value-initialises every element of the array; `valueInitCursor` is that value,
`PageCursor{}`, which the declaration of `PageCursor` (outside the sources) fixes: all
zero unless `PageCursor` declares a default constructor of its own. -/
def StringOverflowFileHeader.new (n : Nat) (valueInitCursor : PageCursor) :
    StringOverflowFileHeader n :=
  { pages := 1, cursors := fun _ => valueInitCursor }

/-- An `OverflowFileHandle` of a file with `n` cursor slots. The reference member
`nextPosToWriteTo` aliases one slot of the header's cursor array and is kept as the index
of that slot; `pageWriteCache` maps page indices to cached page images. -/
structure OverflowFileHandle (n : Nat) where
  nextPosToWriteTo : Fin n
  pageWriteCache : List (Nat × List Nat)

/-- The cursor a handle reads through its reference `nextPosToWriteTo`. -/
def OverflowFileHandle.cursor {n : Nat} (h : OverflowFileHandle n)
    (header : StringOverflowFileHeader n) : PageCursor :=
  header.cursors h.nextPosToWriteTo

/-- The member function `OverflowFileHandle::rollbackInMemory` (overflow_file.h:45): it
clears the page write cache and assigns through the reference, which writes the header
slot. It returns the handle and the header. -/
def OverflowFileHandle.rollbackInMemory {n : Nat} (h : OverflowFileHandle n)
    (header : StringOverflowFileHeader n) (nextPosToWriteTo_ : PageCursor) :
    OverflowFileHandle n × StringOverflowFileHeader n :=
  ({ h with pageWriteCache := [] },
   { header with cursors := Function.update header.cursors h.nextPosToWriteTo nextPosToWriteTo_ })

/-! ## The overflow file -/

/-- The members of `OverflowFile` that `addHandle` and `getNewPageIdx` read and write, for a
file with `n` cursor slots (`n` is `NUM_HASH_INDEXES`): the handle list, the header, the
atomic page counter and the atomic header-changed flag. -/
structure OverflowFile (n : Nat) where
  handles : List (OverflowFileHandle n)
  header : StringOverflowFileHeader n
  pageCounter : Nat
  headerChanged : Bool

/-- The constant `OverflowFile::HEADER_PAGE_IDX` (overflow_file.h:133). -/
def OverflowFile.HEADER_PAGE_IDX : Nat := 0

/-- The member function `OverflowFile::getNewPageIdx` (overflow_file.h:118).
`pageCounter.fetch_add(1)` returns the old value and adds 1 on the unsigned type
`page_idx_t`; `bits` is the width of `page_idx_t`, declared outside the sources. It returns
the page index and the file. -/
def OverflowFile.getNewPageIdx {n : Nat} (bits : Nat) (f : OverflowFile n) :
    Exec (Nat × OverflowFile n) :=
  if f.pageCounter = OverflowFile.HEADER_PAGE_IDX ∨ f.headerChanged = true then
    .done (f.pageCounter, { f with pageCounter := (f.pageCounter + 1) % 2 ^ bits })
  else .fault .assertion

/-- A run of `k` calls of `getNewPageIdx`, one after the other, in any order of the callers:
it returns the page indices handed out, first call first, and the file. -/
def OverflowFile.getNewPageIdxTimes {n : Nat} (bits : Nat) :
    Nat → OverflowFile n → Exec (List Nat × OverflowFile n)
  | 0, f => .done ([], f)
  | k + 1, f =>
    match f.getNewPageIdx bits with
    | .done (pageIdx, f1) =>
      match OverflowFile.getNewPageIdxTimes bits k f1 with
      | .done (rest, f2) => .done (pageIdx :: rest, f2)
      | .fault e => .fault e
      | .fuelOut => .fuelOut
    | .fault e => .fault e
    | .fuelOut => .fuelOut

/-! ## Arithmetic on values (`graphflow::common::operation`) -/

/-- The enum `DataType` (declared outside the sources): the enumerators
`arithmetic_operations.h` names, and `OTHER` for every further one. -/
inductive DataType where
  | INT64
  | DOUBLE
  | STRING
  | DATE
  | TIMESTAMP
  | INTERVAL
  | OTHER (id : Nat)
  deriving DecidableEq, Repr

/-- A C++ exception object, by its class and message. -/
inductive CppException where
  | invalid_argument (msg : String)
  | NotImplementedException (msg : String)
  | BinderException (msg : String)
  deriving DecidableEq, Repr

/-- How a call of the expression layer ends: it returns, it throws an exception that
propagates to the caller (who may catch it), or a C `assert` fails. -/
inductive Outcome (α : Type) where
  | returned (a : α)
  | thrown (e : CppException)
  | assertionFailure
  deriving DecidableEq, Repr

/-- A `Value`: its `dataType` tag and its union `val`, whose representation `P` is left
open; the typed overloads read and write the members of the union. -/
structure Value (P : Type) where
  dataType : DataType
  val : P
  deriving DecidableEq, Repr

/-- The four instantiations `FUNC::operation(left.val.x, right.val.y, result.val.z)` that
the binary `ArithmeticOnValues::operation` calls, each as a function of the unions of
`left`, `right` and `result` giving the union of `result` after the call. -/
structure ArithmeticOverloads (P : Type) where
  int64_int64 : P → P → P → P
  int64_double : P → P → P → P
  double_int64 : P → P → P → P
  double_double : P → P → P → P

/-- The binary `ArithmeticOnValues::operation<FUNC, arithmeticOpStr>`
(arithmetic_operations.h:256); `dataTypeToString` is `TypeUtils::dataTypeToString`, declared
outside the sources. It returns `result`. -/
def ArithmeticOnValues.operation {P : Type} (func : ArithmeticOverloads P)
    (arithmeticOpStr : String) (dataTypeToString : DataType → String)
    (left right result : Value P) : Outcome (Value P) :=
  match left.dataType with
  | .INT64 =>
    match right.dataType with
    | .INT64 =>
      .returned { dataType := .INT64, val := func.int64_int64 left.val right.val result.val }
    | .DOUBLE =>
      .returned { dataType := .DOUBLE, val := func.int64_double left.val right.val result.val }
    | _ =>
      .thrown (.invalid_argument ("Cannot " ++ arithmeticOpStr ++ " `INT64` and `" ++
        dataTypeToString right.dataType ++ "`"))
  | .DOUBLE =>
    match right.dataType with
    | .INT64 =>
      .returned { dataType := .DOUBLE, val := func.double_int64 left.val right.val result.val }
    | .DOUBLE =>
      .returned { dataType := .DOUBLE, val := func.double_double left.val right.val result.val }
    | _ =>
      .thrown (.invalid_argument ("Cannot " ++ arithmeticOpStr ++ " `DOUBLE` and `" ++
        dataTypeToString right.dataType ++ "`"))
  | _ =>
    .thrown (.invalid_argument ("Cannot " ++ arithmeticOpStr ++ " `" ++
      dataTypeToString left.dataType ++ "` and `" ++ dataTypeToString right.dataType ++ "`"))

/-- The string constants `addStr`, `subtractStr` and `divideStr`
(arithmetic_operations.h:314). -/
def addStr : String := "add"

/-- The string constant `subtractStr`. -/
def subtractStr : String := "subtract"

/-- The string constant `divideStr`. -/
def divideStr : String := "divide"

/-- The typed overloads of `Add::operation` that the `Value` overload calls, as functions
of the unions of `left`, `right` and `result`. -/
structure AddOverloads (P : Type) where
  string_string : P → P → P → P
  date_interval : P → P → P → P
  date_int64 : P → P → P → P
  timestamp_interval : P → P → P → P
  interval_interval : P → P → P → P
  arithmetic : ArithmeticOverloads P

/-- The overload `Add::operation(Value&, Value&, Value&)` (arithmetic_operations.h:326). -/
def Add.operationOnValues {P : Type} (func : AddOverloads P)
    (dataTypeToString : DataType → String) (left right result : Value P) :
    Outcome (Value P) :=
  if left.dataType = .STRING then
    if right.dataType = .STRING then
      .returned { dataType := .STRING, val := func.string_string left.val right.val result.val }
    else .assertionFailure
  else if left.dataType = .DATE ∧ right.dataType = .INTERVAL then
    .returned { dataType := .DATE, val := func.date_interval left.val right.val result.val }
  else if left.dataType = .DATE ∧ right.dataType = .INT64 then
    .returned { dataType := .DATE, val := func.date_int64 left.val right.val result.val }
  else if left.dataType = .TIMESTAMP then
    if right.dataType = .INTERVAL then
      .returned { dataType := .TIMESTAMP,
                  val := func.timestamp_interval left.val right.val result.val }
    else .assertionFailure
  else if left.dataType = .INTERVAL then
    if right.dataType = .INTERVAL then
      .returned { dataType := .INTERVAL,
                  val := func.interval_interval left.val right.val result.val }
    else .assertionFailure
  else ArithmeticOnValues.operation func.arithmetic addStr dataTypeToString left right result

/-- The typed overloads of `Subtract::operation` that the `Value` overload calls. -/
structure SubtractOverloads (P : Type) where
  date_interval : P → P → P → P
  date_int64 : P → P → P → P
  date_date : P → P → P → P
  timestamp_interval : P → P → P → P
  timestamp_timestamp : P → P → P → P
  interval_interval : P → P → P → P
  arithmetic : ArithmeticOverloads P

/-- The overload `Subtract::operation(Value&, Value&, Value&)`
(arithmetic_operations.h:356). -/
def Subtract.operationOnValues {P : Type} (func : SubtractOverloads P)
    (dataTypeToString : DataType → String) (left right result : Value P) :
    Outcome (Value P) :=
  if left.dataType = .DATE ∧ right.dataType = .INTERVAL then
    .returned { dataType := .DATE, val := func.date_interval left.val right.val result.val }
  else if left.dataType = .DATE ∧ right.dataType = .INT64 then
    .returned { dataType := .DATE, val := func.date_int64 left.val right.val result.val }
  else if left.dataType = .DATE ∧ right.dataType = .DATE then
    .returned { dataType := .INT64, val := func.date_date left.val right.val result.val }
  else if left.dataType = .TIMESTAMP ∧ right.dataType = .INTERVAL then
    .returned { dataType := .TIMESTAMP,
                val := func.timestamp_interval left.val right.val result.val }
  else if left.dataType = .TIMESTAMP ∧ right.dataType = .TIMESTAMP then
    .returned { dataType := .INTERVAL,
                val := func.timestamp_timestamp left.val right.val result.val }
  else if left.dataType = .INTERVAL ∧ right.dataType = .INTERVAL then
    .returned { dataType := .INTERVAL,
                val := func.interval_interval left.val right.val result.val }
  else
    ArithmeticOnValues.operation func.arithmetic subtractStr dataTypeToString left right result

/-- The typed overloads of `Divide::operation` that the `Value` overload calls. -/
structure DivideOverloads (P : Type) where
  interval_int64 : P → P → P → P
  arithmetic : ArithmeticOverloads P

/-- The overload `Divide::operation(Value&, Value&, Value&)`
(arithmetic_operations.h:391). -/
def Divide.operationOnValues {P : Type} (func : DivideOverloads P)
    (dataTypeToString : DataType → String) (left right result : Value P) :
    Outcome (Value P) :=
  if left.dataType = .INTERVAL ∧ right.dataType = .INT64 then
    .returned { dataType := .INTERVAL, val := func.interval_int64 left.val right.val result.val }
  else ArithmeticOnValues.operation func.arithmetic divideStr dataTypeToString left right result

/-- The member function `NodeRelExpressionEvaluator::select` (node_rel_evaluator.h:17). It
returns how the call ends and the selection vector, passed by reference, after the call. -/
def NodeRelExpressionEvaluator.select (selVector : SelectionVector) :
    Outcome Bool × SelectionVector :=
  (.thrown (.NotImplementedException "NodeExpressionEvaluator::select"), selVector)

/-! ## Machine integers -/

/-- The 32-bit two's-complement integer with the bits of `x`: the value a signed 32-bit
operation leaves whose mathematical result is `x`, and the conversion `int32_t(x)`. -/
def wrap32 (x : Int) : Int := (x + 2 ^ 31) % 2 ^ 32 - 2 ^ 31

/-- The 64-bit two's-complement integer with the bits of `x`. -/
def wrap64 (x : Int) : Int := (x + 2 ^ 63) % 2 ^ 64 - 2 ^ 63

/-- The type `date_t` (declared outside the sources) as far as the operations read it: the
day number `days`, a 32-bit signed integer. -/
structure date_t where
  days : Int
  deriving DecidableEq, Repr

/-- The type `dtime_t` (declared outside the sources): the time of day `micros`, a 64-bit
signed integer. -/
structure dtime_t where
  micros : Int
  deriving DecidableEq, Repr

/-- The type `timestamp_t` (declared outside the sources): `value`, a 64-bit signed
integer. -/
structure timestamp_t where
  value : Int
  deriving DecidableEq, Repr

/-- The type `interval_t` (declared outside the sources): `months` and `days`, 32-bit
signed integers, and `micros`, a 64-bit signed integer. -/
structure interval_t where
  months : Int
  days : Int
  micros : Int
  deriving DecidableEq, Repr

/-- The constants of `Interval` the operations use. They are declared outside the sources
and the embedding takes their values as an argument; a product with `MONTHS_PER_YEAR` or
`DAYS_PER_MONTH` is taken on 32 bits and one with `MICROS_PER_DAY` on 64 bits. -/
structure IntervalConstants where
  MONTHS_PER_YEAR : Int
  DAYS_PER_MONTH : Int
  MICROS_PER_DAY : Int
  deriving DecidableEq, Repr

/-- The functions of `Date` the operations call, whose bodies are outside the sources:
`Date::Convert(date, year, month, day)`, `Date::MonthDays(year, month)` and
`Date::FromDate(year, month, day)`. The embedding takes them as an argument. -/
structure DateImpl where
  Convert : date_t → Int × Int × Int
  MonthDays : Int → Int → Int
  FromDate : Int → Int → Int → date_t

/-- The functions of `Timestamp` the operations call, whose bodies are outside the sources:
`Timestamp::Convert(timestamp, date, time)` and `Timestamp::FromDatetime(date, time)`. -/
structure TimestampImpl where
  Convert : timestamp_t → date_t × dtime_t
  FromDatetime : date_t → dtime_t → timestamp_t

/-- The month arithmetic of `Add::operation(date_t&, interval_t&, date_t&)`
(arithmetic_operations.h:143-153): the `year` and `month` after moving by the months
`months` of the interval. -/
def Add.addMonths (c : IntervalConstants) (year month months : Int) : Int × Int :=
  let year_diff := wrap32 (Int.tdiv months c.MONTHS_PER_YEAR)
  let year1 := wrap32 (year + year_diff)
  let month1 := wrap32 (month + wrap32 (months - wrap32 (year_diff * c.MONTHS_PER_YEAR)))
  if month1 > c.MONTHS_PER_YEAR then
    (wrap32 (year1 + 1), wrap32 (month1 - c.MONTHS_PER_YEAR))
  else if month1 ≤ 0 then
    (wrap32 (year1 - 1), wrap32 (month1 + c.MONTHS_PER_YEAR))
  else (year1, month1)

/-- The date `result` of `Add::operation(date_t&, interval_t&, date_t&)` before the days
and the micros of the interval are added (arithmetic_operations.h:140-160). -/
def Add.dateAfterMonths (impl : DateImpl) (c : IntervalConstants) (left : date_t)
    (right : interval_t) : date_t :=
  if right.months ≠ 0 then
    let (year, month, day) := impl.Convert left
    let (year1, month1) := Add.addMonths c year month right.months
    let maxDayInMonth := impl.MonthDays year1 month1
    let day1 := if day > maxDayInMonth then maxDayInMonth else day
    impl.FromDate year1 month1 day1
  else left

/-- The specialisation `Add::operation(date_t&, interval_t&, date_t&)`
(arithmetic_operations.h:139). -/
def Add.operation_date_interval (impl : DateImpl) (c : IntervalConstants) (left : date_t)
    (right : interval_t) : date_t :=
  let result := Add.dateAfterMonths impl c left right
  let result1 : date_t :=
    if right.days ≠ 0 then { days := wrap32 (result.days + right.days) } else result
  if right.micros ≠ 0 then
    { days := wrap32 (result1.days + wrap32 (Int.tdiv right.micros c.MICROS_PER_DAY)) }
  else result1

/-- The date and the time of day that `Add::operation(timestamp_t&, interval_t&,
timestamp_t&)` hands to `Timestamp::FromDatetime` (arithmetic_operations.h:171-187). -/
def Add.timestampIntervalDatetime (dimpl : DateImpl) (timpl : TimestampImpl)
    (c : IntervalConstants) (left : timestamp_t) (right : interval_t) : date_t × dtime_t :=
  let (date, time) := timpl.Convert left
  let result_date := Add.operation_date_interval dimpl c date right
  let diff := wrap64 (right.micros -
    wrap64 (wrap64 (Int.tdiv right.micros c.MICROS_PER_DAY) * c.MICROS_PER_DAY))
  let micros1 := wrap64 (time.micros + diff)
  if micros1 ≥ c.MICROS_PER_DAY then
    ({ days := wrap32 (result_date.days + 1) }, { micros := wrap64 (micros1 - c.MICROS_PER_DAY) })
  else if micros1 < 0 then
    ({ days := wrap32 (result_date.days - 1) }, { micros := wrap64 (micros1 + c.MICROS_PER_DAY) })
  else (result_date, { micros := micros1 })

/-- The specialisation `Add::operation(timestamp_t&, interval_t&, timestamp_t&)`
(arithmetic_operations.h:170). -/
def Add.operation_timestamp_interval (dimpl : DateImpl) (timpl : TimestampImpl)
    (c : IntervalConstants) (left : timestamp_t) (right : interval_t) : timestamp_t :=
  let datetime := Add.timestampIntervalDatetime dimpl timpl c left right
  timpl.FromDatetime datetime.1 datetime.2

/-- The interval `inverseRight` of the two `Subtract` specialisations: every component of
`right` negated, on its machine type. -/
def interval_t.inverse (right : interval_t) : interval_t :=
  { months := wrap32 (-right.months), days := wrap32 (-right.days),
    micros := wrap64 (-right.micros) }

/-- The specialisation `Subtract::operation(date_t&, interval_t&, date_t&)`
(arithmetic_operations.h:198). -/
def Subtract.operation_date_interval (impl : DateImpl) (c : IntervalConstants) (left : date_t)
    (right : interval_t) : date_t :=
  Add.operation_date_interval impl c left right.inverse

/-- The specialisation `Divide::operation(interval_t&, int64_t&, interval_t&)`
(arithmetic_operations.h:240). -/
def Divide.operation_interval_int64 (c : IntervalConstants) (left : interval_t)
    (right : Int) : interval_t :=
  let monthsRemainder := wrap32 (Int.tmod left.months right)
  let days1 := wrap32 (left.days + wrap32 (monthsRemainder * c.DAYS_PER_MONTH))
  let daysRemainder := wrap32 (Int.tmod days1 right)
  { months := wrap32 (Int.tdiv left.months right),
    days := wrap32 (Int.tdiv days1 right),
    micros := wrap64 (Int.tdiv
      (wrap64 (left.micros + wrap64 (daysRemainder * c.MICROS_PER_DAY))) right) }

/-! ## Templates with a failing primary body: `Modulo` -/

/-- The two C++ types at which `ArithmeticOnValues::operation` instantiates `FUNC`. -/
inductive CType where
  | int64_t
  | double_t
  deriving DecidableEq, Repr

/-- The values of a C++ type; `D` stands for `double_t`. -/
def CType.denote (D : Type) : CType → Type
  | .int64_t => Int
  | .double_t => D

/-- The union `val` of a `Value` as far as the arithmetic on `INT64` and `DOUBLE` reads and
writes it: the members `int64Val` and `doubleVal`, each holding what was last written to
it. -/
structure ValueUnion (D : Type) where
  int64Val : Int
  doubleVal : D

/-- A class `FUNC` with a member template `operation<A, B, R>(left, right, result)`: the
body that overload resolution selects for the static types of the three arguments, as a
function of `left`, `right` and `result` giving how the call ends and the `result` it
leaves; `none` where the behaviour of the body is undefined. -/
abbrev ArithmeticFunc (D : Type) :=
  (A B R : CType) → A.denote D → B.denote D → R.denote D → Option (Outcome (R.denote D))

/-- The end of a call of `FUNC::operation` inside `ArithmeticOnValues::operation`: when the
call returns, `result` is returned with the member that the call has written. -/
def ArithmeticOnValues.finish {D : Type} {R : Type} (dataType : DataType)
    (write : R → ValueUnion D) : Option (Outcome R) → Option (Outcome (Value (ValueUnion D)))
  | some (.returned v) => some (.returned { dataType := dataType, val := write v })
  | some (.thrown e) => some (.thrown e)
  | some .assertionFailure => some .assertionFailure
  | none => none

/-- The binary `ArithmeticOnValues::operation<FUNC, arithmeticOpStr>`
(arithmetic_operations.h:256) for a `FUNC` given with all the instantiations of its member
template: each call names the instantiation by the static types of its arguments. The
result is `none` where the behaviour of the call is undefined. -/
def ArithmeticOnValues.operationTemplate {D : Type} (func : ArithmeticFunc D)
    (arithmeticOpStr : String) (dataTypeToString : DataType → String)
    (left right result : Value (ValueUnion D)) : Option (Outcome (Value (ValueUnion D))) :=
  match left.dataType with
  | .INT64 =>
    match right.dataType with
    | .INT64 =>
      ArithmeticOnValues.finish .INT64 (fun v => { result.val with int64Val := v })
        (func .int64_t .int64_t .int64_t left.val.int64Val right.val.int64Val
          result.val.int64Val)
    | .DOUBLE =>
      ArithmeticOnValues.finish .DOUBLE (fun v => { result.val with doubleVal := v })
        (func .int64_t .double_t .double_t left.val.int64Val right.val.doubleVal
          result.val.doubleVal)
    | _ =>
      some (.thrown (.invalid_argument ("Cannot " ++ arithmeticOpStr ++ " `INT64` and `" ++
        dataTypeToString right.dataType ++ "`")))
  | .DOUBLE =>
    match right.dataType with
    | .INT64 =>
      ArithmeticOnValues.finish .DOUBLE (fun v => { result.val with doubleVal := v })
        (func .double_t .int64_t .double_t left.val.doubleVal right.val.int64Val
          result.val.doubleVal)
    | .DOUBLE =>
      ArithmeticOnValues.finish .DOUBLE (fun v => { result.val with doubleVal := v })
        (func .double_t .double_t .double_t left.val.doubleVal right.val.doubleVal
          result.val.doubleVal)
    | _ =>
      some (.thrown (.invalid_argument ("Cannot " ++ arithmeticOpStr ++ " `DOUBLE` and `" ++
        dataTypeToString right.dataType ++ "`")))
  | _ =>
    some (.thrown (.invalid_argument ("Cannot " ++ arithmeticOpStr ++ " `" ++
      dataTypeToString left.dataType ++ "` and `" ++ dataTypeToString right.dataType ++
      "`")))

/-- The function `fmod` of the C library at the three pairs of argument types of the
`Modulo` specialisations; floating-point arithmetic is outside the embedding, which takes
the function as an argument. -/
structure FmodImpl (D : Type) where
  fmod_int64_double : Int → D → D
  fmod_double_int64 : D → Int → D
  fmod_double_double : D → D → D

/-- The remainder `left % right` of two `int64_t` (arithmetic_operations.h:100): it has the
sign of the dividend, and its behaviour is undefined (`none`) when `right` is 0 and when the
quotient `left / right` is not an `int64_t`, which is the one case of the least 64-bit
integer divided by -1. -/
def Modulo.remainder_int64 (left right : Int) : Option Int :=
  if right = 0 ∨ (left = -2 ^ 63 ∧ right = -1) then none else some (Int.tmod left right)

/-- The struct `Modulo` (arithmetic_operations.h:43, 98-116): its four specialisations, and
the primary template, whose body is `assert(false)`, at every other instantiation. -/
def Modulo.operation {D : Type} (fm : FmodImpl D) : ArithmeticFunc D
  | .int64_t, .int64_t, .int64_t, left, right, _ =>
    (Modulo.remainder_int64 left right).map Outcome.returned
  | .int64_t, .double_t, .double_t, left, right, _ =>
    some (.returned (fm.fmod_int64_double left right))
  | .double_t, .int64_t, .double_t, left, right, _ =>
    some (.returned (fm.fmod_double_int64 left right))
  | .double_t, .double_t, .double_t, left, right, _ =>
    some (.returned (fm.fmod_double_double left right))
  | _, _, _, _, _, _ => some .assertionFailure

/-- The string constant `moduloStr` (arithmetic_operations.h:318). -/
def moduloStr : String := "modulo"

/-- The overload `Modulo::operation(Value&, Value&, Value&)`
(arithmetic_operations.h:400). -/
def Modulo.operationOnValues {D : Type} (fm : FmodImpl D)
    (dataTypeToString : DataType → String) (left right result : Value (ValueUnion D)) :
    Option (Outcome (Value (ValueUnion D))) :=
  ArithmeticOnValues.operationTemplate (Modulo.operation fm) moduloStr dataTypeToString left
    right result

/-! ## String concatenation -/

/-- Modelled from the spec: `gf_string_t` is declared outside the sources; the spec gives a
value "stored inline" when short and otherwise "(prefix bytes, pointer ..., total length)".
The model keeps the length `len` (a `uint32_t`), the bytes `inlined` of the value itself,
which are the array `prefix` followed by the bytes it shares with the pointer, and the bytes
`overflow` of the buffer that `overflowPtr` points to. -/
structure gf_string_t where
  len : Nat
  inlined : List Nat
  overflow : List Nat
  deriving DecidableEq, Repr

/-- Modelled from the spec: `gf_string_t::getData()` is outside the sources; the bytes are
those of the value itself for a short string and those of the overflow buffer otherwise. -/
def gf_string_t.getData (SHORT_STR_LENGTH : Nat) (s : gf_string_t) : List Nat :=
  if s.len ≤ SHORT_STR_LENGTH then s.inlined else s.overflow

/-- The call `memcpy(dst + offset, src, n)` on byte sequences: the `n` first bytes of `src`
replace the bytes of `dst` from `offset` on. It has no result when `src` has fewer than `n`
bytes or `dst` fewer than `offset + n`. -/
def memcpy (dst : List Nat) (offset : Nat) (src : List Nat) (n : Nat) : Option (List Nat) :=
  if n ≤ src.length ∧ offset + n ≤ dst.length then
    some (dst.take offset ++ src.take n ++ dst.drop (offset + n))
  else none

/-- The specialisation `Add::operation(gf_string_t&, gf_string_t&, gf_string_t&)`
(arithmetic_operations.h:124); `SHORT_STR_LENGTH` and `PREFIX_LENGTH` are the constants of
`gf_string_t`, declared outside the sources. It returns `result` after the call. -/
def Add.operation_string (SHORT_STR_LENGTH PREFIX_LENGTH : Nat)
    (left right result : gf_string_t) : Exec gf_string_t :=
  let len := (left.len + right.len) % 2 ^ 32
  if len ≤ SHORT_STR_LENGTH then
    match memcpy result.inlined 0 left.inlined left.len with
    | none => .fault .invalidAccess
    | some inlined1 =>
      match memcpy inlined1 left.len right.inlined right.len with
      | none => .fault .invalidAccess
      | some inlined2 => .done { result with inlined := inlined2, len := len }
  else
    let buffer := result.overflow
    match memcpy buffer 0 (left.getData SHORT_STR_LENGTH) left.len with
    | none => .fault .invalidAccess
    | some buffer1 =>
      match memcpy buffer1 left.len (right.getData SHORT_STR_LENGTH) right.len with
      | none => .fault .invalidAccess
      | some buffer2 =>
        match memcpy result.inlined 0 buffer2 PREFIX_LENGTH with
        | none => .fault .invalidAccess
        | some inlined1 => .done { len := len, inlined := inlined1, overflow := buffer2 }

/-! ## Validation of parsed expressions -/

/-- The enum `ExpressionType` (declared outside the sources): the enumerator
`parsed_expression.cpp` names, and `OTHER` for every further one. -/
inductive ExpressionType where
  | LITERAL
  | OTHER (id : Nat)
  deriving DecidableEq, Repr

/-- A `ParsedExpression` as far as the validation reads it: `getExpressionType()`,
`toString()` and, when the object is a `ParsedLiteralExpression`, the data type
`getValue().getDataType()` of its value; `L` stands for `LogicalType`, declared outside the
sources. -/
structure ParsedExpression (L : Type) where
  expressionType : ExpressionType
  toString : String
  literalValueDataType : Option L

/-- The characters of `stringFormat(format, args...)`: each placeholder of an opening and a
closing brace is replaced by the next argument. -/
def stringFormatChars : List Char → List String → List Char
  | '\x7b' :: '\x7d' :: rest, arg :: args => arg.data ++ stringFormatChars rest args
  | ch :: rest, args => ch :: stringFormatChars rest args
  | [], _ => []

/-- Modelled from the spec: the helper `stringFormat` is declared outside the sources; it
builds the "human-readable message" of an exception from a format by replacing each
placeholder of an opening and a closing brace by the next argument. -/
def stringFormat (format : String) (args : List String) : String :=
  String.mk (stringFormatChars format.data args)

/-- The function `ParsedExpressionUtils::validateExpressionType`
(parsed_expression.cpp:90); `exprTypeToString` is `ExpressionTypeUtil::toString`, declared
outside the sources. -/
def ParsedExpressionUtils.validateExpressionType {L : Type}
    (exprTypeToString : ExpressionType → String) (expr : ParsedExpression L)
    (type : ExpressionType) : Outcome Unit :=
  if expr.expressionType = type then .returned ()
  else
    .thrown (.BinderException (stringFormat "\x7b\x7d has type \x7b\x7d but \x7b\x7d was expected."
      [expr.toString, exprTypeToString expr.expressionType, exprTypeToString type]))

/-- The function `ParsedExpressionUtils::validateDataType` (parsed_expression.cpp:100);
`logicalTypeToString` is `LogicalType::toString`, declared outside the sources, and the
cast to `ParsedLiteralExpression` of an object of another class fails the check of the
cast. -/
def ParsedExpressionUtils.validateDataType {L : Type} [DecidableEq L]
    (logicalTypeToString : L → String) (expr : ParsedExpression L) (type : L) :
    Outcome Unit :=
  if expr.expressionType ≠ .LITERAL then .assertionFailure
  else
    match expr.literalValueDataType with
    | none => .assertionFailure
    | some dataType =>
      if dataType = type then .returned ()
      else
        .thrown (.BinderException (stringFormat
          "\x7b\x7d has type \x7b\x7d but \x7b\x7d was expected."
          [expr.toString, logicalTypeToString dataType, logicalTypeToString type]))

/-! ## The node group of the specification -/

/-- Modelled from the spec: the rows of a chunk that a scan for bound node `n` streams,
as pairs (row index, rel-ID offset) in storage order; `i` is the row index of the head of
the list. A row is streamed when it lies in the CSR range of `n` and is not marked deleted
("rows within the requested node's CSR range ... under the transaction's visibility"). -/
def visibleRowsFrom (n : Nat) : Nat → List StoredRow → List (Nat × Nat)
  | _, [] => []
  | i, row :: rows =>
    if row.boundNodeOffset = n ∧ row.deleted = false then
      (i, row.relOffset) :: visibleRowsFrom n (i + 1) rows
    else visibleRowsFrom n (i + 1) rows

/-- Modelled from the spec: the rows of an optional chunk a scan for bound node `n`
streams. -/
def visibleRows (n : Nat) (c : Option ChunkedNodeGroup) : List (Nat × Nat) :=
  match c with
  | none => []
  | some chunk => visibleRowsFrom n 0 chunk.rows

/-- Modelled from the spec: the flat output vectors of one scan call that streams the rows
`vis` of the storage `source`; no call is made for an empty `vis`. -/
def scanBatchOf (source : CSRNodeGroupScanSource) (vis : List (Nat × Nat)) : List ScanBatch :=
  if vis = [] then []
  else
    [{ outState := { selectedSize := vis.length, positions := List.range vis.length },
       scannedIDVector := vis.map Prod.snd,
       rowIdxVector := vis.map Prod.fst,
       source := source }]

/-- Modelled from the spec: `CSRNodeGroup::scan` is outside the sources; it "streams rows
within the requested node's CSR range ..., producing flat output vectors; returns an
empty-result sentinel when the group/range has no matching rows under the transaction's
visibility". The persisted rows come first, then the in-memory rows, one call for each
storage that has a visible row, and the sentinel afterwards. -/
def CSRNodeGroup.scan (_transaction : Transaction) (g : CSRNodeGroup) (n : Nat) : ScanStream :=
  fun k =>
    (scanBatchOf .COMMITTED_PERSISTENT (visibleRows n g.persistentChunkedGroup) ++
      scanBatchOf .COMMITTED_IN_MEMORY (visibleRows n g.inMemChunkedGroup))[k]?

/-- Modelled from the spec: marking row `rowIdx` of a row list deleted; the boolean tells
"whether a row was actually newly marked". -/
def markDeleted : Nat → List StoredRow → Bool × List StoredRow
  | _, [] => (false, [])
  | 0, row :: rows =>
    if row.deleted then (false, row :: rows) else (true, { row with deleted := true } :: rows)
  | i + 1, row :: rows => ((markDeleted i rows).1, row :: (markDeleted i rows).2)

/-- Modelled from the spec: marking a row of an optional chunk deleted. -/
def markDeletedInChunk (rowIdx : Nat) (c : Option ChunkedNodeGroup) :
    Bool × Option ChunkedNodeGroup :=
  match c with
  | none => (false, none)
  | some chunk => ((markDeleted rowIdx chunk.rows).1, some { rows := (markDeleted rowIdx chunk.rows).2 })

/-- Modelled from the spec: `CSRNodeGroup::delete_` is outside the sources; it "marks a row
deleted for the given transaction's visibility; returns whether a row was actually newly
marked (idempotent against already-deleted rows)"; `source` "selects which underlying
chunked group is mutated". -/
def CSRNodeGroup.delete_ (_transaction : Transaction) (g : CSRNodeGroup)
    (source : CSRNodeGroupScanSource) (rowIdx : Nat) : Bool × CSRNodeGroup :=
  match source with
  | .COMMITTED_PERSISTENT =>
    ((markDeletedInChunk rowIdx g.persistentChunkedGroup).1,
     { g with persistentChunkedGroup := (markDeletedInChunk rowIdx g.persistentChunkedGroup).2 })
  | .COMMITTED_IN_MEMORY =>
    ((markDeletedInChunk rowIdx g.inMemChunkedGroup).1,
     { g with inMemChunkedGroup := (markDeletedInChunk rowIdx g.inMemChunkedGroup).2 })
  | .NONE => (false, g)

/-- Modelled from the spec: writing `value` into column `columnID` of row `rowIdx` of an
optional chunk. -/
def updateInChunk (rowIdx columnID value : Nat) (c : Option ChunkedNodeGroup) :
    Option ChunkedNodeGroup :=
  match c with
  | none => none
  | some chunk =>
    match chunk.rows[rowIdx]? with
    | none => some chunk
    | some row =>
      some { rows := chunk.rows.set rowIdx { row with values := row.values.set columnID value } }

/-- Modelled from the spec: `CSRNodeGroup::update` is outside the sources; it is an
"in-place column update restricted to one physical row; `source` ... selects which
underlying chunked group is mutated". -/
def CSRNodeGroup.update (_transaction : Transaction) (g : CSRNodeGroup)
    (source : CSRNodeGroupScanSource) (rowIdx columnID : Nat) (dataVector : ValueVector) :
    CSRNodeGroup :=
  match source with
  | .COMMITTED_PERSISTENT =>
    let value := dataVector.getValue (dataVector.selVector.get 0)
    { g with persistentChunkedGroup := updateInChunk rowIdx columnID value g.persistentChunkedGroup }
  | .COMMITTED_IN_MEMORY =>
    let value := dataVector.getValue (dataVector.selVector.get 0)
    { g with inMemChunkedGroup := updateInChunk rowIdx columnID value g.inMemChunkedGroup }
  | .NONE => g

/-! ## Sample objects -/

/-- A sample implementation of the outside member functions: `scan`, `update` and `delete_`
are the ones modelled from the spec; `NodeGroup::rollbackInsert(startRow)` cuts the row
count back to `startRow`, the rollback primitive cuts a chunk back to `startRow` rows, and
the collection's checkpoint leaves the collection as it is. -/
def sampleNodeGroupImpl : NodeGroupImpl :=
  { scan := CSRNodeGroup.scan
    update := CSRNodeGroup.update
    delete_ := CSRNodeGroup.delete_
    rollbackInsert := fun g startRow => { g with numRows := startRow }
    chunkRollbackInsert := fun c startRow _ _ => { rows := c.rows.take startRow }
    checkpoint := fun c _ => c }

/-- A sample node group with index 0: two persisted rows and three in-memory rows. -/
def sampleNodeGroup : CSRNodeGroup :=
  { nodeGroupIdx := 0
    persistentChunkedGroup := some { rows := [
      { boundNodeOffset := 0, relOffset := 10, values := [], deleted := false },
      { boundNodeOffset := 1, relOffset := 11, values := [], deleted := false }] }
    inMemChunkedGroup := some { rows := [
      { boundNodeOffset := 1, relOffset := 12, values := [], deleted := false },
      { boundNodeOffset := 0, relOffset := 13, values := [], deleted := false },
      { boundNodeOffset := 0, relOffset := 14, values := [], deleted := true }] }
    numRows := 3 }

/-- A sample table: two columns and the sample node group. -/
def sampleTable : RelTableData :=
  { columns := [some { name := "NBR_ID" }, some { name := "REL_ID" }]
    nodeGroups := { nodeGroups := [sampleNodeGroup], numTotalRows := 3 } }

/-- A table that has no node group yet. -/
def emptyTable : RelTableData :=
  { columns := [some { name := "NBR_ID" }, some { name := "REL_ID" }]
    nodeGroups := { nodeGroups := [], numTotalRows := 0 } }

/-- A sample write transaction that appends to the undo buffer. -/
def sampleTransaction : Transaction :=
  { appendToUndoBuffer := true, commitTS := 7, undoBuffer := [] }

/-- A sample overflow file with four cursor slots: no handle yet, six pages handed out and
the header-changed flag set. -/
def sampleOverflowFile : OverflowFile 4 :=
  { handles := [], header := StringOverflowFileHeader.new 4 { pageIdx := 0, elemPosInPage := 0 },
    pageCounter := 6, headerChanged := true }

/-- A sample catalog entry of a relationship table: the rel-ID property at column 1 and a
property `since` at column 2. -/
def sampleCatalogEntry : TableCatalogEntry :=
  { tableID := 5
    properties := [{ name := "_ID", type := "INTERNAL_ID" }, { name := "since", type := "INT64" }]
    getColumnID := fun name => if name = "_ID" then 1 else if name = "since" then 2 else 0
    maxColumnID := 2
    nbrTableID := 3 }

/-- A sample column builder: the column name is the property name with a direction
suffix, and the factory creates an `InternalIDColumn` for the type `INTERNAL_ID`. -/
def sampleColumnImpl : ColumnImpl :=
  { getColumnName := fun name => name ++ "_fwd"
    createColumn := fun name type =>
      { name := name, isInternalIDColumn := decide (type = "INTERNAL_ID") } }

/-- Sample names of the data types. -/
def sampleDataTypeToString : DataType → String
  | .INT64 => "INT64"
  | .DOUBLE => "DOUBLE"
  | .STRING => "STRING"
  | .DATE => "DATE"
  | .TIMESTAMP => "TIMESTAMP"
  | .INTERVAL => "INTERVAL"
  | .OTHER _ => "BOOL"

/-- A vector with two selected positions whose first selected value is null. -/
def nullKeyVector : ValueVector :=
  { selVector := { selectedSize := 2, positions := [0, 1] }, nullMask := [true, false],
    values := [0, 1], isFlat := false }

/-- A flat vector whose single selected value is null. -/
def flatNullVector : ValueVector :=
  { selVector := { selectedSize := 1, positions := [0] }, nullMask := [true], values := [0] }

/-- The usual values of the constants of `Interval`: 12 months per year, 30 days per month
and 86400000000 microseconds per day. -/
def sampleIntervalConstants : IntervalConstants :=
  { MONTHS_PER_YEAR := 12, DAYS_PER_MONTH := 30, MICROS_PER_DAY := 86400000000 }

/-- The number of days of a month of the proleptic Gregorian calendar. -/
def gregorianMonthDays (year month : Int) : Int :=
  if month = 2 then
    if year % 4 = 0 ∧ (year % 100 ≠ 0 ∨ year % 400 = 0) then 29 else 28
  else if month = 4 ∨ month = 6 ∨ month = 9 ∨ month = 11 then 30
  else 31

/-- The day number of a date of the proleptic Gregorian calendar, counted from
1970-01-01. -/
def gregorianFromDate (year month day : Int) : Int :=
  let y := if month ≤ 2 then year - 1 else year
  let era := y / 400
  let yoe := y - era * 400
  let doy := (153 * (if month > 2 then month - 3 else month + 9) + 2) / 5 + day - 1
  let doe := yoe * 365 + yoe / 4 - yoe / 100 + doy
  era * 146097 + doe - 719468

/-- The date of the proleptic Gregorian calendar with a day number counted from
1970-01-01. -/
def gregorianConvert (days : Int) : Int × Int × Int :=
  let z := days + 719468
  let era := z / 146097
  let doe := z - era * 146097
  let yoe := (doe - doe / 1460 + doe / 36524 - doe / 146096) / 365
  let doy := doe - (365 * yoe + yoe / 4 - yoe / 100)
  let mp := (5 * doy + 2) / 153
  let day := doy - (153 * mp + 2) / 5 + 1
  let month := if mp < 10 then mp + 3 else mp - 9
  let year := yoe + era * 400 + (if month ≤ 2 then 1 else 0)
  (year, month, day)

/-- A sample of the functions of `Date`: the proleptic Gregorian calendar. -/
def sampleDateImpl : DateImpl :=
  { Convert := fun date => gregorianConvert date.days
    MonthDays := gregorianMonthDays
    FromDate := fun year month day => { days := wrap32 (gregorianFromDate year month day) } }

/-- A sample of the functions of `Timestamp`: the value of a timestamp is its day number
times the microseconds per day plus its time of day. -/
def sampleTimestampImpl : TimestampImpl :=
  { Convert := fun timestamp =>
      ({ days := timestamp.value / 86400000000 }, { micros := timestamp.value % 86400000000 })
    FromDatetime := fun date time =>
      { value := wrap64 (date.days * 86400000000 + time.micros) } }

/-- The short string "ab", in a value of 12 bytes. -/
def sampleShortString : gf_string_t :=
  { len := 2, inlined := [97, 98, 0, 0, 0, 0, 0, 0, 0, 0, 0, 0], overflow := [] }

/-- The long string "0123456789abc", in a value of 12 bytes with a prefix of 4 bytes. -/
def sampleLongString : gf_string_t :=
  { len := 13, inlined := [48, 49, 50, 51, 0, 0, 0, 0, 0, 0, 0, 0],
    overflow := [48, 49, 50, 51, 52, 53, 54, 55, 56, 57, 97, 98, 99] }

/-- A result string with an overflow buffer of 16 bytes. -/
def sampleResultString : gf_string_t :=
  { len := 0, inlined := List.replicate 12 0, overflow := List.replicate 16 0 }

/-- A sample of `fmod` on doubles represented by integers: the remainder of the
integers. -/
def sampleFmodImpl : FmodImpl Int :=
  { fmod_int64_double := fun l r => Int.tmod l r
    fmod_double_int64 := fun l r => Int.tmod l r
    fmod_double_double := fun l r => Int.tmod l r }

/-- A flat vector holding the single, non-null value `v`. -/
def flatVector (v : Nat) : ValueVector :=
  { selVector := { selectedSize := 1, positions := [0] }, nullMask := [false], values := [v] }

/-! ## Notions used to state the properties -/

/-- The `i`-th selected row of the batch returned by call `k` is a scanned row: call `k`
returned the batch `b`, no earlier call reported the sentinel, and `i` is below the
selected size of `b`. -/
def ScannedRow (scan : ScanStream) (k i : Nat) (b : ScanBatch) : Prop :=
  scan k = some b ∧ (∀ j, j < k → scan j ≠ none) ∧ i < b.outState.getSelSize

/-- The scanned row `(k, i)` is the first one, in scan order, whose rel-ID offset is
`relOffset`. -/
def FirstMatchingRow (scan : ScanStream) (relOffset k i : Nat) (b : ScanBatch) : Prop :=
  ScannedRow scan k i b ∧ b.relOffsetAt i = relOffset ∧
    (∀ j, j < i → b.relOffsetAt j ≠ relOffset) ∧
    (∀ k1 b1 j, k1 < k → ScannedRow scan k1 j b1 → b1.relOffsetAt j ≠ relOffset)

/-- Row `rowIdx` of the storage `source` of node group `g` is a live row of the pair
(bound node `n`, rel-ID offset `r`): it lies in the CSR range of `n`, is not marked
deleted and stores `r`. -/
def LiveRow (g : CSRNodeGroup) (n r : Nat) (source : CSRNodeGroupScanSource) (rowIdx : Nat) :
    Prop :=
  (source = .COMMITTED_PERSISTENT ∧ (rowIdx, r) ∈ visibleRows n g.persistentChunkedGroup) ∨
  (source = .COMMITTED_IN_MEMORY ∧ (rowIdx, r) ∈ visibleRows n g.inMemChunkedGroup)

/-- The total duration of an interval in microseconds, a month counted as `DAYS_PER_MONTH`
days. -/
def interval_t.total (c : IntervalConstants) (i : interval_t) : Int :=
  (i.months * c.DAYS_PER_MONTH + i.days) * c.MICROS_PER_DAY + i.micros

/-- The bytes of a string: the `len` first bytes of its data. -/
def gf_string_t.bytes (SHORT_STR_LENGTH : Nat) (s : gf_string_t) : List Nat :=
  (s.getData SHORT_STR_LENGTH).take s.len

/-- A string whose value has `SHORT_STR_LENGTH` bytes and whose data holds its `len`
bytes. -/
def gf_string_t.WellFormed (SHORT_STR_LENGTH : Nat) (s : gf_string_t) : Prop :=
  s.inlined.length = SHORT_STR_LENGTH ∧ s.len ≤ (s.getData SHORT_STR_LENGTH).length

/-! # Properties -/

/-! ## `findMatchingRow` -/

theorem findMatchingRowInBatch_none (b : ScanBatch) (r : Nat) (acc : CSRNodeGroupScanSource × Nat) :
    ∀ (m i : Nat), (∀ j, i ≤ j → j < i + m → b.relOffsetAt j ≠ r) →
      findMatchingRowInBatch b r m i acc = acc := by
  intro m
  induction m with
  | zero => intro i _; rfl
  | succ m ih =>
    intro i h
    have h0 : b.relOffsetAt i ≠ r := h i (le_refl _) (by omega)
    rw [findMatchingRowInBatch, if_neg h0]
    exact ih (i + 1) (fun j hj1 hj2 => h j (by omega) (by omega))

theorem findMatchingRowInBatch_first (b : ScanBatch) (r : Nat) (acc : CSRNodeGroupScanSource × Nat) :
    ∀ (m i j : Nat), i ≤ j → j < i + m → b.relOffsetAt j = r →
      (∀ j1, i ≤ j1 → j1 < j → b.relOffsetAt j1 ≠ r) →
      findMatchingRowInBatch b r m i acc = (b.source, b.rowIdxAt j) := by
  intro m
  induction m with
  | zero => intro i j h1 h2; omega
  | succ m ih =>
    intro i j h1 h2 h3 h4
    by_cases hij : i = j
    · subst hij
      rw [findMatchingRowInBatch, if_pos h3]
    · have h0 : b.relOffsetAt i ≠ r := h4 i (le_refl _) (by omega)
      rw [findMatchingRowInBatch, if_neg h0]
      exact ih (i + 1) j (by omega) (by omega) h3 (fun j1 hj1 hj2 => h4 j1 (by omega) hj2)

/-- No batch from call `k` up to a sentinel at call `n` holds a match: the loop returns its
accumulator unchanged. -/
theorem findMatchingRowLoop_none (scan : ScanStream) (r n : Nat) (hn : scan n = none) :
    ∀ (d k fuel : Nat) (acc : CSRNodeGroupScanSource × Nat), k + d = n → d < fuel →
      acc.2 = INVALID_ROW_IDX →
      (∀ k1 b, k ≤ k1 → k1 < n → scan k1 = some b →
        ∀ j, j < b.outState.getSelSize → b.relOffsetAt j ≠ r) →
      findMatchingRowLoop scan r fuel k acc = .done acc := by
  intro d
  induction d with
  | zero =>
    intro k fuel acc hk hf _ _
    obtain ⟨f, rfl⟩ : ∃ f, fuel = f + 1 := ⟨fuel - 1, by omega⟩
    have : scan k = none := by rw [← hn]; congr 1
    rw [findMatchingRowLoop, this]
  | succ d ih =>
    intro k fuel acc hk hf hacc hno
    obtain ⟨f, rfl⟩ : ∃ f, fuel = f + 1 := ⟨fuel - 1, by omega⟩
    rw [findMatchingRowLoop]
    cases hs : scan k with
    | none => rfl
    | some b =>
      have hb := findMatchingRowInBatch_none b r acc b.outState.getSelSize 0
        (fun j _ hj => hno k b (le_refl _) (by omega) hs j (by omega))
      simp only [hb, hacc, ne_eq, not_true_eq_false, if_false]
      exact ih (k + 1) f acc (by omega) (by omega) hacc
        (fun k1 b1 h1 h2 h3 => hno k1 b1 (by omega) h2 h3)

/-- The first match from call `k` on is row `i` of the batch of call `k0`, and its row index
is not the sentinel: the loop returns that row's source and index. -/
theorem findMatchingRowLoop_first (scan : ScanStream) (r k0 i : Nat) (b : ScanBatch)
    (hs : scan k0 = some b) (hi : i < b.outState.getSelSize) (hm : b.relOffsetAt i = r)
    (hfirst : ∀ j, j < i → b.relOffsetAt j ≠ r) (hvalid : b.rowIdxAt i ≠ INVALID_ROW_IDX) :
    ∀ (d k fuel : Nat) (acc : CSRNodeGroupScanSource × Nat), k + d = k0 → d < fuel →
      acc.2 = INVALID_ROW_IDX →
      (∀ k1, k ≤ k1 → k1 < k0 → ∃ b1, scan k1 = some b1 ∧
        ∀ j, j < b1.outState.getSelSize → b1.relOffsetAt j ≠ r) →
      findMatchingRowLoop scan r fuel k acc = .done (b.source, b.rowIdxAt i) := by
  intro d
  induction d with
  | zero =>
    intro k fuel acc hk hf _ _
    obtain ⟨f, rfl⟩ : ∃ f, fuel = f + 1 := ⟨fuel - 1, by omega⟩
    have hk0 : k = k0 := by omega
    subst hk0
    rw [findMatchingRowLoop, hs]
    have hb := findMatchingRowInBatch_first b r acc b.outState.getSelSize 0 i (Nat.zero_le _)
      (by omega) hm (fun j _ hj => hfirst j hj)
    simp only [hb, ne_eq, hvalid, not_false_eq_true, if_true]
  | succ d ih =>
    intro k fuel acc hk hf hacc hno
    obtain ⟨f, rfl⟩ : ∃ f, fuel = f + 1 := ⟨fuel - 1, by omega⟩
    obtain ⟨b1, hs1, hno1⟩ := hno k (le_refl _) (by omega)
    rw [findMatchingRowLoop, hs1]
    have hb := findMatchingRowInBatch_none b1 r acc b1.outState.getSelSize 0
      (fun j _ hj => hno1 j (by omega))
    simp only [hb, hacc, ne_eq, not_true_eq_false, if_false]
    exact ih (k + 1) f acc (by omega) (by omega) hacc
      (fun k1 h1 h2 => hno k1 (by omega) h2)


theorem scannedRow_lt_sentinel {scan : ScanStream} {k i n : Nat} {b : ScanBatch}
    (h : ScannedRow scan k i b) (hn : scan n = none) : k < n := by
  rcases Nat.lt_or_ge k n with hlt | hge
  · exact hlt
  · exfalso
    rcases Nat.eq_or_lt_of_le hge with heq | hlt
    · rw [heq, h.1] at hn; cases hn
    · exact h.2.1 n hlt hn

theorem exists_firstMatchingRow {scan : ScanStream} {r : Nat}
    (h : ∃ k i b, ScannedRow scan k i b ∧ b.relOffsetAt i = r) :
    ∃ k i b, FirstMatchingRow scan r k i b := by
  classical
  let P : Nat → Prop := fun k => ∃ i b, ScannedRow scan k i b ∧ b.relOffsetAt i = r
  have hP : ∃ k, P k := h
  obtain ⟨i0, b, hsc, hm⟩ := Nat.find_spec hP
  let Q : Nat → Prop := fun i => i < b.outState.getSelSize ∧ b.relOffsetAt i = r
  have hQ : ∃ i, Q i := ⟨i0, hsc.2.2, hm⟩
  obtain ⟨hi, hmi⟩ := Nat.find_spec hQ
  refine ⟨Nat.find hP, Nat.find hQ, b, ⟨hsc.1, hsc.2.1, hi⟩, hmi, ?_, ?_⟩
  · intro j hj hj2
    exact Nat.find_min hQ hj ⟨by omega, hj2⟩
  · intro k1 b1 j hk1 hsc1 hm1
    exact Nat.find_min hP hk1 ⟨j, b1, hsc1, hm1⟩

theorem findMatchingRowLoop_of_first {scan : ScanStream} {r k i n fuel : Nat} {b : ScanBatch}
    (h : FirstMatchingRow scan r k i b) (hn : scan n = none) (hfuel : n < fuel)
    (hvalid : b.rowIdxAt i ≠ INVALID_ROW_IDX) :
    findMatchingRowLoop scan r fuel 0 (.NONE, INVALID_ROW_IDX) =
      .done (b.source, b.rowIdxAt i) := by
  obtain ⟨hsc, hm, hfi, hfk⟩ := h
  have hk := scannedRow_lt_sentinel hsc hn
  refine findMatchingRowLoop_first scan r k i b hsc.1 hsc.2.2 hm hfi hvalid k 0 fuel _
    (by omega) (by omega) rfl ?_
  intro k1 _ hk1
  cases hs : scan k1 with
  | none => exact absurd hs (hsc.2.1 k1 hk1)
  | some b1 =>
    refine ⟨b1, rfl, fun j hj => hfk k1 b1 j hk1 ⟨hs, ?_, hj⟩⟩
    intro j1 hj1
    exact hsc.2.1 j1 (by omega)

theorem findMatchingRowLoop_of_none {scan : ScanStream} {r n fuel : Nat}
    (hn : scan n = none) (hfuel : n < fuel)
    (h : ∀ k i b, ScannedRow scan k i b → b.relOffsetAt i ≠ r) :
    findMatchingRowLoop scan r fuel 0 (.NONE, INVALID_ROW_IDX) =
      .done (.NONE, INVALID_ROW_IDX) := by
  classical
  have hP : ∃ k, scan k = none := ⟨n, hn⟩
  have hle : Nat.find hP ≤ n := Nat.find_min' hP hn
  refine findMatchingRowLoop_none scan r (Nat.find hP) (Nat.find_spec hP) (Nat.find hP) 0 fuel _
    (by omega) (by omega) rfl ?_
  intro k1 b _ hk1 hs j hj
  refine h k1 j b ⟨hs, ?_, hj⟩
  intro j1 hj1
  exact Nat.find_min hP (by omega)

/-- The loop returns as soon as the scan has reported the sentinel. -/
theorem findMatchingRowLoop_returns (scan : ScanStream) (r : Nat) :
    ∀ (d k fuel : Nat) (acc : CSRNodeGroupScanSource × Nat), scan (k + d) = none → d < fuel →
      ∃ res, findMatchingRowLoop scan r fuel k acc = .done res := by
  intro d
  induction d with
  | zero =>
    intro k fuel acc hn hf
    obtain ⟨f, rfl⟩ : ∃ f, fuel = f + 1 := ⟨fuel - 1, by omega⟩
    rw [Nat.add_zero] at hn
    rw [findMatchingRowLoop, hn]
    exact ⟨acc, rfl⟩
  | succ d ih =>
    intro k fuel acc hn hf
    obtain ⟨f, rfl⟩ : ∃ f, fuel = f + 1 := ⟨fuel - 1, by omega⟩
    rw [findMatchingRowLoop]
    cases hs : scan k with
    | none => exact ⟨acc, rfl⟩
    | some b =>
      simp only
      split
      · exact ⟨_, rfl⟩
      · exact ih (k + 1) f _ (by rw [← hn]; congr 1; omega) (by omega)

/-- C10. `RelTableData::findMatchingRow` is a linear search over the rows scanned for the
bound node. When both vectors have one selected position and the node group of the bound
node exists, the call returns whenever the scan reports the empty-result sentinel at some
call `n` and the fuel exceeds `n`. Row indices being real row indices (the first scanned
row with the target's rel-ID offset, if any, does not carry the sentinel `INVALID_ROW_IDX`
as its row index), it returns `(NONE, INVALID_ROW_IDX)` if and only if no scanned row has a
rel-ID offset equal to the offset of the target rel-ID, and otherwise it returns the scan
source and the row index of the first such row in scan order. -/
theorem findMatchingRow_linear_search (impl : NodeGroupImpl) (fuel n : Nat)
    (transaction : Transaction) (t : RelTableData) (boundNodeIDVector relIDVector : ValueVector)
    (nodeGroup : CSRNodeGroup)
    (hbound : boundNodeIDVector.selVector.getSelSize = 1)
    (hrel : relIDVector.selVector.getSelSize = 1)
    (hgroup : t.getNodeGroup (StorageUtils.getNodeGroupIdx
      (boundNodeIDVector.getValue (boundNodeIDVector.selVector.get 0))) = some nodeGroup)
    (hsentinel : impl.scan transaction nodeGroup
      (boundNodeIDVector.getValue (boundNodeIDVector.selVector.get 0)) n = none)
    (hfuel : n < fuel) :
    ∃ res, RelTableData.findMatchingRow impl fuel transaction t boundNodeIDVector relIDVector
        = .done res ∧
      ((∀ k i b, FirstMatchingRow (impl.scan transaction nodeGroup
            (boundNodeIDVector.getValue (boundNodeIDVector.selVector.get 0)))
          (relIDVector.getValue (relIDVector.selVector.get 0)) k i b →
          b.rowIdxAt i ≠ INVALID_ROW_IDX) →
        (res = (.NONE, INVALID_ROW_IDX) ↔
          ∀ k i b, ScannedRow (impl.scan transaction nodeGroup
              (boundNodeIDVector.getValue (boundNodeIDVector.selVector.get 0))) k i b →
            b.relOffsetAt i ≠ relIDVector.getValue (relIDVector.selVector.get 0))) ∧
      (∀ k i b, FirstMatchingRow (impl.scan transaction nodeGroup
            (boundNodeIDVector.getValue (boundNodeIDVector.selVector.get 0)))
          (relIDVector.getValue (relIDVector.selVector.get 0)) k i b →
        b.rowIdxAt i ≠ INVALID_ROW_IDX →
        res = (b.source, b.rowIdxAt i)) := by
  classical
  have hrun : RelTableData.findMatchingRow impl fuel transaction t boundNodeIDVector relIDVector
      = findMatchingRowLoop (impl.scan transaction nodeGroup
          (boundNodeIDVector.getValue (boundNodeIDVector.selVector.get 0)))
        (relIDVector.getValue (relIDVector.selVector.get 0)) fuel 0 (.NONE, INVALID_ROW_IDX) := by
    simp [RelTableData.findMatchingRow, hbound, hrel, hgroup]
  rw [hrun]
  obtain ⟨res, hres⟩ := findMatchingRowLoop_returns (impl.scan transaction nodeGroup
      (boundNodeIDVector.getValue (boundNodeIDVector.selVector.get 0)))
    (relIDVector.getValue (relIDVector.selVector.get 0)) n 0 fuel (.NONE, INVALID_ROW_IDX)
    (by rw [Nat.zero_add]; exact hsentinel) hfuel
  have hfirst : ∀ k i b, FirstMatchingRow (impl.scan transaction nodeGroup
        (boundNodeIDVector.getValue (boundNodeIDVector.selVector.get 0)))
      (relIDVector.getValue (relIDVector.selVector.get 0)) k i b →
      b.rowIdxAt i ≠ INVALID_ROW_IDX → res = (b.source, b.rowIdxAt i) := by
    intro k i b hf hv
    have h1 := findMatchingRowLoop_of_first hf hsentinel hfuel hv
    rw [hres] at h1
    exact Exec.done.inj h1
  refine ⟨res, hres, ?_, hfirst⟩
  intro hvalid
  constructor
  · intro hnone k i b hsc hm
    obtain ⟨k1, i1, b1, hf⟩ := exists_firstMatchingRow ⟨k, i, b, hsc, hm⟩
    have hv := hvalid k1 i1 b1 hf
    have h1 := hfirst k1 i1 b1 hf hv
    rw [hnone] at h1
    exact hv (congrArg Prod.snd h1).symm
  · intro hno
    have h1 := findMatchingRowLoop_of_none hsentinel hfuel hno
    rw [hres] at h1
    exact Exec.done.inj h1

theorem sample_scan_zero : CSRNodeGroup.scan sampleTransaction sampleNodeGroup 0 0 = some
    { outState := { selectedSize := 1, positions := [0] }, scannedIDVector := [10],
      rowIdxVector := [0], source := .COMMITTED_PERSISTENT } := by decide

theorem sample_scan_one : CSRNodeGroup.scan sampleTransaction sampleNodeGroup 0 1 = some
    { outState := { selectedSize := 1, positions := [0] }, scannedIDVector := [13],
      rowIdxVector := [1], source := .COMMITTED_IN_MEMORY } := by decide

theorem sample_scan_rest (k : Nat) :
    CSRNodeGroup.scan sampleTransaction sampleNodeGroup 0 (k + 2) = none := by
  simp [CSRNodeGroup.scan, scanBatchOf, visibleRows, visibleRowsFrom, sampleNodeGroup]

theorem sample_scannedRow {k i : Nat} {b : ScanBatch}
    (h : ScannedRow (CSRNodeGroup.scan sampleTransaction sampleNodeGroup 0) k i b) :
    i = 0 ∧ ((k = 0 ∧ b.scannedIDVector = [10] ∧ b.rowIdxVector = [0]) ∨
      (k = 1 ∧ b.scannedIDVector = [13] ∧ b.rowIdxVector = [1])) ∧
      b.outState.positions = [0] := by
  obtain ⟨hs, _, hi⟩ := h
  match k, hs with
  | 0, hs =>
    rw [sample_scan_zero] at hs
    cases hs
    simp [SelectionVector.getSelSize] at hi
    simp [hi]
  | 1, hs =>
    rw [sample_scan_one] at hs
    cases hs
    simp [SelectionVector.getSelSize] at hi
    simp [hi]
  | k + 2, hs =>
    rw [sample_scan_rest] at hs
    cases hs

/-- Witness of C10 on the sample table: the search for rel-ID offset 13 of bound node 0 ends at
the in-memory row 1. -/
theorem findMatchingRow_linear_search_witness :
    RelTableData.findMatchingRow sampleNodeGroupImpl 3 sampleTransaction sampleTable
      (flatVector 0) (flatVector 13) = .done (.COMMITTED_IN_MEMORY, 1) := by
  obtain ⟨res, hrun, _, hfirst⟩ := findMatchingRow_linear_search sampleNodeGroupImpl 3 2
    sampleTransaction sampleTable (flatVector 0) (flatVector 13) sampleNodeGroup
    (by decide) (by decide) (by decide) (by decide) (by decide)
  have h := hfirst 1 0
    { outState := { selectedSize := 1, positions := [0] }, scannedIDVector := [13],
      rowIdxVector := [1], source := .COMMITTED_IN_MEMORY }
    (by
      refine ⟨⟨sample_scan_one, ?_, by decide⟩, by decide, ?_, ?_⟩
      · intro j hj
        have hj0 : j = 0 := by omega
        subst hj0
        rw [show sampleNodeGroupImpl.scan sampleTransaction sampleNodeGroup
          ((flatVector 0).getValue ((flatVector 0).selVector.get 0)) 0 = _ from sample_scan_zero]
        simp
      · intro j hj
        omega
      · intro k1 b1 j hk1 hsc
        obtain ⟨hi, hk, hp⟩ := sample_scannedRow hsc
        rcases hk with ⟨_, hr, _⟩ | ⟨hk, _, _⟩
        · simp [ScanBatch.relOffsetAt, SelectionVector.get, hi, hp, hr, flatVector,
            ValueVector.getValue]
        · omega)
    (by decide)
  rw [hrun, h]
  rfl

/-! ## `update` and `delete_` on a key that resolves to no row -/

theorem findMatchingRow_done_selSize {impl : NodeGroupImpl} {fuel : Nat}
    {transaction : Transaction} {t : RelTableData} {boundNodeIDVector relIDVector : ValueVector}
    {res : CSRNodeGroupScanSource × Nat}
    (h : RelTableData.findMatchingRow impl fuel transaction t boundNodeIDVector relIDVector
      = .done res) :
    boundNodeIDVector.selVector.getSelSize = 1 ∧ relIDVector.selVector.getSelSize = 1 := by
  unfold RelTableData.findMatchingRow at h
  by_cases h1 : boundNodeIDVector.selVector.getSelSize = 1
  · by_cases h2 : relIDVector.selVector.getSelSize = 1
    · exact ⟨h1, h2⟩
    · simp [h1, h2] at h
  · simp [h1] at h

theorem Exec.bind_done {α β : Type} (a : α) (f : α → Exec β) :
    (Exec.done a >>= f) = f a := rfl

/-- C1 (amended). For every transaction and every pair of non-null input vectors, if
`findMatchingRow` resolves no row (it yields `INVALID_ROW_IDX`), `RelTableData::update` does
not return false: its assertion `rowIdx != INVALID_ROW_IDX` fails, so the call ends there
and `update` is called on no node group. -/
theorem update_unresolved_key_fails_assertion (impl : NodeGroupImpl) (fuel : Nat)
    (transaction : Transaction) (t : RelTableData) (boundNodeIDVector relIDVector : ValueVector)
    (columnID : Nat) (dataVector : ValueVector) (source : CSRNodeGroupScanSource)
    (hbound : boundNodeIDVector.isNull (boundNodeIDVector.selVector.get 0) = false)
    (hrel : relIDVector.isNull (relIDVector.selVector.get 0) = false)
    (hfind : RelTableData.findMatchingRow impl fuel transaction t boundNodeIDVector relIDVector
      = .done (source, INVALID_ROW_IDX)) :
    RelTableData.update impl fuel transaction t boundNodeIDVector relIDVector columnID dataVector
      = .fault .assertion := by
  obtain ⟨h1, h2⟩ := findMatchingRow_done_selSize hfind
  unfold RelTableData.update
  simp only [h1, h2, ne_eq, not_true_eq_false, if_false, hbound, hrel, Bool.or_self,
    Bool.false_eq_true, hfind]
  rw [Exec.bind_done, if_pos rfl]

/-- Witness of C1 (amended) on the sample table: rel-ID offset 14 of bound node 0 belongs to
a deleted row only. -/
theorem update_unresolved_key_fails_assertion_witness :
    RelTableData.update sampleNodeGroupImpl 3 sampleTransaction sampleTable (flatVector 0)
      (flatVector 14) 0 (flatVector 5) = .fault .assertion :=
  update_unresolved_key_fails_assertion sampleNodeGroupImpl 3 sampleTransaction sampleTable
    (flatVector 0) (flatVector 14) 0 (flatVector 5) .NONE (by decide) (by decide) (by decide)

/-- C1 as stated fails: on the sample table the vectors are non-null and `findMatchingRow`
yields `INVALID_ROW_IDX` for rel-ID offset 14 of bound node 0, yet `update` does not return
false. -/
theorem update_unresolved_key_counterexample :
    (flatVector 0).isNull ((flatVector 0).selVector.get 0) = false ∧
    (flatVector 14).isNull ((flatVector 14).selVector.get 0) = false ∧
    RelTableData.findMatchingRow sampleNodeGroupImpl 3 sampleTransaction sampleTable
      (flatVector 0) (flatVector 14) = .done (.NONE, INVALID_ROW_IDX) ∧
    RelTableData.update sampleNodeGroupImpl 3 sampleTransaction sampleTable (flatVector 0)
      (flatVector 14) 0 (flatVector 5) ≠ .done (false, sampleTable) := by
  decide

/-- C2. For every transaction and every pair of non-null input vectors, if
`findMatchingRow` resolves no row for the (bound node, rel-id) key, `RelTableData::delete_`
returns false, leaves every node group as it is (no row is marked deleted) and leaves the
transaction's undo buffer as it is. -/
theorem delete_unresolved_key (impl : NodeGroupImpl) (fuel : Nat)
    (transaction : Transaction) (t : RelTableData) (boundNodeIDVector relIDVector : ValueVector)
    (source : CSRNodeGroupScanSource)
    (hbound : boundNodeIDVector.isNull (boundNodeIDVector.selVector.get 0) = false)
    (hrel : relIDVector.isNull (relIDVector.selVector.get 0) = false)
    (hfind : RelTableData.findMatchingRow impl fuel transaction t boundNodeIDVector relIDVector
      = .done (source, INVALID_ROW_IDX)) :
    RelTableData.delete_ impl fuel transaction t boundNodeIDVector relIDVector
      = .done (false, transaction, t) := by
  unfold RelTableData.delete_
  simp only [hbound, hrel, Bool.or_self, Bool.false_eq_true, if_false, hfind]
  rw [Exec.bind_done, if_pos rfl]

/-- Witness of C2 on the sample table: rel-ID offset 14 of bound node 0 belongs to a deleted
row only. -/
theorem delete_unresolved_key_witness :
    RelTableData.delete_ sampleNodeGroupImpl 3 sampleTransaction sampleTable (flatVector 0)
      (flatVector 14) = .done (false, sampleTransaction, sampleTable) :=
  delete_unresolved_key sampleNodeGroupImpl 3 sampleTransaction sampleTable
    (flatVector 0) (flatVector 14) .NONE (by decide) (by decide) (by decide)

/-! ## The overflow file handle -/

/-- C7. `OverflowFileHandle::rollbackInMemory(priorCursor)` leaves the cursor the handle
reads through its reference equal to exactly `priorCursor` and its page write cache empty,
whatever the header's cursors and the handle's cache were before the call. -/
theorem rollbackInMemory_restores_cursor (n : Nat) (h : OverflowFileHandle n)
    (header : StringOverflowFileHeader n) (priorCursor : PageCursor) :
    (h.rollbackInMemory header priorCursor).1.cursor (h.rollbackInMemory header priorCursor).2
        = priorCursor ∧
      (h.rollbackInMemory header priorCursor).1.pageWriteCache = [] := by
  simp [OverflowFileHandle.rollbackInMemory, OverflowFileHandle.cursor]

/-! ## `pushInsertInfo` -/

/-- C8. The assertion of `RelTableData::pushInsertInfo` holds exactly when the source is not
`COMMITTED_PERSISTENT`, or the node group has no persistent chunked group, or that chunked
group has 0 rows; whenever the source is `COMMITTED_PERSISTENT` and the persistent chunked
group holds at least one row the call ends in an assertion failure; and when the assertion
holds for one of the two committed sources the call returns. -/
theorem pushInsertInfo_assertion (transaction : Transaction) (t : RelTableData)
    (nodeGroup : CSRNodeGroup) (numRows_ : Nat) (source : CSRNodeGroupScanSource) :
    (RelTableData.pushInsertInfoAssertion nodeGroup source = true ↔
      (source ≠ .COMMITTED_PERSISTENT ∨ nodeGroup.getPersistentChunkedGroup = none ∨
        ∃ c, nodeGroup.getPersistentChunkedGroup = some c ∧ c.getNumRows = 0)) ∧
    (∀ c, source = .COMMITTED_PERSISTENT → nodeGroup.getPersistentChunkedGroup = some c →
      0 < c.getNumRows →
      RelTableData.pushInsertInfo transaction t nodeGroup numRows_ source = .fault .assertion) ∧
    (source = .COMMITTED_PERSISTENT ∨ source = .COMMITTED_IN_MEMORY →
      RelTableData.pushInsertInfoAssertion nodeGroup source = true →
      ∃ transaction1 t1,
        RelTableData.pushInsertInfo transaction t nodeGroup numRows_ source
          = .done (transaction1, t1)) := by
  refine ⟨?_, ?_, ?_⟩
  · unfold RelTableData.pushInsertInfoAssertion
    cases hc : nodeGroup.getPersistentChunkedGroup with
    | none => simp
    | some c => simp
  · intro c hs hc hpos
    unfold RelTableData.pushInsertInfo RelTableData.pushInsertInfoAssertion
    rw [hc]
    have hne : (c.getNumRows == 0) = false := by
      simp only [beq_eq_false_iff_ne, ne_eq]
      omega
    subst hs
    simp [hne]
  · intro hs hassert
    unfold RelTableData.pushInsertInfo
    rw [hassert]
    rcases hs with hs | hs <;> subst hs <;> exact ⟨_, _, rfl⟩

/-- Witness of C8: on the sample node group, whose persistent chunked group holds two rows,
recording an insert with source `COMMITTED_PERSISTENT` fails the assertion. -/
theorem pushInsertInfo_assertion_witness :
    RelTableData.pushInsertInfo sampleTransaction sampleTable sampleNodeGroup 4
      .COMMITTED_PERSISTENT = .fault .assertion :=
  (pushInsertInfo_assertion sampleTransaction sampleTable sampleNodeGroup 4
    .COMMITTED_PERSISTENT).2.1 _ rfl rfl (by decide)

/-! ## `checkpoint` -/

/-- The move loop over pairwise distinct, in-range column IDs pushes, for each ID in turn,
the pointer the column list held at that ID. -/
theorem checkpointMoveColumns_nodup :
    ∀ (columnIDs : List Nat) (columns checkpointColumns : List (Option Column)),
      columnIDs.Nodup → (∀ id ∈ columnIDs, id < columns.length) →
      RelTableData.checkpointMoveColumns columnIDs columns checkpointColumns =
        .done (checkpointColumns ++ columnIDs.map (fun id => columns.getD id none)) := by
  intro columnIDs
  induction columnIDs with
  | nil => intro columns acc _ _; simp [RelTableData.checkpointMoveColumns]
  | cons id rest ih =>
    intro columns acc hnd hin
    have hid : id < columns.length := hin id (List.mem_cons_self _ _)
    have hget : columns[id]? = some (columns.getD id none) := by
      simp [List.getD, List.getElem?_eq_getElem hid]
    rw [RelTableData.checkpointMoveColumns, hget]
    simp only
    rw [ih (columns.set id none) (acc ++ [columns.getD id none]) (List.nodup_cons.mp hnd).2
      (by
        intro j hj
        rw [List.length_set]
        exact hin j (List.mem_cons_of_mem _ hj))]
    have hmap : rest.map (fun j => (columns.set id none).getD j none) =
        rest.map (fun j => columns.getD j none) := by
      apply List.map_congr_left
      intro j hj
      have hne : id ≠ j := by
        intro h
        subst h
        exact (List.nodup_cons.mp hnd).1 hj
      simp [List.getD, List.getElem?_set_ne hne]
    rw [hmap]
    simp

/-- C9 (amended). After `RelTableData::checkpoint(columnIDs)`, for every list of in-range,
pairwise distinct column IDs, the call returns, the table's column list has exactly
`|columnIDs|` entries and its `i`-th entry is the column that was at index `columnIDs[i]`
before the call; the checkpoint state handed to the node-group collection carries the same
`columnIDs` and the columns in that same order. -/
theorem checkpoint_reorders_columns (impl : NodeGroupImpl) (t : RelTableData)
    (columnIDs : List Nat) (hdistinct : columnIDs.Nodup)
    (hrange : ∀ id ∈ columnIDs, id < t.columns.length) :
    ∃ t1 state, RelTableData.checkpoint impl t columnIDs = .done (t1, state) ∧
      t1.columns.length = columnIDs.length ∧
      t1.columns.map some = columnIDs.map (fun id => t.columns[id]?) ∧
      state.columnIDs = columnIDs ∧ state.columns = t1.columns ∧
      t1.nodeGroups = impl.checkpoint t.nodeGroups state := by
  have hmove := checkpointMoveColumns_nodup columnIDs t.columns [] hdistinct hrange
  have hrun : RelTableData.checkpoint impl t columnIDs = .done
      ({ columns := columnIDs.map (fun id => t.columns.getD id none),
         nodeGroups := impl.checkpoint t.nodeGroups
           { columnIDs := columnIDs,
             columns := columnIDs.map (fun id => t.columns.getD id none) } },
       { columnIDs := columnIDs,
         columns := columnIDs.map (fun id => t.columns.getD id none) }) := by
    unfold RelTableData.checkpoint
    rw [hmove, Exec.bind_done]
    simp only [List.nil_append, List.map_id']
  refine ⟨_, _, hrun, ?_, ?_, rfl, rfl, rfl⟩
  · simp
  · simp only [List.map_map]
    apply List.map_congr_left
    intro id hid
    have h := hrange id hid
    simp [List.getD, List.getElem?_eq_getElem h]

/-- Witness of C9 (amended): swapping the two columns of the sample table. -/
theorem checkpoint_reorders_columns_witness :
    ∃ t1 state, RelTableData.checkpoint sampleNodeGroupImpl sampleTable [1, 0]
        = .done (t1, state) ∧
      t1.columns.length = [1, 0].length ∧
      t1.columns.map some = [1, 0].map (fun id => sampleTable.columns[id]?) ∧
      state.columnIDs = [1, 0] ∧ state.columns = t1.columns ∧
      t1.nodeGroups = sampleNodeGroupImpl.checkpoint sampleTable.nodeGroups state :=
  checkpoint_reorders_columns sampleNodeGroupImpl sampleTable [1, 0] (by decide) (by decide)

/-- C9 as stated fails for a list that names a column twice: with the in-range list `[1, 1]`
on the sample table the call returns a column list whose entry 1 is a null pointer, not the
column that was at index 1 before the call. -/
theorem checkpoint_duplicate_id_counterexample :
    (∀ id ∈ [1, 1], id < sampleTable.columns.length) ∧
    ∃ t1 state, RelTableData.checkpoint sampleNodeGroupImpl sampleTable [1, 1]
        = .done (t1, state) ∧
      sampleTable.columns[([1, 1] : List Nat)[1]]? = some (some { name := "REL_ID" }) ∧
      t1.columns[1]? = some none := by
  refine ⟨by decide, _, _, rfl, by decide, by decide⟩

/-! ## Rollback of inserts -/

theorem getNodeGroupNoLock_setNodeGroup {t : RelTableData} {nodeGroupIdx : Nat}
    {g : CSRNodeGroup} (g1 : CSRNodeGroup) (h : t.getNodeGroupNoLock nodeGroupIdx = some g) :
    (t.setNodeGroup nodeGroupIdx g1).getNodeGroupNoLock nodeGroupIdx = some g1 := by
  unfold RelTableData.getNodeGroupNoLock at h
  have hlt : nodeGroupIdx < t.nodeGroups.nodeGroups.length := by
    by_contra hge
    rw [List.getElem?_eq_none (by omega)] at h
    cases h
  simp [RelTableData.getNodeGroupNoLock, RelTableData.setNodeGroup, List.getElem?_set_self hlt]

theorem getNumRows_applyFuncToChunkedGroups (func : version_record_handler_op_t)
    (g : CSRNodeGroup) (startRow numRows commitTS : Nat) :
    (NodeGroup.applyFuncToChunkedGroups func g startRow numRows commitTS).getNumRows
      = g.getNumRows := by
  unfold NodeGroup.applyFuncToChunkedGroups
  cases g.inMemChunkedGroup <;> rfl

/-- The in-memory rollback on an existing node group returns, and the row count of the table
goes down by `numRowsToRollback`, computed from the row count of the group. -/
theorem inMemory_rollbackInsert_numTotalRows (impl : NodeGroupImpl) (transaction : Transaction)
    (t : RelTableData) (nodeGroupIdx startRow numRows : Nat) (g : CSRNodeGroup)
    (hg : t.getNodeGroupNoLock nodeGroupIdx = some g) :
    ∃ t1, InMemoryVersionRecordHandler.rollbackInsert impl transaction t nodeGroupIdx startRow
        numRows = .done t1 ∧
      t1.nodeGroups.numTotalRows = sub64 t.nodeGroups.numTotalRows
        (InMemoryVersionRecordHandler.numRowsToRollback numRows g.getNumRows startRow) := by
  unfold InMemoryVersionRecordHandler.rollbackInsert VersionRecordHandler.rollbackInsert
    InMemoryVersionRecordHandler.applyFuncToChunkedGroups
  rw [hg]
  simp only
  rw [Exec.bind_done, getNodeGroupNoLock_setNodeGroup _ hg]
  simp only
  refine ⟨_, rfl, ?_⟩
  rw [getNumRows_applyFuncToChunkedGroups]
  rfl

/-- The persistent rollback returns and leaves the row count of the table as it is. -/
theorem persistent_rollbackInsert_numTotalRows (impl : NodeGroupImpl)
    (transaction : Transaction) (t : RelTableData) (nodeGroupIdx startRow numRows : Nat) :
    ∃ t1, PersistentVersionRecordHandler.rollbackInsert impl transaction t nodeGroupIdx startRow
        numRows = .done t1 ∧
      t1.nodeGroups.numTotalRows = t.nodeGroups.numTotalRows := by
  unfold PersistentVersionRecordHandler.rollbackInsert VersionRecordHandler.rollbackInsert
    PersistentVersionRecordHandler.applyFuncToChunkedGroups
  by_cases hlt : nodeGroupIdx < t.getNumNodeGroups
  · rw [if_pos hlt]
    have hsome : t.getNodeGroupNoLock nodeGroupIdx
        = some (t.nodeGroups.nodeGroups[nodeGroupIdx]) := by
      unfold RelTableData.getNodeGroupNoLock
      exact List.getElem?_eq_getElem hlt
    rw [hsome]
    simp only
    cases (t.nodeGroups.nodeGroups[nodeGroupIdx]).getPersistentChunkedGroup with
    | none => exact ⟨_, rfl, rfl⟩
    | some c => exact ⟨_, rfl, rfl⟩
  · rw [if_neg hlt]
    exact ⟨_, rfl, rfl⟩

theorem sub64_of_le {a b : Nat} (hle : b ≤ a) (ha : a < 2 ^ 64) : sub64 a b = a - b := by
  unfold sub64
  have h : a + 2 ^ 64 - b = (a - b) + 2 ^ 64 := by omega
  rw [h, Nat.add_mod_right]
  exact Nat.mod_eq_of_lt (by omega)

theorem sub64_add64_cancel {a n : Nat} (ha : a < 2 ^ 64) (hn : n < 2 ^ 64) :
    sub64 (add64 a n) n = a := by
  unfold sub64 add64
  have h1 : (a + n) % 2 ^ 64 < 2 ^ 64 := Nat.mod_lt _ (by norm_num)
  rcases Nat.lt_or_ge (a + n) (2 ^ 64) with hlt | hge
  · rw [Nat.mod_eq_of_lt hlt]
    have h : a + n + 2 ^ 64 - n = a + 2 ^ 64 := by omega
    rw [h, Nat.add_mod_right]
    exact Nat.mod_eq_of_lt ha
  · have hmod : (a + n) % 2 ^ 64 = a + n - 2 ^ 64 := by
      rw [Nat.mod_eq_sub_mod hge]
      exact Nat.mod_eq_of_lt (by omega)
    rw [hmod]
    have h : a + n - 2 ^ 64 + 2 ^ 64 - n = a := by omega
    rw [h]
    exact Nat.mod_eq_of_lt ha

/-- C5 (amended). In `InMemoryVersionRecordHandler::rollbackInsert` on an existing node
group, the row count by which the table's row accounting is shrunk is
`min(numRows, currentRows - startRow)` with the subtraction taken on unsigned 64-bit
values; for every `startRow` and `numRows` it never exceeds `numRows`, and for every
`startRow <= currentRows` it never exceeds `currentRows - startRow`, the number of rows the
node group holds at or after `startRow`. -/
theorem inMemory_rollbackInsert_clamp (impl : NodeGroupImpl) (transaction : Transaction)
    (t : RelTableData) (nodeGroupIdx startRow numRows : Nat) (g : CSRNodeGroup)
    (hg : t.getNodeGroupNoLock nodeGroupIdx = some g) :
    ∃ t1, InMemoryVersionRecordHandler.rollbackInsert impl transaction t nodeGroupIdx startRow
        numRows = .done t1 ∧
      t1.nodeGroups.numTotalRows = sub64 t.nodeGroups.numTotalRows
        (min numRows ((g.getNumRows + 2 ^ 64 - startRow) % 2 ^ 64)) ∧
      min numRows ((g.getNumRows + 2 ^ 64 - startRow) % 2 ^ 64) ≤ numRows ∧
      (startRow ≤ g.getNumRows → g.getNumRows < 2 ^ 64 →
        min numRows ((g.getNumRows + 2 ^ 64 - startRow) % 2 ^ 64)
          = min numRows (g.getNumRows - startRow) ∧
        min numRows ((g.getNumRows + 2 ^ 64 - startRow) % 2 ^ 64) ≤ g.getNumRows - startRow) := by
  obtain ⟨t1, hrun, hcount⟩ := inMemory_rollbackInsert_numTotalRows impl transaction t
    nodeGroupIdx startRow numRows g hg
  refine ⟨t1, hrun, hcount, Nat.min_le_left _ _, ?_⟩
  intro hle hlt
  have h := sub64_of_le hle hlt
  unfold sub64 at h
  rw [h]
  exact ⟨rfl, Nat.min_le_right _ _⟩

/-- Witness of C5 (amended): rolling back 5 rows from start row 1 on the sample table, whose
node group holds 3 rows, shrinks the row count by 2. -/
theorem inMemory_rollbackInsert_clamp_witness :
    ∃ t1, InMemoryVersionRecordHandler.rollbackInsert sampleNodeGroupImpl sampleTransaction
        sampleTable 0 1 5 = .done t1 ∧
      t1.nodeGroups.numTotalRows = 1 := by
  obtain ⟨t1, hrun, hcount, _, hle⟩ := inMemory_rollbackInsert_clamp sampleNodeGroupImpl
    sampleTransaction sampleTable 0 1 5 sampleNodeGroup rfl
  refine ⟨t1, hrun, ?_⟩
  rw [hcount, (hle (by decide) (by decide)).1]
  decide

/-- C5 as stated fails when `startRow` exceeds the rows the node group holds: on the sample
table, whose node group holds 3 rows, rolling back 2 rows from start row 5 shrinks the row
count of the table from 3 to 1, that is by 2, although the node group holds no row at or
after row 5. -/
theorem inMemory_rollbackInsert_clamp_counterexample :
    sampleTable.getNodeGroupNoLock 0 = some sampleNodeGroup ∧
    sampleNodeGroup.getNumRows = 3 ∧
    sampleTable.nodeGroups.numTotalRows = 3 ∧
    (∃ t1, InMemoryVersionRecordHandler.rollbackInsert sampleNodeGroupImpl sampleTransaction
        sampleTable 0 5 2 = .done t1 ∧ t1.nodeGroups.numTotalRows = 1) ∧
    InMemoryVersionRecordHandler.numRowsToRollback 2 sampleNodeGroup.getNumRows 5 = 2 ∧
    ¬ (InMemoryVersionRecordHandler.numRowsToRollback 2 sampleNodeGroup.getNumRows 5
        ≤ sampleNodeGroup.getNumRows - 5) := by
  refine ⟨rfl, rfl, rfl, ⟨_, rfl, by decide⟩, by decide, by decide⟩

/-- C6 at the failing input: on a table without node groups, `rollbackInsert` for node group
0 returns from the persistent handler with the table unchanged, and ends in an invalid
access in the in-memory handler, which takes the node group without a bounds check. -/
theorem rollbackInsert_missing_group :
    emptyTable.getNumNodeGroups = 0 ∧
    PersistentVersionRecordHandler.rollbackInsert sampleNodeGroupImpl sampleTransaction
      emptyTable 0 0 1 = .done emptyTable ∧
    InMemoryVersionRecordHandler.rollbackInsert sampleNodeGroupImpl sampleTransaction
      emptyTable 0 0 1 = .fault .invalidAccess := by
  decide

/-- C4 (amended). Rollback restores the row count when the recorded rows are present: for
every node group of the table, every source in {`COMMITTED_PERSISTENT`,
`COMMITTED_IN_MEMORY`} that passes the assertion of `pushInsertInfo` and every `N`
(including 0), `pushInsertInfo` records one insert of `N` rows at its start row with the
handler of the source, and `rollbackInsert` on that handler with the same start row and `N`
leaves the table's row count equal to its value before `pushInsertInfo`, provided that for
`COMMITTED_IN_MEMORY` the node group holds, when the rollback runs, at least `N` rows from
the start row on (`g2` is the node group at that time). The count is decremented at rollback
exactly when it was incremented at push. -/
theorem pushInsertInfo_rollbackInsert_restores (impl : NodeGroupImpl) (transaction : Transaction)
    (t : RelTableData) (g g2 : CSRNodeGroup) (N : Nat) (source : CSRNodeGroupScanSource)
    (hsource : source = .COMMITTED_PERSISTENT ∨ source = .COMMITTED_IN_MEMORY)
    (hgroup : t.getNodeGroupNoLock g.getNodeGroupIdx = some g)
    (hassert : RelTableData.pushInsertInfoAssertion g source = true)
    (hN : N < 2 ^ 64) (htotal : t.nodeGroups.numTotalRows < 2 ^ 64)
    (hrows : source = .COMMITTED_IN_MEMORY →
      g.getNumRows + N ≤ g2.getNumRows ∧ g2.getNumRows < 2 ^ 64) :
    ∃ transaction1 t1 handler,
      RelTableData.pushInsertInfo transaction t g N source = .done (transaction1, t1) ∧
      RelTableData.getVersionRecordHandler source = .done handler ∧
      transaction1.undoBuffer = transaction.undoBuffer ++
        [.insertInfo g.getNodeGroupIdx (RelTableData.pushInsertInfoStart g source).1 N handler] ∧
      t1.nodeGroups.numTotalRows =
        (if (RelTableData.pushInsertInfoStart g source).2
          then add64 t.nodeGroups.numTotalRows N else t.nodeGroups.numTotalRows) ∧
      ∃ t2, handler.rollbackInsert impl transaction1 (t1.setNodeGroup g.getNodeGroupIdx g2)
          g.getNodeGroupIdx (RelTableData.pushInsertInfoStart g source).1 N = .done t2 ∧
        t2.nodeGroups.numTotalRows = t.nodeGroups.numTotalRows := by
  rcases hsource with hs | hs
  · subst hs
    obtain ⟨t2, hrun, hcount⟩ := persistent_rollbackInsert_numTotalRows impl
      (transaction.pushInsertInfo g.getNodeGroupIdx 0 N .persistentVersionRecordHandler)
      (t.setNodeGroup g.getNodeGroupIdx g2) g.getNodeGroupIdx 0 N
    refine ⟨_, _, .persistentVersionRecordHandler, ?_, rfl, rfl, ?_, t2, hrun, hcount⟩
    · unfold RelTableData.pushInsertInfo
      rw [hassert]
      rfl
    · rfl
  · subst hs
    obtain ⟨hle, hlt⟩ := hrows rfl
    have hg2 : ((({ t with nodeGroups := { t.nodeGroups with
        numTotalRows := add64 t.nodeGroups.numTotalRows N } } : RelTableData).setNodeGroup
        g.getNodeGroupIdx g2)).getNodeGroupNoLock g.getNodeGroupIdx = some g2 :=
      getNodeGroupNoLock_setNodeGroup (g := g) g2 hgroup
    obtain ⟨t2, hrun, hcount⟩ := inMemory_rollbackInsert_numTotalRows impl
      (transaction.pushInsertInfo g.getNodeGroupIdx g.getNumRows N .inMemoryVersionRecordHandler)
      _ g.getNodeGroupIdx g.getNumRows N g2 hg2
    refine ⟨_, _, .inMemoryVersionRecordHandler, ?_, rfl, rfl, ?_, t2, hrun, ?_⟩
    · unfold RelTableData.pushInsertInfo
      rw [hassert]
      rfl
    · rfl
    · rw [hcount]
      have hclamp : InMemoryVersionRecordHandler.numRowsToRollback N g2.getNumRows g.getNumRows
          = N := by
        unfold InMemoryVersionRecordHandler.numRowsToRollback
        rw [sub64_of_le (by omega) hlt]
        exact Nat.min_eq_left (by omega)
      rw [hclamp]
      exact sub64_add64_cancel htotal hN

/-- Witness of C4 (amended): an in-memory insert of 5 rows into the sample node group, which
holds 8 rows when the rollback runs. -/
theorem pushInsertInfo_rollbackInsert_restores_witness :
    ∃ transaction1 t1 t2,
      RelTableData.pushInsertInfo sampleTransaction sampleTable sampleNodeGroup 5
        .COMMITTED_IN_MEMORY = .done (transaction1, t1) ∧
      t1.nodeGroups.numTotalRows = 8 ∧
      InMemoryVersionRecordHandler.rollbackInsert sampleNodeGroupImpl transaction1
        (t1.setNodeGroup 0 { sampleNodeGroup with numRows := 8 }) 0 3 5 = .done t2 ∧
      t2.nodeGroups.numTotalRows = 3 := by
  obtain ⟨transaction1, t1, handler, hpush, hhandler, _, hinc, t2, hrun, hcount⟩ :=
    pushInsertInfo_rollbackInsert_restores sampleNodeGroupImpl sampleTransaction sampleTable
      sampleNodeGroup { sampleNodeGroup with numRows := 8 } 5 .COMMITTED_IN_MEMORY
      (Or.inr rfl) rfl (by decide) (by decide) (by decide) (fun _ => by decide)
  cases hhandler
  exact ⟨transaction1, t1, t2, hpush, hinc, hrun, hcount⟩

/-- C4 as stated fails: on the sample table, whose row count is 3 and whose node group holds
3 rows, `pushInsertInfo` of 5 rows with source `COMMITTED_IN_MEMORY` records start row 3 and
raises the row count to 8; `rollbackInsert` on the in-memory handler with start row 3 and 5
rows, run on that table, shrinks the count by `min(5, 3 - 3) = 0` and leaves it at 8. -/
theorem pushInsertInfo_rollbackInsert_counterexample :
    sampleTable.nodeGroups.numTotalRows = 3 ∧
    ∃ transaction1 t1 t2,
      RelTableData.pushInsertInfo sampleTransaction sampleTable sampleNodeGroup 5
        .COMMITTED_IN_MEMORY = .done (transaction1, t1) ∧
      transaction1.undoBuffer = [.insertInfo 0 3 5 .inMemoryVersionRecordHandler] ∧
      VersionRecordHandlerRef.rollbackInsert .inMemoryVersionRecordHandler sampleNodeGroupImpl
        transaction1 t1 0 3 5 = .done t2 ∧
      t2.nodeGroups.numTotalRows = 8 := by
  refine ⟨rfl, _, _, _, rfl, by decide, rfl, by decide⟩

/-! ## Deleting twice -/

/-- The batch of a non-empty list of visible rows. -/
theorem scanBatchOf_cons (source : CSRNodeGroupScanSource) (p : Nat × Nat)
    (vis : List (Nat × Nat)) :
    scanBatchOf source (p :: vis) =
      [{ outState := { selectedSize := (p :: vis).length,
                       positions := List.range (p :: vis).length },
         scannedIDVector := (p :: vis).map Prod.snd,
         rowIdxVector := (p :: vis).map Prod.fst,
         source := source }] := by
  simp [scanBatchOf]

/-- The `for` loop over the batch of the visible rows `vis` finds the first pair of `vis`
whose rel-ID offset is `r`. -/
theorem findMatchingRowInBatch_vis (source : CSRNodeGroupScanSource) (vis : List (Nat × Nat))
    (r : Nat) (acc : CSRNodeGroupScanSource × Nat) :
    ∀ (m i : Nat), i + m = vis.length →
      findMatchingRowInBatch
        { outState := { selectedSize := vis.length, positions := List.range vis.length },
          scannedIDVector := vis.map Prod.snd,
          rowIdxVector := vis.map Prod.fst,
          source := source } r m i acc =
      (match (vis.drop i).find? (fun p => p.2 = r) with
       | some p => (source, p.1)
       | none => acc) := by
  intro m
  induction m with
  | zero =>
    intro i hi
    have : vis.drop i = [] := List.drop_eq_nil_of_le (by omega)
    simp [findMatchingRowInBatch, this]
  | succ m ih =>
    intro i hi
    have hlt : i < vis.length := by omega
    have hdrop : vis.drop i = vis[i] :: vis.drop (i + 1) := List.drop_eq_getElem_cons hlt
    have hrel : ScanBatch.relOffsetAt
        { outState := { selectedSize := vis.length, positions := List.range vis.length },
          scannedIDVector := vis.map Prod.snd,
          rowIdxVector := vis.map Prod.fst,
          source := source } i = vis[i].2 := by
      simp [ScanBatch.relOffsetAt, SelectionVector.get, List.getD, hlt]
    have hrow : ScanBatch.rowIdxAt
        { outState := { selectedSize := vis.length, positions := List.range vis.length },
          scannedIDVector := vis.map Prod.snd,
          rowIdxVector := vis.map Prod.fst,
          source := source } i = vis[i].1 := by
      simp [ScanBatch.rowIdxAt, SelectionVector.get, List.getD, hlt]
    rw [findMatchingRowInBatch, hrel, hrow, hdrop, List.find?_cons]
    by_cases h : vis[i].2 = r
    · simp [h]
    · simp only [h, if_false, decide_False]
      exact ih (i + 1) (by omega)

/-- The search over the scan of the spec's node group: the first persisted visible row with
rel-ID offset `r` if there is one, else the first such in-memory row, else no row. -/
theorem findMatchingRowLoop_scan (transaction : Transaction) (g : CSRNodeGroup) (n r : Nat)
    (fuel : Nat) (hfuel : 3 ≤ fuel)
    (hvalid : ∀ p, p ∈ visibleRows n g.persistentChunkedGroup ∨
      p ∈ visibleRows n g.inMemChunkedGroup → p.1 ≠ INVALID_ROW_IDX) :
    findMatchingRowLoop (CSRNodeGroup.scan transaction g n) r fuel 0 (.NONE, INVALID_ROW_IDX) =
      .done (match (visibleRows n g.persistentChunkedGroup).find? (fun p => p.2 = r) with
        | some p => (.COMMITTED_PERSISTENT, p.1)
        | none =>
          match (visibleRows n g.inMemChunkedGroup).find? (fun p => p.2 = r) with
          | some p => (.COMMITTED_IN_MEMORY, p.1)
          | none => (.NONE, INVALID_ROW_IDX)) := by
  obtain ⟨f, rfl⟩ : ∃ f, fuel = f + 3 := ⟨fuel - 3, by omega⟩
  have hP := fun acc => findMatchingRowInBatch_vis .COMMITTED_PERSISTENT
    (visibleRows n g.persistentChunkedGroup) r acc _ 0 (Nat.zero_add _)
  have hM := fun acc => findMatchingRowInBatch_vis .COMMITTED_IN_MEMORY
    (visibleRows n g.inMemChunkedGroup) r acc _ 0 (Nat.zero_add _)
  simp only [List.drop_zero] at hP hM
  have hfP : ∀ p, (visibleRows n g.persistentChunkedGroup).find? (fun p => p.2 = r) = some p →
      p.1 ≠ INVALID_ROW_IDX := fun p hp => hvalid p (Or.inl (List.mem_of_find?_eq_some hp))
  have hfM : ∀ p, (visibleRows n g.inMemChunkedGroup).find? (fun p => p.2 = r) = some p →
      p.1 ≠ INVALID_ROW_IDX := fun p hp => hvalid p (Or.inr (List.mem_of_find?_eq_some hp))
  unfold CSRNodeGroup.scan
  generalize visibleRows n g.persistentChunkedGroup = vp at hP hfP ⊢
  generalize visibleRows n g.inMemChunkedGroup = vm at hM hfM ⊢
  cases vp with
  | nil =>
    cases vm with
    | nil => simp [scanBatchOf, findMatchingRowLoop]
    | cons q vm =>
      rw [scanBatchOf_cons]
      simp only [scanBatchOf, if_true, List.nil_append, List.find?_nil]
      rw [findMatchingRowLoop]
      simp only [List.getElem?_cons_zero, SelectionVector.getSelSize, hM]
      cases hfind : (q :: vm).find? (fun p => p.2 = r) with
      | none =>
        simp only [ne_eq, not_true_eq_false, if_false]
        rw [findMatchingRowLoop]
        simp
      | some p => simp [hfM p hfind]
  | cons q0 vp =>
    rw [scanBatchOf_cons]
    rw [findMatchingRowLoop]
    simp only [List.cons_append, List.getElem?_cons_zero, SelectionVector.getSelSize, hP]
    cases hfind : (q0 :: vp).find? (fun p => p.2 = r) with
    | some p => simp [hfP p hfind]
    | none =>
      simp only [ne_eq, not_true_eq_false, if_false]
      cases vm with
      | nil =>
        rw [findMatchingRowLoop]
        simp [scanBatchOf]
      | cons q vm =>
        rw [scanBatchOf_cons, findMatchingRowLoop]
        simp only [List.nil_append, List.getElem?_cons_succ, List.getElem?_cons_zero,
          SelectionVector.getSelSize, hM]
        cases hfind1 : (q :: vm).find? (fun p => p.2 = r) with
        | none =>
          simp only [ne_eq, not_true_eq_false, if_false]
          rw [findMatchingRowLoop]
          simp
        | some p => simp [hfM p hfind1]

theorem visibleRowsFrom_bounds (n : Nat) :
    ∀ (rows : List StoredRow) (base : Nat) (p : Nat × Nat),
      p ∈ visibleRowsFrom n base rows → base ≤ p.1 ∧ p.1 < base + rows.length := by
  intro rows
  induction rows with
  | nil => intro base p h; simp [visibleRowsFrom] at h
  | cons row rows ih =>
    intro base p h
    rw [visibleRowsFrom] at h
    split at h
    · rcases List.mem_cons.mp h with h1 | h1
      · subst h1
        simp
      · have := ih (base + 1) p h1
        simp only [List.length_cons]
        omega
    · have := ih (base + 1) p h
      simp only [List.length_cons]
      omega

/-- Marking a visible row deleted reports a newly marked row and removes exactly that row
from the visible rows. -/
theorem visibleRowsFrom_markDeleted (n : Nat) :
    ∀ (rows : List StoredRow) (base i r : Nat),
      (base + i, r) ∈ visibleRowsFrom n base rows →
      (markDeleted i rows).1 = true ∧
      visibleRowsFrom n base (markDeleted i rows).2 =
        (visibleRowsFrom n base rows).filter (fun p => p.1 ≠ base + i) := by
  intro rows
  induction rows with
  | nil => intro base i r h; simp [visibleRowsFrom] at h
  | cons row rows ih =>
    intro base i r h
    have htail : ∀ p ∈ visibleRowsFrom n (base + 1) rows, p.1 ≠ base := by
      intro p hp
      have := (visibleRowsFrom_bounds n rows (base + 1) p hp).1
      omega
    cases i with
    | zero =>
      have hvis : row.boundNodeOffset = n ∧ row.deleted = false := by
        by_contra hnot
        rw [visibleRowsFrom, if_neg hnot] at h
        exact htail _ h rfl
      have hdel : row.deleted = false := hvis.2
      simp only [markDeleted, hdel, Bool.false_eq_true, if_false, Nat.add_zero, true_and]
      rw [visibleRowsFrom, visibleRowsFrom, if_pos hvis]
      simp only [Bool.true_eq_false, and_false, if_false]
      rw [List.filter_cons]
      simp only [ne_eq, not_true_eq_false, decide_False, Bool.false_eq_true, if_false]
      symm
      rw [List.filter_eq_self]
      intro p hp
      simpa using htail p hp
    | succ i =>
      have hmem : (base + 1 + i, r) ∈ visibleRowsFrom n (base + 1) rows := by
        rw [visibleRowsFrom] at h
        have hshift : base + (i + 1) = base + 1 + i := by omega
        rw [hshift] at h
        split at h
        · rcases List.mem_cons.mp h with h1 | h1
          · have h2 := congrArg Prod.fst h1
            simp only at h2
            omega
          · exact h1
        · exact h
      obtain ⟨h1, h2⟩ := ih (base + 1) i r hmem
      have hshift : base + (i + 1) = base + 1 + i := by omega
      simp only [markDeleted, h1, true_and]
      rw [visibleRowsFrom, visibleRowsFrom, h2, hshift]
      split
      · rw [List.filter_cons]
        have hne : base ≠ base + 1 + i := by omega
        simp [hne]
      · rfl

theorem visibleRows_markDeletedInChunk (n i r : Nat) (c : Option ChunkedNodeGroup)
    (h : (i, r) ∈ visibleRows n c) :
    (markDeletedInChunk i c).1 = true ∧
    visibleRows n (markDeletedInChunk i c).2 = (visibleRows n c).filter (fun p => p.1 ≠ i) := by
  cases c with
  | none => simp [visibleRows] at h
  | some chunk =>
    have h0 : (0 + i, r) ∈ visibleRowsFrom n 0 chunk.rows := by
      simpa [visibleRows] using h
    have := visibleRowsFrom_markDeleted n chunk.rows 0 i r h0
    simpa [markDeletedInChunk, visibleRows] using this

/-- Deleting a live row of the spec's node group reports a newly marked row; afterwards
that row is not live any more and no other row has become live. -/
theorem liveRow_delete (transaction : Transaction) (g : CSRNodeGroup) (n r : Nat)
    (source : CSRNodeGroupScanSource) (rowIdx : Nat) (h : LiveRow g n r source rowIdx) :
    (CSRNodeGroup.delete_ transaction g source rowIdx).1 = true ∧
    ∀ r2 s2 i2, LiveRow (CSRNodeGroup.delete_ transaction g source rowIdx).2 n r2 s2 i2 →
      LiveRow g n r2 s2 i2 ∧ ¬ (s2 = source ∧ i2 = rowIdx) := by
  rcases h with ⟨hs, hmem⟩ | ⟨hs, hmem⟩
  · subst hs
    obtain ⟨h1, h2⟩ := visibleRows_markDeletedInChunk n rowIdx r _ hmem
    refine ⟨h1, ?_⟩
    intro r2 s2 i2 hl
    rcases hl with ⟨hs2, hm2⟩ | ⟨hs2, hm2⟩
    · simp only [CSRNodeGroup.delete_] at hm2
      rw [h2, List.mem_filter] at hm2
      refine ⟨Or.inl ⟨hs2, hm2.1⟩, ?_⟩
      intro hc
      simp [hc.2] at hm2
    · refine ⟨Or.inr ⟨hs2, hm2⟩, ?_⟩
      intro hc
      rw [hs2] at hc
      cases hc.1
  · subst hs
    obtain ⟨h1, h2⟩ := visibleRows_markDeletedInChunk n rowIdx r _ hmem
    refine ⟨h1, ?_⟩
    intro r2 s2 i2 hl
    rcases hl with ⟨hs2, hm2⟩ | ⟨hs2, hm2⟩
    · refine ⟨Or.inl ⟨hs2, hm2⟩, ?_⟩
      intro hc
      rw [hs2] at hc
      cases hc.1
    · simp only [CSRNodeGroup.delete_] at hm2
      rw [h2, List.mem_filter] at hm2
      refine ⟨Or.inr ⟨hs2, hm2.1⟩, ?_⟩
      intro hc
      simp [hc.2] at hm2

/-- The visible rows of a node group whose chunks hold at most `INVALID_ROW_IDX` rows have
row indices other than `INVALID_ROW_IDX`. -/
theorem visibleRows_valid (g : CSRNodeGroup) (n : Nat)
    (hsize : ∀ c, g.persistentChunkedGroup = some c ∨ g.inMemChunkedGroup = some c →
      c.getNumRows ≤ INVALID_ROW_IDX) :
    ∀ p, p ∈ visibleRows n g.persistentChunkedGroup ∨ p ∈ visibleRows n g.inMemChunkedGroup →
      p.1 ≠ INVALID_ROW_IDX := by
  intro p hp
  rcases hp with hp | hp
  · cases hc : g.persistentChunkedGroup with
    | none => simp [hc, visibleRows] at hp
    | some c =>
      rw [hc] at hp
      have h1 := (visibleRowsFrom_bounds n c.rows 0 p hp).2
      have h2 := hsize c (Or.inl hc)
      unfold ChunkedNodeGroup.getNumRows at h2
      omega
  · cases hc : g.inMemChunkedGroup with
    | none => simp [hc, visibleRows] at hp
    | some c =>
      rw [hc] at hp
      have h1 := (visibleRowsFrom_bounds n c.rows 0 p hp).2
      have h2 := hsize c (Or.inr hc)
      unfold ChunkedNodeGroup.getNumRows at h2
      omega

/-- With the scan of the spec's node group, `findMatchingRow` returns the first live row of
the pair, persisted rows first, or `(NONE, INVALID_ROW_IDX)` when the pair has no live
row. -/
theorem findMatchingRow_scan (impl : NodeGroupImpl) (fuel : Nat) (transaction : Transaction)
    (t : RelTableData) (boundNodeIDVector relIDVector : ValueVector) (g : CSRNodeGroup)
    (hscan : impl.scan = CSRNodeGroup.scan)
    (hbound : boundNodeIDVector.selVector.getSelSize = 1)
    (hrel : relIDVector.selVector.getSelSize = 1)
    (hgroup : t.getNodeGroup (StorageUtils.getNodeGroupIdx
      (boundNodeIDVector.getValue (boundNodeIDVector.selVector.get 0))) = some g)
    (hvalid : ∀ p,
      p ∈ visibleRows (boundNodeIDVector.getValue (boundNodeIDVector.selVector.get 0))
        g.persistentChunkedGroup ∨
      p ∈ visibleRows (boundNodeIDVector.getValue (boundNodeIDVector.selVector.get 0))
        g.inMemChunkedGroup → p.1 ≠ INVALID_ROW_IDX)
    (hfuel : 3 ≤ fuel) :
    (∃ source rowIdx,
      LiveRow g (boundNodeIDVector.getValue (boundNodeIDVector.selVector.get 0))
        (relIDVector.getValue (relIDVector.selVector.get 0)) source rowIdx ∧
      rowIdx ≠ INVALID_ROW_IDX ∧
      RelTableData.findMatchingRow impl fuel transaction t boundNodeIDVector relIDVector
        = .done (source, rowIdx)) ∨
    ((∀ source rowIdx,
      ¬ LiveRow g (boundNodeIDVector.getValue (boundNodeIDVector.selVector.get 0))
        (relIDVector.getValue (relIDVector.selVector.get 0)) source rowIdx) ∧
      RelTableData.findMatchingRow impl fuel transaction t boundNodeIDVector relIDVector
        = .done (.NONE, INVALID_ROW_IDX)) := by
  have hrun : RelTableData.findMatchingRow impl fuel transaction t boundNodeIDVector relIDVector
      = findMatchingRowLoop (CSRNodeGroup.scan transaction g
          (boundNodeIDVector.getValue (boundNodeIDVector.selVector.get 0)))
        (relIDVector.getValue (relIDVector.selVector.get 0)) fuel 0 (.NONE, INVALID_ROW_IDX) := by
    simp [RelTableData.findMatchingRow, hbound, hrel, hgroup, hscan]
  rw [hrun, findMatchingRowLoop_scan transaction g _ _ fuel hfuel hvalid]
  generalize boundNodeIDVector.getValue (boundNodeIDVector.selVector.get 0) = n at hvalid ⊢
  generalize relIDVector.getValue (relIDVector.selVector.get 0) = r
  cases hP : (visibleRows n g.persistentChunkedGroup).find? (fun p => p.2 = r) with
  | some p =>
    left
    have hmem := List.mem_of_find?_eq_some hP
    have hr : p.2 = r := by simpa using List.find?_some hP
    refine ⟨.COMMITTED_PERSISTENT, p.1, Or.inl ⟨rfl, ?_⟩, hvalid p (Or.inl hmem), rfl⟩
    rw [← hr]
    exact hmem
  | none =>
    cases hM : (visibleRows n g.inMemChunkedGroup).find? (fun p => p.2 = r) with
    | some p =>
      left
      have hmem := List.mem_of_find?_eq_some hM
      have hr : p.2 = r := by simpa using List.find?_some hM
      refine ⟨.COMMITTED_IN_MEMORY, p.1, Or.inr ⟨rfl, ?_⟩, hvalid p (Or.inr hmem), rfl⟩
      rw [← hr]
      exact hmem
    | none =>
      right
      refine ⟨?_, rfl⟩
      intro source rowIdx hl
      rcases hl with ⟨_, hm⟩ | ⟨_, hm⟩
      · have := List.find?_eq_none.mp hP _ hm
        simp at this
      · have := List.find?_eq_none.mp hM _ hm
        simp at this

theorem delete_of_unresolved {impl : NodeGroupImpl} {fuel : Nat} {transaction : Transaction}
    {t : RelTableData} {boundNodeIDVector relIDVector : ValueVector}
    {source : CSRNodeGroupScanSource}
    (hbound : boundNodeIDVector.isNull (boundNodeIDVector.selVector.get 0) = false)
    (hrel : relIDVector.isNull (relIDVector.selVector.get 0) = false)
    (hfind : RelTableData.findMatchingRow impl fuel transaction t boundNodeIDVector relIDVector
      = .done (source, INVALID_ROW_IDX)) :
    RelTableData.delete_ impl fuel transaction t boundNodeIDVector relIDVector
      = .done (false, transaction, t) := by
  unfold RelTableData.delete_
  simp only [hbound, hrel, Bool.or_self, Bool.false_eq_true, if_false, hfind]
  rw [Exec.bind_done, if_pos rfl]

/-- When `findMatchingRow` resolves a row of source `COMMITTED_PERSISTENT` or
`COMMITTED_IN_MEMORY` and the node group reports it newly deleted, `delete_` returns true
with the node group replaced by the one after the deletion. -/
theorem delete_of_resolved {impl : NodeGroupImpl} {fuel : Nat} {transaction : Transaction}
    {t : RelTableData} {boundNodeIDVector relIDVector : ValueVector}
    {source : CSRNodeGroupScanSource} {rowIdx : Nat} {g : CSRNodeGroup}
    (hbound : boundNodeIDVector.isNull (boundNodeIDVector.selVector.get 0) = false)
    (hrel : relIDVector.isNull (relIDVector.selVector.get 0) = false)
    (hfind : RelTableData.findMatchingRow impl fuel transaction t boundNodeIDVector relIDVector
      = .done (source, rowIdx))
    (hrow : rowIdx ≠ INVALID_ROW_IDX)
    (hsource : source = .COMMITTED_PERSISTENT ∨ source = .COMMITTED_IN_MEMORY)
    (hgroup : t.getNodeGroup (StorageUtils.getNodeGroupIdx
      (boundNodeIDVector.getValue (boundNodeIDVector.selVector.get 0))) = some g)
    (hdeleted : (impl.delete_ transaction g source rowIdx).1 = true) :
    ∃ transaction1, RelTableData.delete_ impl fuel transaction t boundNodeIDVector relIDVector
      = .done (true, transaction1, t.setNodeGroup (StorageUtils.getNodeGroupIdx
          (boundNodeIDVector.getValue (boundNodeIDVector.selVector.get 0)))
          (impl.delete_ transaction g source rowIdx).2) := by
  unfold RelTableData.delete_
  simp only [hbound, hrel, Bool.or_self, Bool.false_eq_true, if_false, hfind]
  rw [Exec.bind_done, if_neg hrow]
  simp only [hgroup, hdeleted, Bool.true_and]
  cases hpolicy : transaction.shouldAppendToUndoBuffer with
  | false => exact ⟨_, rfl⟩
  | true =>
    rcases hsource with hs | hs <;> subst hs <;> exact ⟨_, rfl⟩

/-- C3. Delete idempotence, for the node group of the specification: if the (bound node,
rel-id) pair is live, that is, the node group of the bound node has a live row for the pair
and only one, then with enough fuel for the scan the first `RelTableData::delete_` on the
pair returns true and a second `delete_` on it in the same transaction returns false and
leaves the transaction's undo buffer and the table as they were after the first call. -/
theorem delete_twice_true_then_false (impl : NodeGroupImpl) (fuel : Nat)
    (transaction : Transaction) (t : RelTableData) (boundNodeIDVector relIDVector : ValueVector)
    (g : CSRNodeGroup)
    (hscan : impl.scan = CSRNodeGroup.scan) (hdelete : impl.delete_ = CSRNodeGroup.delete_)
    (hboundSel : boundNodeIDVector.selVector.getSelSize = 1)
    (hrelSel : relIDVector.selVector.getSelSize = 1)
    (hbound : boundNodeIDVector.isNull (boundNodeIDVector.selVector.get 0) = false)
    (hrel : relIDVector.isNull (relIDVector.selVector.get 0) = false)
    (hgroup : t.getNodeGroup (StorageUtils.getNodeGroupIdx
      (boundNodeIDVector.getValue (boundNodeIDVector.selVector.get 0))) = some g)
    (hsize : ∀ c, g.persistentChunkedGroup = some c ∨ g.inMemChunkedGroup = some c →
      c.getNumRows ≤ INVALID_ROW_IDX)
    (hlive : ∃ source rowIdx,
      LiveRow g (boundNodeIDVector.getValue (boundNodeIDVector.selVector.get 0))
        (relIDVector.getValue (relIDVector.selVector.get 0)) source rowIdx)
    (hunique : ∀ s1 i1 s2 i2,
      LiveRow g (boundNodeIDVector.getValue (boundNodeIDVector.selVector.get 0))
        (relIDVector.getValue (relIDVector.selVector.get 0)) s1 i1 →
      LiveRow g (boundNodeIDVector.getValue (boundNodeIDVector.selVector.get 0))
        (relIDVector.getValue (relIDVector.selVector.get 0)) s2 i2 → s1 = s2 ∧ i1 = i2)
    (hfuel : 3 ≤ fuel) :
    ∃ transaction1 t1,
      RelTableData.delete_ impl fuel transaction t boundNodeIDVector relIDVector
        = .done (true, transaction1, t1) ∧
      RelTableData.delete_ impl fuel transaction1 t1 boundNodeIDVector relIDVector
        = .done (false, transaction1, t1) := by
  have hvalid := visibleRows_valid g
    (boundNodeIDVector.getValue (boundNodeIDVector.selVector.get 0)) hsize
  rcases findMatchingRow_scan impl fuel transaction t boundNodeIDVector relIDVector g hscan
    hboundSel hrelSel hgroup hvalid hfuel with ⟨source, rowIdx, hl, hrow, hfind⟩ | ⟨hno, _⟩
  · have hsource : source = .COMMITTED_PERSISTENT ∨ source = .COMMITTED_IN_MEMORY := by
      rcases hl with ⟨hs, _⟩ | ⟨hs, _⟩
      · exact Or.inl hs
      · exact Or.inr hs
    obtain ⟨hdel, hafter⟩ := liveRow_delete transaction g _ _ source rowIdx hl
    obtain ⟨transaction1, hfirst⟩ := delete_of_resolved hbound hrel hfind hrow hsource hgroup
      (by rw [hdelete]; exact hdel)
    refine ⟨transaction1, _, hfirst, ?_⟩
    rw [hdelete]
    have hgroup1 : (t.setNodeGroup (StorageUtils.getNodeGroupIdx
        (boundNodeIDVector.getValue (boundNodeIDVector.selVector.get 0)))
        (CSRNodeGroup.delete_ transaction g source rowIdx).2).getNodeGroup
        (StorageUtils.getNodeGroupIdx
          (boundNodeIDVector.getValue (boundNodeIDVector.selVector.get 0)))
        = some (CSRNodeGroup.delete_ transaction g source rowIdx).2 :=
      getNodeGroupNoLock_setNodeGroup _ hgroup
    have hvalid1 : ∀ p,
        p ∈ visibleRows (boundNodeIDVector.getValue (boundNodeIDVector.selVector.get 0))
          (CSRNodeGroup.delete_ transaction g source rowIdx).2.persistentChunkedGroup ∨
        p ∈ visibleRows (boundNodeIDVector.getValue (boundNodeIDVector.selVector.get 0))
          (CSRNodeGroup.delete_ transaction g source rowIdx).2.inMemChunkedGroup →
        p.1 ≠ INVALID_ROW_IDX := by
      intro p hp
      rcases hp with hp | hp
      · rcases (hafter p.2 .COMMITTED_PERSISTENT p.1 (Or.inl ⟨rfl, hp⟩)).1 with ⟨_, h⟩ | ⟨hc, _⟩
        · exact hvalid p (Or.inl h)
        · cases hc
      · rcases (hafter p.2 .COMMITTED_IN_MEMORY p.1 (Or.inr ⟨rfl, hp⟩)).1 with ⟨hc, _⟩ | ⟨_, h⟩
        · cases hc
        · exact hvalid p (Or.inr h)
    rcases findMatchingRow_scan impl fuel transaction1 _ boundNodeIDVector relIDVector _ hscan
      hboundSel hrelSel hgroup1 hvalid1 hfuel with ⟨s2, i2, hl2, _, _⟩ | ⟨_, hfind2⟩
    · exfalso
      obtain ⟨hold, hne⟩ := hafter _ s2 i2 hl2
      exact hne (hunique s2 i2 source rowIdx hold hl)
    · exact delete_of_unresolved hbound hrel hfind2
  · exfalso
    obtain ⟨source, rowIdx, hl⟩ := hlive
    exact hno source rowIdx hl

theorem sample_liveRow {source : CSRNodeGroupScanSource} {rowIdx : Nat}
    (h : LiveRow sampleNodeGroup ((flatVector 0).getValue ((flatVector 0).selVector.get 0))
      ((flatVector 13).getValue ((flatVector 13).selVector.get 0)) source rowIdx) :
    source = .COMMITTED_IN_MEMORY ∧ rowIdx = 1 := by
  have hp : visibleRows ((flatVector 0).getValue ((flatVector 0).selVector.get 0))
      sampleNodeGroup.persistentChunkedGroup = [(0, 10)] := by decide
  have hm : visibleRows ((flatVector 0).getValue ((flatVector 0).selVector.get 0))
      sampleNodeGroup.inMemChunkedGroup = [(1, 13)] := by decide
  have hr : (flatVector 13).getValue ((flatVector 13).selVector.get 0) = 13 := by decide
  unfold LiveRow at h
  rw [hp, hm, hr] at h
  rcases h with ⟨_, h⟩ | ⟨hs, h⟩
  · simp at h
  · simp only [List.mem_singleton, Prod.mk.injEq] at h
    exact ⟨hs, h.1⟩

/-- Witness of C3 on the sample table: the pair (bound node 0, rel-ID offset 13) is live in
the in-memory row 1 only. -/
theorem delete_twice_true_then_false_witness :
    ∃ transaction1 t1,
      RelTableData.delete_ sampleNodeGroupImpl 3 sampleTransaction sampleTable (flatVector 0)
        (flatVector 13) = .done (true, transaction1, t1) ∧
      RelTableData.delete_ sampleNodeGroupImpl 3 transaction1 t1 (flatVector 0)
        (flatVector 13) = .done (false, transaction1, t1) :=
  delete_twice_true_then_false sampleNodeGroupImpl 3 sampleTransaction sampleTable
    (flatVector 0) (flatVector 13) sampleNodeGroup rfl rfl (by decide) (by decide) (by decide)
    (by decide) (by decide)
    (by
      intro c hc
      rcases hc with hc | hc <;> cases hc <;> decide)
    ⟨.COMMITTED_IN_MEMORY, 1, Or.inr ⟨rfl, by decide⟩⟩
    (by
      intro s1 i1 s2 i2 h1 h2
      obtain ⟨a1, b1⟩ := sample_liveRow h1
      obtain ⟨a2, b2⟩ := sample_liveRow h2
      exact ⟨a1.trans a2.symm, b1.trans b2.symm⟩)
    (by decide)

/-! ## The undo record of `delete_` and the choice of the version record handler -/

/-- The run of `delete_` once `findMatchingRow` has resolved a row of an existing node
group: the node group's `delete_` is called, and the delete record is pushed under the
condition `isDeleted && shouldAppendToUndoBuffer()`. -/
theorem delete_resolved_run {impl : NodeGroupImpl} {fuel : Nat} {transaction : Transaction}
    {t : RelTableData} {boundNodeIDVector relIDVector : ValueVector}
    {source : CSRNodeGroupScanSource} {rowIdx : Nat} {g : CSRNodeGroup}
    (hbound : boundNodeIDVector.isNull (boundNodeIDVector.selVector.get 0) = false)
    (hrel : relIDVector.isNull (relIDVector.selVector.get 0) = false)
    (hfind : RelTableData.findMatchingRow impl fuel transaction t boundNodeIDVector relIDVector
      = .done (source, rowIdx))
    (hrow : rowIdx ≠ INVALID_ROW_IDX)
    (hgroup : t.getNodeGroup (StorageUtils.getNodeGroupIdx
      (boundNodeIDVector.getValue (boundNodeIDVector.selVector.get 0))) = some g) :
    RelTableData.delete_ impl fuel transaction t boundNodeIDVector relIDVector =
      (if ((impl.delete_ transaction g source rowIdx).1 &&
          transaction.shouldAppendToUndoBuffer) = true then
        (RelTableData.getVersionRecordHandler source).bind (fun handler =>
          .done ((impl.delete_ transaction g source rowIdx).1,
            transaction.pushDeleteInfo (StorageUtils.getNodeGroupIdx
              (boundNodeIDVector.getValue (boundNodeIDVector.selVector.get 0))) rowIdx 1 handler,
            t.setNodeGroup (StorageUtils.getNodeGroupIdx
              (boundNodeIDVector.getValue (boundNodeIDVector.selVector.get 0)))
              (impl.delete_ transaction g source rowIdx).2))
      else
        .done ((impl.delete_ transaction g source rowIdx).1, transaction,
          t.setNodeGroup (StorageUtils.getNodeGroupIdx
            (boundNodeIDVector.getValue (boundNodeIDVector.selVector.get 0)))
            (impl.delete_ transaction g source rowIdx).2)) := by
  unfold RelTableData.delete_
  simp only [hbound, hrel, Bool.or_self, Bool.false_eq_true, if_false, hfind]
  rw [Exec.bind_done, if_neg hrow]
  simp only [hgroup]
  rfl

/-- C11. Once `findMatchingRow` has resolved a row (of a non-null key, in an existing node
group), `RelTableData::delete_` pushes delete information to the transaction's undo buffer
if and only if the node group reported the row as newly deleted and
`transaction->shouldAppendToUndoBuffer()` is true: otherwise it returns the node group's
flag with the transaction unchanged; when it pushes, the undo buffer grows by exactly one
record, covering 1 row at (node group index of the bound node, matched row index) with the
version record handler selected for the matched row's source, and the return value is the
node group's flag; and when no handler is selected for the source the call ends in that
assertion failure without returning. -/
theorem delete_pushes_delete_info (impl : NodeGroupImpl) (fuel : Nat)
    (transaction : Transaction) (t : RelTableData) (boundNodeIDVector relIDVector : ValueVector)
    (source : CSRNodeGroupScanSource) (rowIdx : Nat) (g : CSRNodeGroup)
    (hbound : boundNodeIDVector.isNull (boundNodeIDVector.selVector.get 0) = false)
    (hrel : relIDVector.isNull (relIDVector.selVector.get 0) = false)
    (hfind : RelTableData.findMatchingRow impl fuel transaction t boundNodeIDVector relIDVector
      = .done (source, rowIdx))
    (hrow : rowIdx ≠ INVALID_ROW_IDX)
    (hgroup : t.getNodeGroup (StorageUtils.getNodeGroupIdx
      (boundNodeIDVector.getValue (boundNodeIDVector.selVector.get 0))) = some g) :
    (((impl.delete_ transaction g source rowIdx).1 && transaction.shouldAppendToUndoBuffer)
        = false →
      RelTableData.delete_ impl fuel transaction t boundNodeIDVector relIDVector =
        .done ((impl.delete_ transaction g source rowIdx).1, transaction,
          t.setNodeGroup (StorageUtils.getNodeGroupIdx
            (boundNodeIDVector.getValue (boundNodeIDVector.selVector.get 0)))
            (impl.delete_ transaction g source rowIdx).2)) ∧
    (((impl.delete_ transaction g source rowIdx).1 && transaction.shouldAppendToUndoBuffer)
        = true →
      (∀ handler, RelTableData.getVersionRecordHandler source = .done handler →
        ∃ transaction1,
          RelTableData.delete_ impl fuel transaction t boundNodeIDVector relIDVector =
            .done ((impl.delete_ transaction g source rowIdx).1, transaction1,
              t.setNodeGroup (StorageUtils.getNodeGroupIdx
                (boundNodeIDVector.getValue (boundNodeIDVector.selVector.get 0)))
                (impl.delete_ transaction g source rowIdx).2) ∧
          transaction1.undoBuffer = transaction.undoBuffer ++
            [.deleteInfo (StorageUtils.getNodeGroupIdx
              (boundNodeIDVector.getValue (boundNodeIDVector.selVector.get 0)))
              rowIdx 1 handler] ∧
          transaction1.shouldAppendToUndoBuffer = transaction.shouldAppendToUndoBuffer ∧
          transaction1.commitTS = transaction.commitTS) ∧
      (∀ f, RelTableData.getVersionRecordHandler source = .fault f →
        RelTableData.delete_ impl fuel transaction t boundNodeIDVector relIDVector
          = .fault f)) := by
  have hrun := delete_resolved_run hbound hrel hfind hrow hgroup
  refine ⟨?_, ?_⟩
  · intro hflag
    rw [hrun, hflag]
    rfl
  · intro hflag
    refine ⟨?_, ?_⟩
    · intro handler hh
      refine ⟨transaction.pushDeleteInfo (StorageUtils.getNodeGroupIdx
        (boundNodeIDVector.getValue (boundNodeIDVector.selVector.get 0))) rowIdx 1 handler,
        ?_, rfl, rfl, rfl⟩
      rw [hrun, hflag, hh]
      rfl
    · intro f hf
      rw [hrun, hflag, hf]
      rfl

/-- Witness of C11 on the sample table: deleting the live in-memory row 1 of bound node 0
pushes one delete record with the in-memory handler. -/
theorem delete_pushes_delete_info_witness :
    ∃ transaction1,
      RelTableData.delete_ sampleNodeGroupImpl 3 sampleTransaction sampleTable (flatVector 0)
        (flatVector 13) = .done (true, transaction1,
          sampleTable.setNodeGroup 0
            (sampleNodeGroupImpl.delete_ sampleTransaction sampleNodeGroup
              .COMMITTED_IN_MEMORY 1).2) ∧
      transaction1.undoBuffer = [.deleteInfo 0 1 1 .inMemoryVersionRecordHandler] := by
  obtain ⟨transaction1, h1, h2, _, _⟩ :=
    (delete_pushes_delete_info sampleNodeGroupImpl 3 sampleTransaction sampleTable
      (flatVector 0) (flatVector 13) .COMMITTED_IN_MEMORY 1 sampleNodeGroup
      (by decide) (by decide) (by decide) (by decide) (by decide)).2 (by decide)
      |>.1 .inMemoryVersionRecordHandler rfl
  exact ⟨transaction1, h1, h2⟩

/-- Whenever `delete_` returns, either the transaction is unchanged, or `findMatchingRow`
resolved a row and one delete record for it was pushed with the handler that
`getVersionRecordHandler` selects for the row's source. -/
theorem delete_done_undoBuffer {impl : NodeGroupImpl} {fuel : Nat} {transaction : Transaction}
    {t : RelTableData} {boundNodeIDVector relIDVector : ValueVector}
    {b : Bool} {transaction1 : Transaction} {t1 : RelTableData}
    (h : RelTableData.delete_ impl fuel transaction t boundNodeIDVector relIDVector
      = .done (b, transaction1, t1)) :
    transaction1 = transaction ∨
    ∃ source rowIdx handler,
      RelTableData.findMatchingRow impl fuel transaction t boundNodeIDVector relIDVector
        = .done (source, rowIdx) ∧
      RelTableData.getVersionRecordHandler source = .done handler ∧
      transaction1.undoBuffer = transaction.undoBuffer ++
        [.deleteInfo (StorageUtils.getNodeGroupIdx
          (boundNodeIDVector.getValue (boundNodeIDVector.selVector.get 0))) rowIdx 1 handler] := by
  unfold RelTableData.delete_ at h
  by_cases hnull : (boundNodeIDVector.isNull (boundNodeIDVector.selVector.get 0) ||
      relIDVector.isNull (relIDVector.selVector.get 0)) = true
  · simp only [hnull, if_true] at h
    have h2 := Exec.done.inj h
    simp only [Prod.mk.injEq] at h2
    exact Or.inl h2.2.1.symm
  · simp only [hnull, Bool.false_eq_true, if_false] at h
    cases hfind : RelTableData.findMatchingRow impl fuel transaction t boundNodeIDVector
        relIDVector with
    | fault f => rw [hfind] at h; cases h
    | fuelOut => rw [hfind] at h; cases h
    | done res =>
      obtain ⟨source, rowIdx⟩ := res
      rw [hfind, Exec.bind_done] at h
      by_cases hrow : rowIdx = INVALID_ROW_IDX
      · rw [if_pos hrow] at h
        have h2 := Exec.done.inj h
        simp only [Prod.mk.injEq] at h2
        exact Or.inl h2.2.1.symm
      · rw [if_neg hrow] at h
        cases hgroup : t.getNodeGroup (StorageUtils.getNodeGroupIdx
            (boundNodeIDVector.getValue (boundNodeIDVector.selVector.get 0))) with
        | none => simp only [hgroup] at h; cases h
        | some g =>
          simp only [hgroup] at h
          by_cases hflag : ((impl.delete_ transaction g source rowIdx).1 &&
              transaction.shouldAppendToUndoBuffer) = true
          · rw [if_pos hflag] at h
            cases hh : RelTableData.getVersionRecordHandler source with
            | fault f => rw [hh] at h; cases h
            | fuelOut => rw [hh] at h; cases h
            | done handler =>
              rw [hh, Exec.bind_done] at h
              have h2 := Exec.done.inj h
              simp only [Prod.mk.injEq] at h2
              right
              refine ⟨source, rowIdx, handler, rfl, hh, ?_⟩
              rw [← h2.2.1]
              rfl
          · rw [if_neg hflag] at h
            have h2 := Exec.done.inj h
            simp only [Prod.mk.injEq] at h2
            exact Or.inl h2.2.1.symm

/-- C12. `RelTableData::getVersionRecordHandler` returns the persistent handler for
`COMMITTED_PERSISTENT` and the in-memory handler for `COMMITTED_IN_MEMORY`, and every other
source violates its assertion; consequently, whenever `pushInsertInfo` returns it has
recorded one insert with the handler selected for its source, and whenever `delete_`
returns it has either left the transaction unchanged or pushed one delete record with the
handler selected for the source of the row `findMatchingRow` resolved. -/
theorem getVersionRecordHandler_matches_source :
    RelTableData.getVersionRecordHandler .COMMITTED_PERSISTENT
      = .done .persistentVersionRecordHandler ∧
    RelTableData.getVersionRecordHandler .COMMITTED_IN_MEMORY
      = .done .inMemoryVersionRecordHandler ∧
    (∀ source, source ≠ .COMMITTED_PERSISTENT → source ≠ .COMMITTED_IN_MEMORY →
      RelTableData.getVersionRecordHandler source = .fault .assertion) ∧
    (∀ (transaction : Transaction) (t : RelTableData) (nodeGroup : CSRNodeGroup) (numRows_ : Nat)
        (source : CSRNodeGroupScanSource) (transaction1 : Transaction) (t1 : RelTableData),
      RelTableData.pushInsertInfo transaction t nodeGroup numRows_ source
        = .done (transaction1, t1) →
      ∃ handler, RelTableData.getVersionRecordHandler source = .done handler ∧
        ((source = .COMMITTED_PERSISTENT ∧ handler = .persistentVersionRecordHandler) ∨
         (source = .COMMITTED_IN_MEMORY ∧ handler = .inMemoryVersionRecordHandler)) ∧
        transaction1.undoBuffer = transaction.undoBuffer ++
          [.insertInfo nodeGroup.getNodeGroupIdx
            (RelTableData.pushInsertInfoStart nodeGroup source).1 numRows_ handler]) ∧
    (∀ (impl : NodeGroupImpl) (fuel : Nat) (transaction : Transaction) (t : RelTableData)
        (boundNodeIDVector relIDVector : ValueVector) (b : Bool) (transaction1 : Transaction)
        (t1 : RelTableData),
      RelTableData.delete_ impl fuel transaction t boundNodeIDVector relIDVector
        = .done (b, transaction1, t1) →
      transaction1 = transaction ∨
      ∃ source rowIdx handler,
        RelTableData.findMatchingRow impl fuel transaction t boundNodeIDVector relIDVector
          = .done (source, rowIdx) ∧
        RelTableData.getVersionRecordHandler source = .done handler ∧
        ((source = .COMMITTED_PERSISTENT ∧ handler = .persistentVersionRecordHandler) ∨
         (source = .COMMITTED_IN_MEMORY ∧ handler = .inMemoryVersionRecordHandler)) ∧
        transaction1.undoBuffer = transaction.undoBuffer ++
          [.deleteInfo (StorageUtils.getNodeGroupIdx
            (boundNodeIDVector.getValue (boundNodeIDVector.selVector.get 0)))
            rowIdx 1 handler]) := by
  have hmatch : ∀ source handler, RelTableData.getVersionRecordHandler source = .done handler →
      (source = .COMMITTED_PERSISTENT ∧ handler = .persistentVersionRecordHandler) ∨
      (source = .COMMITTED_IN_MEMORY ∧ handler = .inMemoryVersionRecordHandler) := by
    intro source handler h
    cases source
    · left; exact ⟨rfl, (Exec.done.inj h).symm⟩
    · right; exact ⟨rfl, (Exec.done.inj h).symm⟩
    · cases h
  refine ⟨rfl, rfl, ?_, ?_, ?_⟩
  · intro source h1 h2
    cases source
    · exact absurd rfl h1
    · exact absurd rfl h2
    · rfl
  · intro transaction t nodeGroup numRows_ source transaction1 t1 h
    unfold RelTableData.pushInsertInfo at h
    by_cases hassert : RelTableData.pushInsertInfoAssertion nodeGroup source = true
    · rw [hassert] at h
      simp only [Bool.not_true, Bool.false_eq_true, if_false] at h
      cases hh : RelTableData.getVersionRecordHandler source with
      | fault f => rw [hh] at h; cases h
      | fuelOut => rw [hh] at h; cases h
      | done handler =>
        rw [hh] at h
        have h2 := Exec.done.inj h
        simp only [Prod.mk.injEq] at h2
        refine ⟨handler, rfl, hmatch source handler hh, ?_⟩
        rw [← h2.1]
        rfl
    · simp only [Bool.not_eq_true] at hassert
      rw [hassert] at h
      cases h
  · intro impl fuel transaction t boundNodeIDVector relIDVector b transaction1 t1 h
    rcases delete_done_undoBuffer h with h1 | ⟨source, rowIdx, handler, hf, hh, hbuf⟩
    · exact Or.inl h1
    · exact Or.inr ⟨source, rowIdx, handler, hf, hh, hmatch source handler hh, hbuf⟩

/-- Witness of C12 on the sample table: a returned in-memory `pushInsertInfo` has recorded
the insert with a handler that `getVersionRecordHandler` selects for its source. -/
theorem getVersionRecordHandler_matches_source_witness :
    ∃ handler, RelTableData.getVersionRecordHandler .COMMITTED_IN_MEMORY = .done handler ∧
      ((CSRNodeGroupScanSource.COMMITTED_IN_MEMORY = .COMMITTED_PERSISTENT ∧
          handler = .persistentVersionRecordHandler) ∨
       (CSRNodeGroupScanSource.COMMITTED_IN_MEMORY = .COMMITTED_IN_MEMORY ∧
          handler = .inMemoryVersionRecordHandler)) ∧
      (sampleTransaction.pushInsertInfo 0 3 5 .inMemoryVersionRecordHandler).undoBuffer =
        sampleTransaction.undoBuffer ++
          [.insertInfo sampleNodeGroup.getNodeGroupIdx
            (RelTableData.pushInsertInfoStart sampleNodeGroup .COMMITTED_IN_MEMORY).1 5 handler] :=
  getVersionRecordHandler_matches_source.2.2.2.1 sampleTransaction sampleTable sampleNodeGroup 5
    .COMMITTED_IN_MEMORY (sampleTransaction.pushInsertInfo 0 3 5 .inMemoryVersionRecordHandler)
    { sampleTable with nodeGroups := { sampleTable.nodeGroups with numTotalRows := 8 } }
    (by decide)

/-! ## Routing of `applyFuncToChunkedGroups` -/

/-- C13. `applyFuncToChunkedGroups` routes the per-chunk operation to the storage of its own
variant. The persistent handler applies `func` once, with the unchanged
`(startRow, numRows, commitTS)`, to the persistent chunked group of the node group when
`nodeGroupIdx` is below the number of node groups and that chunk exists, changing nothing
else, and applies it to nothing otherwise. The in-memory handler, on an existing node
group, forwards `func` with the same arguments to `NodeGroup::applyFuncToChunkedGroups`,
which reaches the in-memory chunk only and leaves the persistent chunk as it is. -/
theorem applyFuncToChunkedGroups_routing (func : version_record_handler_op_t)
    (t : RelTableData) (nodeGroupIdx startRow numRows commitTS : Nat) :
    (∀ g c, t.getNodeGroupNoLock nodeGroupIdx = some g → g.getPersistentChunkedGroup = some c →
      PersistentVersionRecordHandler.applyFuncToChunkedGroups func t nodeGroupIdx startRow
        numRows commitTS =
        .done (t.setNodeGroup nodeGroupIdx { g with
          persistentChunkedGroup := some (func c startRow numRows commitTS) })) ∧
    (t.getNumNodeGroups ≤ nodeGroupIdx ∨
      (∃ g, t.getNodeGroupNoLock nodeGroupIdx = some g ∧ g.getPersistentChunkedGroup = none) →
      PersistentVersionRecordHandler.applyFuncToChunkedGroups func t nodeGroupIdx startRow
        numRows commitTS = .done t) ∧
    (∀ g, t.getNodeGroupNoLock nodeGroupIdx = some g →
      InMemoryVersionRecordHandler.applyFuncToChunkedGroups func t nodeGroupIdx startRow
        numRows commitTS =
        .done (t.setNodeGroup nodeGroupIdx
          (NodeGroup.applyFuncToChunkedGroups func g startRow numRows commitTS)) ∧
      (NodeGroup.applyFuncToChunkedGroups func g startRow numRows commitTS).inMemChunkedGroup
        = g.inMemChunkedGroup.map (fun c => func c startRow numRows commitTS) ∧
      (NodeGroup.applyFuncToChunkedGroups func g startRow numRows commitTS).persistentChunkedGroup
        = g.persistentChunkedGroup) := by
  have hlt : ∀ g, t.getNodeGroupNoLock nodeGroupIdx = some g →
      nodeGroupIdx < t.getNumNodeGroups := by
    intro g hg
    unfold RelTableData.getNodeGroupNoLock at hg
    unfold RelTableData.getNumNodeGroups
    by_contra hge
    rw [List.getElem?_eq_none (by omega)] at hg
    cases hg
  refine ⟨?_, ?_, ?_⟩
  · intro g c hg hc
    unfold PersistentVersionRecordHandler.applyFuncToChunkedGroups
    rw [if_pos (hlt g hg), hg]
    simp only [hc]
  · intro h
    unfold PersistentVersionRecordHandler.applyFuncToChunkedGroups
    rcases h with hge | ⟨g, hg, hc⟩
    · rw [if_neg (by omega)]
    · rw [if_pos (hlt g hg), hg]
      simp only [hc]
  · intro g hg
    refine ⟨?_, ?_, ?_⟩
    · unfold InMemoryVersionRecordHandler.applyFuncToChunkedGroups
      rw [hg]
    · unfold NodeGroup.applyFuncToChunkedGroups
      cases hc : g.inMemChunkedGroup with
      | none => simp [hc]
      | some c => simp
    · unfold NodeGroup.applyFuncToChunkedGroups
      cases g.inMemChunkedGroup <;> rfl

/-- Witness of C13 on the sample table: the rollback primitive of the sample
implementation, routed by the persistent handler to the persistent chunk of node group 0. -/
theorem applyFuncToChunkedGroups_routing_witness :
    PersistentVersionRecordHandler.applyFuncToChunkedGroups
      sampleNodeGroupImpl.chunkRollbackInsert sampleTable 0 1 5 7 =
      .done (sampleTable.setNodeGroup 0 { sampleNodeGroup with
        persistentChunkedGroup := some (sampleNodeGroupImpl.chunkRollbackInsert
          { rows := [
            { boundNodeOffset := 0, relOffset := 10, values := [], deleted := false },
            { boundNodeOffset := 1, relOffset := 11, values := [], deleted := false }] }
          1 5 7) }) :=
  (applyFuncToChunkedGroups_routing sampleNodeGroupImpl.chunkRollbackInsert sampleTable 0 1 5
    7).1 sampleNodeGroup _ rfl rfl

/-! ## Page allocation and handles of the overflow file -/

theorem getNewPageIdx_run {n : Nat} (bits : Nat) (f : OverflowFile n)
    (hassert : f.pageCounter = OverflowFile.HEADER_PAGE_IDX ∨ f.headerChanged = true) :
    f.getNewPageIdx bits =
      .done (f.pageCounter, { f with pageCounter := (f.pageCounter + 1) % 2 ^ bits }) := by
  unfold OverflowFile.getNewPageIdx
  rw [if_pos hassert]

/-- With the header-changed flag set, `k` calls of `getNewPageIdx` hand out the `k` page
indices from the counter on, as long as they fit the width of `page_idx_t`. -/
theorem getNewPageIdxTimes_range {n : Nat} (bits : Nat) :
    ∀ (k : Nat) (f : OverflowFile n), f.headerChanged = true → f.pageCounter < 2 ^ bits →
      f.pageCounter + k ≤ 2 ^ bits →
      OverflowFile.getNewPageIdxTimes bits k f =
        .done (List.range' f.pageCounter k,
          { f with pageCounter := (f.pageCounter + k) % 2 ^ bits }) := by
  intro k
  induction k with
  | zero =>
    intro f _ hlt _
    simp [OverflowFile.getNewPageIdxTimes, Nat.mod_eq_of_lt hlt]
  | succ k ih =>
    intro f hflag hlt hle
    rw [OverflowFile.getNewPageIdxTimes, getNewPageIdx_run bits f (Or.inr hflag)]
    simp only
    cases k with
    | zero =>
      simp [OverflowFile.getNewPageIdxTimes]
    | succ k =>
      have hc : (f.pageCounter + 1) % 2 ^ bits = f.pageCounter + 1 :=
        Nat.mod_eq_of_lt (by omega)
      rw [ih { f with pageCounter := (f.pageCounter + 1) % 2 ^ bits } hflag
        (Nat.mod_lt _ (by omega)) (by simp only [hc]; omega)]
      simp only [hc, List.range'_succ]
      have h2 : f.pageCounter + 1 + (k + 1) = f.pageCounter + (k + 1 + 1) := by omega
      rw [h2]

/-- C14. `OverflowFile::getNewPageIdx` is a fetch-and-increment. Its assertion holds exactly
when the counter is at the header page index (0) or the header-changed flag is set; then
the call returns the value the page counter had before the call and leaves the counter
raised by 1 on `page_idx_t`, which is exactly 1 more as long as the result fits
`page_idx_t`; otherwise the call ends in an assertion failure. With the flag set, any
sequence of `k` calls whose indices fit `page_idx_t` returns the `k` consecutive indices
from the counter on, which are pairwise distinct and strictly increasing, so that no index
is handed out twice. -/
theorem getNewPageIdx_fetch_and_increment (n bits : Nat) (f : OverflowFile n) :
    ((f.pageCounter = OverflowFile.HEADER_PAGE_IDX ∨ f.headerChanged = true) →
      f.getNewPageIdx bits =
        .done (f.pageCounter, { f with pageCounter := (f.pageCounter + 1) % 2 ^ bits }) ∧
      (f.pageCounter + 1 < 2 ^ bits → (f.pageCounter + 1) % 2 ^ bits = f.pageCounter + 1)) ∧
    (¬ (f.pageCounter = OverflowFile.HEADER_PAGE_IDX ∨ f.headerChanged = true) →
      f.getNewPageIdx bits = .fault .assertion) ∧
    (∀ k, f.headerChanged = true → f.pageCounter < 2 ^ bits → f.pageCounter + k ≤ 2 ^ bits →
      ∃ pageIdxs f1, OverflowFile.getNewPageIdxTimes bits k f = .done (pageIdxs, f1) ∧
        pageIdxs = List.range' f.pageCounter k ∧
        pageIdxs.length = k ∧
        (∀ i, i < k → pageIdxs[i]? = some (f.pageCounter + i)) ∧
        pageIdxs.Nodup ∧ pageIdxs.Pairwise (· < ·) ∧
        f1.pageCounter = (f.pageCounter + k) % 2 ^ bits ∧
        f1.headerChanged = f.headerChanged ∧ f1.handles = f.handles ∧
        f1.header = f.header) := by
  refine ⟨?_, ?_, ?_⟩
  · intro h
    exact ⟨getNewPageIdx_run bits f h, fun hlt => Nat.mod_eq_of_lt hlt⟩
  · intro h
    unfold OverflowFile.getNewPageIdx
    rw [if_neg h]
  · intro k hflag hlt hle
    refine ⟨_, _, getNewPageIdxTimes_range bits k f hflag hlt hle, rfl, ?_, ?_, ?_, ?_,
      rfl, rfl, rfl, rfl⟩
    · simp
    · intro i hi
      simp [List.getElem?_range', hi]
    · exact List.nodup_range' _ _
    · exact List.pairwise_lt_range' _ _

/-- Witness of C14: three calls on the sample overflow file, whose counter is 6, hand out
the pages 6, 7 and 8 and leave the counter at 9. -/
theorem getNewPageIdx_fetch_and_increment_witness :
    ∃ f1, OverflowFile.getNewPageIdxTimes 32 3 sampleOverflowFile = .done ([6, 7, 8], f1) ∧
      f1.pageCounter = 9 := by
  obtain ⟨pageIdxs, f1, hrun, hlist, _, _, _, _, hcount, _⟩ :=
    (getNewPageIdx_fetch_and_increment 4 32 sampleOverflowFile).2.2 3 rfl (by decide)
      (by decide)
  subst hlist
  exact ⟨f1, hrun, hcount⟩

/-- The loop over properties with pairwise distinct, in-range column IDs returns; every
property's slot then holds the column created for it and every other slot is unchanged. -/
theorem initPropertyColumnsLoop_run (impl : ColumnImpl) (tableEntry : TableCatalogEntry) :
    ∀ (properties : List PropertyDefinition) (columns : List (Option Column)),
      (properties.map (fun p => tableEntry.getColumnID p.name)).Nodup →
      (∀ p ∈ properties, tableEntry.getColumnID p.name < columns.length) →
      ∃ columns1,
        RelTableData.initPropertyColumnsLoop impl tableEntry properties columns
          = .done columns1 ∧
        columns1.length = columns.length ∧
        (∀ p ∈ properties, columns1[tableEntry.getColumnID p.name]? =
          some (some (impl.createColumn (impl.getColumnName p.name) p.type))) ∧
        (∀ j, (∀ p ∈ properties, tableEntry.getColumnID p.name ≠ j) →
          columns1[j]? = columns[j]?) := by
  intro properties
  induction properties with
  | nil =>
    intro columns _ _
    exact ⟨columns, rfl, rfl, fun p hp => absurd hp (List.not_mem_nil _), fun _ _ => rfl⟩
  | cons p0 rest ih =>
    intro columns hnd hin
    have hlt : tableEntry.getColumnID p0.name < columns.length := hin p0 (List.mem_cons_self _ _)
    rw [List.map_cons, List.nodup_cons] at hnd
    obtain ⟨columns1, hrun, hlen, hprops, hother⟩ := ih
      (columns.set (tableEntry.getColumnID p0.name)
        (some (impl.createColumn (impl.getColumnName p0.name) p0.type)))
      hnd.2
      (by
        intro p hp
        rw [List.length_set]
        exact hin p (List.mem_cons_of_mem _ hp))
    refine ⟨columns1, ?_, ?_, ?_, ?_⟩
    · rw [RelTableData.initPropertyColumnsLoop]
      simp only [hlt, if_true]
      exact hrun
    · rw [hlen, List.length_set]
    · intro p hp
      rcases List.mem_cons.mp hp with heq | hmem
      · subst heq
        rw [hother _ (by
          intro q hq hc
          exact hnd.1 (List.mem_map.mpr ⟨q, hq, hc⟩))]
        exact List.getElem?_set_self hlt
      · exact hprops p hmem
    · intro j hj
      rw [hother j (fun p hp => hj p (List.mem_cons_of_mem _ hp))]
      exact List.getElem?_set_ne (hj p0 (List.mem_cons_self _ _))

theorem setCommonTableIDAt_run {columns : List (Option Column)} {columnID : Nat}
    (tableID : Nat) {column : Column} (hget : columns[columnID]? = some (some column))
    (hkind : column.isInternalIDColumn = true) :
    setCommonTableIDAt columns columnID tableID =
      .done (columns.set columnID (some { column with commonTableID := some tableID })) := by
  unfold setCommonTableIDAt
  rw [hget]
  simp only [hkind, if_true]

theorem length_resizeColumns (columns : List (Option Column)) (size : Nat) :
    (resizeColumns columns size).length = size := by
  unfold resizeColumns
  simp only [List.length_append, List.length_take, List.length_replicate]
  omega

/-- C16. For a catalog entry whose property column IDs are pairwise distinct, at most
`maxColumnID` and different from `NBR_ID_COLUMN_ID`, and which declares at
`REL_ID_COLUMN_ID` a property whose column is created as an internal-ID column
(`maxColumnID + 1` fitting `column_id_t`), `RelTableData::initPropertyColumns` returns;
afterwards the column list has exactly `maxColumnID + 1` slots, the slot at
`NBR_ID_COLUMN_ID` holds the neighbour-ID column (with the neighbour table as common
table), the slot at `REL_ID_COLUMN_ID` holds an internal-ID column (with this table as
common table), and for every declared property the slot at that property's catalog column
ID holds the column created for that property. -/
theorem initPropertyColumns_slots (impl : ColumnImpl) (bits tableID : Nat)
    (columns : List (Option Column)) (tableEntry : TableCatalogEntry)
    (hfit : tableEntry.maxColumnID + 1 < 2 ^ bits)
    (hmax : ∀ p ∈ tableEntry.properties, tableEntry.getColumnID p.name ≤ tableEntry.maxColumnID)
    (hdistinct : (tableEntry.properties.map (fun p => tableEntry.getColumnID p.name)).Nodup)
    (hnbr : ∀ p ∈ tableEntry.properties, tableEntry.getColumnID p.name ≠ NBR_ID_COLUMN_ID)
    (hrel : ∃ p ∈ tableEntry.properties, tableEntry.getColumnID p.name = REL_ID_COLUMN_ID ∧
      (impl.createColumn (impl.getColumnName p.name) p.type).isInternalIDColumn = true) :
    ∃ columns1,
      RelTableData.initPropertyColumns impl bits tableID columns tableEntry = .done columns1 ∧
      columns1.length = tableEntry.maxColumnID + 1 ∧
      columns1[NBR_ID_COLUMN_ID]? = some (some
        { InternalIDColumn.new (impl.getColumnName "NBR_ID") with
          commonTableID := some tableEntry.nbrTableID }) ∧
      (∃ c, columns1[REL_ID_COLUMN_ID]? = some (some c) ∧ c.isInternalIDColumn = true ∧
        c.commonTableID = some tableID) ∧
      (∀ p ∈ tableEntry.properties, columns1[tableEntry.getColumnID p.name]? =
        some (some
          (if tableEntry.getColumnID p.name = REL_ID_COLUMN_ID then
            { impl.createColumn (impl.getColumnName p.name) p.type with
              commonTableID := some tableID }
          else impl.createColumn (impl.getColumnName p.name) p.type))) := by
  obtain ⟨prel, hprel, hrelID, hrelKind⟩ := hrel
  have hne : REL_ID_COLUMN_ID ≠ NBR_ID_COLUMN_ID := by
    rw [← hrelID]
    exact hnbr prel hprel
  have hsize : (tableEntry.maxColumnID + 1) % 2 ^ bits = tableEntry.maxColumnID + 1 :=
    Nat.mod_eq_of_lt hfit
  have hlen1 : (resizeColumns columns (tableEntry.maxColumnID + 1)).length
      = tableEntry.maxColumnID + 1 := length_resizeColumns _ _
  have hnbrlt : NBR_ID_COLUMN_ID < (resizeColumns columns (tableEntry.maxColumnID + 1)).length := by
    rw [hlen1]
    unfold NBR_ID_COLUMN_ID
    omega
  obtain ⟨columns3, hloop, hlen3, hprops, hother⟩ := initPropertyColumnsLoop_run impl
    tableEntry tableEntry.properties
    ((resizeColumns columns (tableEntry.maxColumnID + 1)).set NBR_ID_COLUMN_ID
      (some (InternalIDColumn.new (impl.getColumnName "NBR_ID"))))
    hdistinct
    (by
      intro p hp
      rw [List.length_set, hlen1]
      have := hmax p hp
      omega)
  have hnbr3 : columns3[NBR_ID_COLUMN_ID]?
      = some (some (InternalIDColumn.new (impl.getColumnName "NBR_ID"))) := by
    rw [hother NBR_ID_COLUMN_ID hnbr]
    exact List.getElem?_set_self hnbrlt
  have hset4 := setCommonTableIDAt_run tableEntry.nbrTableID hnbr3 rfl
  have hrel4 : (columns3.set NBR_ID_COLUMN_ID (some
      { InternalIDColumn.new (impl.getColumnName "NBR_ID") with
        commonTableID := some tableEntry.nbrTableID }))[REL_ID_COLUMN_ID]?
      = some (some (impl.createColumn (impl.getColumnName prel.name) prel.type)) := by
    rw [List.getElem?_set_ne (Ne.symm hne), ← hrelID]
    exact hprops prel hprel
  have hset5 := setCommonTableIDAt_run tableID hrel4 hrelKind
  have hlen3' : columns3.length = tableEntry.maxColumnID + 1 := by
    rw [hlen3, List.length_set, hlen1]
  have hrellt : REL_ID_COLUMN_ID < columns3.length := by
    rw [hlen3', ← hrelID]
    have := hmax prel hprel
    omega
  have hnbrlt3 : NBR_ID_COLUMN_ID < columns3.length := by
    rw [hlen3']
    unfold NBR_ID_COLUMN_ID
    omega
  refine ⟨(columns3.set NBR_ID_COLUMN_ID (some
      { InternalIDColumn.new (impl.getColumnName "NBR_ID") with
        commonTableID := some tableEntry.nbrTableID })).set REL_ID_COLUMN_ID (some
      { impl.createColumn (impl.getColumnName prel.name) prel.type with
        commonTableID := some tableID }), ?_, ?_, ?_, ?_, ?_⟩
  · unfold RelTableData.initPropertyColumns
    simp only [hsize, hnbrlt, if_true, hloop, hset4]
    exact hset5
  · rw [List.length_set, List.length_set, hlen3']
  · rw [List.getElem?_set_ne hne]
    exact List.getElem?_set_self hnbrlt3
  · refine ⟨_, List.getElem?_set_self (by rw [List.length_set]; exact hrellt), hrelKind, rfl⟩
  · intro p hp
    by_cases hpid : tableEntry.getColumnID p.name = REL_ID_COLUMN_ID
    · have hpeq : p = prel := by
        have hinj := List.inj_on_of_nodup_map hdistinct hp hprel
        exact hinj (by simp only [hpid, hrelID])
      subst hpeq
      rw [if_pos hpid, hpid]
      exact List.getElem?_set_self (by rw [List.length_set]; exact hrellt)
    · rw [if_neg hpid, List.getElem?_set_ne (Ne.symm hpid), List.getElem?_set_ne
        (Ne.symm (hnbr p hp))]
      exact hprops p hp

/-- Witness of C16 on the sample catalog entry: three slots, the neighbour-ID column, the
rel-ID column and the column of the property `since`. -/
theorem initPropertyColumns_slots_witness :
    ∃ columns1,
      RelTableData.initPropertyColumns sampleColumnImpl 32 5 [] sampleCatalogEntry
        = .done columns1 ∧
      columns1.length = 3 := by
  obtain ⟨columns1, hrun, hlen, _⟩ := initPropertyColumns_slots sampleColumnImpl 32 5 []
    sampleCatalogEntry (by decide) (by decide) (by decide) (by decide)
    ⟨{ name := "_ID", type := "INTERNAL_ID" }, by decide, by decide, by decide⟩
  exact ⟨columns1, hrun, hlen⟩

/-! ## Arithmetic on values -/

/-- C19 (amended): for every selection vector, `NodeRelExpressionEvaluator::select` throws
a `NotImplementedException` with the message "NodeExpressionEvaluator::select": it returns
neither true nor false, it leaves the selection vector as it was, and it ends in an
exception that propagates to the caller, not in a failed assertion. -/
theorem select_throws_not_implemented (selVector : SelectionVector) :
    NodeRelExpressionEvaluator.select selVector =
      (.thrown (.NotImplementedException "NodeExpressionEvaluator::select"), selVector) ∧
    (∀ b, (NodeRelExpressionEvaluator.select selVector).1 ≠ .returned b) ∧
    (NodeRelExpressionEvaluator.select selVector).1 ≠ .assertionFailure ∧
    (NodeRelExpressionEvaluator.select selVector).2 = selVector := by
  refine ⟨rfl, ?_, ?_, rfl⟩
  · intro b h
    exact Outcome.noConfusion h
  · intro h
    exact Outcome.noConfusion h

/-- Counterexample to C19 as stated: on a sample selection vector `select` ends in a thrown
exception, which a caller may catch, and not in a failed assertion. -/
theorem select_not_assertion_counterexample :
    (NodeRelExpressionEvaluator.select { selectedSize := 2, positions := [0, 1] }).1 =
      .thrown (.NotImplementedException "NodeExpressionEvaluator::select") ∧
    (NodeRelExpressionEvaluator.select { selectedSize := 2, positions := [0, 1] }).1 ≠
      .assertionFailure := by
  refine ⟨rfl, ?_⟩
  intro h
  exact Outcome.noConfusion h

/-! ## Null keys and the lookup of a node's relationships -/

/-- C21 (amended). `RelTableData::update` requires exactly one selected position in each of
the bound-node and rel-ID vectors on every call: it fails its assertion on every call on
which one of the two vectors has another number of selected positions. `RelTableData::delete_`
checks that only on the calls whose selected values are both non-null, where it fails the
assertion of `findMatchingRow` before any scan. When the selected bound-node value or the
selected rel-ID value is null, `update` (on one selected position each) and `delete_` (on
any number of selected positions) return false, for every behaviour of the scan and without
a single scan step, with the table, and for `delete_` the transaction with its undo buffer,
unchanged. -/
theorem update_delete_null_key (impl : NodeGroupImpl) (fuel : Nat) (transaction : Transaction)
    (t : RelTableData) (boundNodeIDVector relIDVector : ValueVector) (columnID : Nat)
    (dataVector : ValueVector) :
    ((boundNodeIDVector.selVector.getSelSize ≠ 1 ∨ relIDVector.selVector.getSelSize ≠ 1) →
      RelTableData.update impl fuel transaction t boundNodeIDVector relIDVector columnID
        dataVector = .fault .assertion) ∧
    (boundNodeIDVector.selVector.getSelSize = 1 → relIDVector.selVector.getSelSize = 1 →
      (boundNodeIDVector.isNull (boundNodeIDVector.selVector.get 0) ||
        relIDVector.isNull (relIDVector.selVector.get 0)) = true →
      RelTableData.update impl fuel transaction t boundNodeIDVector relIDVector columnID
        dataVector = .done (false, t)) ∧
    ((boundNodeIDVector.isNull (boundNodeIDVector.selVector.get 0) ||
        relIDVector.isNull (relIDVector.selVector.get 0)) = true →
      RelTableData.delete_ impl fuel transaction t boundNodeIDVector relIDVector =
        .done (false, transaction, t)) ∧
    ((boundNodeIDVector.isNull (boundNodeIDVector.selVector.get 0) ||
        relIDVector.isNull (relIDVector.selVector.get 0)) = false →
      (boundNodeIDVector.selVector.getSelSize ≠ 1 ∨ relIDVector.selVector.getSelSize ≠ 1) →
      RelTableData.delete_ impl fuel transaction t boundNodeIDVector relIDVector =
        .fault .assertion) := by
  refine ⟨?_, ?_, ?_, ?_⟩
  · intro h
    unfold RelTableData.update
    by_cases hb : boundNodeIDVector.selVector.getSelSize ≠ 1
    · rw [if_pos hb]
    · rw [if_neg hb]
      rcases h with h | h
      · exact absurd h hb
      · rw [if_pos h]
  · intro hb hr hnull
    unfold RelTableData.update
    rw [if_neg (by simp [hb]), if_neg (by simp [hr])]
    simp only [hnull, if_true]
  · intro hnull
    unfold RelTableData.delete_
    simp only [hnull, if_true]
  · intro hnull h
    have hfind : RelTableData.findMatchingRow impl fuel transaction t boundNodeIDVector
        relIDVector = .fault .assertion := by
      unfold RelTableData.findMatchingRow
      by_cases hb : boundNodeIDVector.selVector.getSelSize ≠ 1
      · rw [if_pos hb]
      · rw [if_neg hb]
        rcases h with h | h
        · exact absurd h hb
        · rw [if_pos h]
    unfold RelTableData.delete_
    simp only [hnull, hfind]
    rfl

/-- C21 on sample vectors: on a flat vector whose selected value is null, `update` and
`delete_` return false and leave the table and the transaction as they were, also with no
fuel for a scan. -/
theorem update_delete_null_key_witness :
    flatNullVector.selVector.getSelSize = 1 ∧ (flatVector 10).selVector.getSelSize = 1 ∧
    RelTableData.update sampleNodeGroupImpl 0 sampleTransaction sampleTable flatNullVector
      (flatVector 10) 2 (flatVector 5) = .done (false, sampleTable) ∧
    RelTableData.delete_ sampleNodeGroupImpl 0 sampleTransaction sampleTable flatNullVector
      (flatVector 10) = .done (false, sampleTransaction, sampleTable) :=
  ⟨by decide, by decide,
   (update_delete_null_key sampleNodeGroupImpl 0 sampleTransaction sampleTable flatNullVector
      (flatVector 10) 2 (flatVector 5)).2.1 (by decide) (by decide) (by decide),
   (update_delete_null_key sampleNodeGroupImpl 0 sampleTransaction sampleTable flatNullVector
      (flatVector 10) 2 (flatVector 5)).2.2.1 (by decide)⟩

/-- Counterexample to C21 as stated: on a bound-node vector with two selected positions
whose first selected value is null, `delete_` does not require one selected position: it
returns false, where `update` fails its assertion. -/
theorem delete_two_selected_counterexample :
    nullKeyVector.selVector.getSelSize = 2 ∧
    RelTableData.delete_ sampleNodeGroupImpl 0 sampleTransaction sampleTable nullKeyVector
      (flatVector 10) = .done (false, sampleTransaction, sampleTable) ∧
    RelTableData.update sampleNodeGroupImpl 0 sampleTransaction sampleTable nullKeyVector
      (flatVector 10) 2 (flatVector 5) = .fault .assertion := by
  refine ⟨by decide, by decide, by decide⟩

/-- The loop of `checkIfNodeHasRels` returns false when the scan reports the empty-result
sentinel at call `n` and every batch from call `k` up to there has no selected row. -/
theorem checkIfNodeHasRelsLoop_false (scan : ScanStream) :
    ∀ (fuel k n : Nat), k ≤ n → scan n = none →
      (∀ j b, k ≤ j → j < n → scan j = some b → b.outState.getSelSize = 0) →
      n - k < fuel → checkIfNodeHasRelsLoop scan fuel k = .done false := by
  intro fuel
  induction fuel with
  | zero => intro k n _ _ _ h; omega
  | succ fuel ih =>
    intro k n hkn hn hempty hfuel
    unfold checkIfNodeHasRelsLoop
    cases hk : scan k with
    | none => rfl
    | some b =>
      have hlt : k < n := by
        rcases Nat.lt_or_ge k n with h | h
        · exact h
        · have : k = n := by omega
          subst this
          rw [hn] at hk
          cases hk
      have hz := hempty k b (Nat.le_refl _) hlt hk
      simp only [hz, gt_iff_lt, Nat.lt_irrefl, if_false]
      exact ih (k + 1) n hlt hn
        (fun j bj h1 h2 h3 => hempty j bj (by omega) h2 h3) (by omega)

/-- The loop of `checkIfNodeHasRels` returns true when call `m` of the scan gives a batch
with a selected row and every call from `k` up to there gives a batch. -/
theorem checkIfNodeHasRelsLoop_true (scan : ScanStream) :
    ∀ (fuel k m : Nat) (b : ScanBatch), k ≤ m → scan m = some b → 0 < b.outState.getSelSize →
      (∀ j, k ≤ j → j < m → scan j ≠ none) →
      m - k < fuel → checkIfNodeHasRelsLoop scan fuel k = .done true := by
  intro fuel
  induction fuel with
  | zero => intro k m _ _ _ _ _ h; omega
  | succ fuel ih =>
    intro k m b hkm hm hpos hsome hfuel
    unfold checkIfNodeHasRelsLoop
    rcases Nat.lt_or_ge k m with hlt | hge
    · cases hk : scan k with
      | none => exact absurd hk (hsome k (Nat.le_refl _) hlt)
      | some bk =>
        by_cases hbk : bk.outState.getSelSize > 0
        · simp only [hbk, if_true]
        · simp only [hbk, if_false]
          exact ih (k + 1) m b hlt hm hpos (fun j h1 h2 => hsome j (by omega) h2) (by omega)
    · have : k = m := by omega
      subst this
      simp only [hm, gt_iff_lt, hpos, if_true]

/-- C22. On a flat node-ID vector, `RelTableData::checkIfNodeHasRels` returns false, without
a single scan step, when the group index of the node is at least the number of node groups.
Otherwise the node group exists and, when the scan reports the empty-result sentinel first
at call `n`, the call returns, with true if and only if one of the batches before call `n`
has a selected row; in particular it returns false, and does not fault, when the first call
of the scan reports the sentinel. It returns true as well when a batch with a selected row
comes after batches only. -/
theorem checkIfNodeHasRels_result (impl : NodeGroupImpl) (transaction : Transaction)
    (t : RelTableData) (srcNodeIDVector : ValueVector) (hflat : srcNodeIDVector.isFlat = true) :
    (StorageUtils.getNodeGroupIdx (srcNodeIDVector.getValue (srcNodeIDVector.selVector.get 0))
        ≥ t.getNumNodeGroups →
      ∀ fuel, RelTableData.checkIfNodeHasRels impl fuel transaction t srcNodeIDVector =
        .done false) ∧
    (StorageUtils.getNodeGroupIdx (srcNodeIDVector.getValue (srcNodeIDVector.selVector.get 0))
        < t.getNumNodeGroups →
      ∃ nodeGroup,
        t.getNodeGroup (StorageUtils.getNodeGroupIdx
          (srcNodeIDVector.getValue (srcNodeIDVector.selVector.get 0))) = some nodeGroup ∧
        (∀ n fuel, n < fuel →
          impl.scan transaction nodeGroup
            (srcNodeIDVector.getValue (srcNodeIDVector.selVector.get 0)) n = none →
          (∀ j, j < n → impl.scan transaction nodeGroup
            (srcNodeIDVector.getValue (srcNodeIDVector.selVector.get 0)) j ≠ none) →
          ∃ r, RelTableData.checkIfNodeHasRels impl fuel transaction t srcNodeIDVector =
              .done r ∧
            (r = true ↔ ∃ k b, k < n ∧ impl.scan transaction nodeGroup
              (srcNodeIDVector.getValue (srcNodeIDVector.selVector.get 0)) k = some b ∧
              0 < b.outState.getSelSize)) ∧
        (∀ fuel, 0 < fuel →
          impl.scan transaction nodeGroup
            (srcNodeIDVector.getValue (srcNodeIDVector.selVector.get 0)) 0 = none →
          RelTableData.checkIfNodeHasRels impl fuel transaction t srcNodeIDVector =
            .done false) ∧
        (∀ m b fuel, m < fuel →
          impl.scan transaction nodeGroup
            (srcNodeIDVector.getValue (srcNodeIDVector.selVector.get 0)) m = some b →
          0 < b.outState.getSelSize →
          (∀ j, j < m → impl.scan transaction nodeGroup
            (srcNodeIDVector.getValue (srcNodeIDVector.selVector.get 0)) j ≠ none) →
          RelTableData.checkIfNodeHasRels impl fuel transaction t srcNodeIDVector =
            .done true)) := by
  refine ⟨?_, ?_⟩
  · intro hge fuel
    unfold RelTableData.checkIfNodeHasRels
    simp only [hflat, Bool.true_eq_false, if_false, hge, if_true]
  · intro hlt
    have hlen : StorageUtils.getNodeGroupIdx
        (srcNodeIDVector.getValue (srcNodeIDVector.selVector.get 0))
          < t.nodeGroups.nodeGroups.length := hlt
    refine ⟨t.nodeGroups.nodeGroups[StorageUtils.getNodeGroupIdx
        (srcNodeIDVector.getValue (srcNodeIDVector.selVector.get 0))],
      List.getElem?_eq_getElem hlen, ?_⟩
    have hget : t.getNodeGroup (StorageUtils.getNodeGroupIdx
        (srcNodeIDVector.getValue (srcNodeIDVector.selVector.get 0))) =
        some t.nodeGroups.nodeGroups[StorageUtils.getNodeGroupIdx
          (srcNodeIDVector.getValue (srcNodeIDVector.selVector.get 0))] :=
      List.getElem?_eq_getElem hlen
    have hrun : ∀ fuel, RelTableData.checkIfNodeHasRels impl fuel transaction t
        srcNodeIDVector = checkIfNodeHasRelsLoop (impl.scan transaction
          t.nodeGroups.nodeGroups[StorageUtils.getNodeGroupIdx
            (srcNodeIDVector.getValue (srcNodeIDVector.selVector.get 0))]
          (srcNodeIDVector.getValue (srcNodeIDVector.selVector.get 0))) fuel 0 := by
      intro fuel
      unfold RelTableData.checkIfNodeHasRels
      simp only [hflat, Bool.true_eq_false, if_false, ge_iff_le, Nat.not_le.mpr hlt, hget]
    refine ⟨?_, ?_, ?_⟩
    · intro n fuel hfuel hn hfirst
      by_cases hex : ∃ k b, k < n ∧ impl.scan transaction
          t.nodeGroups.nodeGroups[StorageUtils.getNodeGroupIdx
            (srcNodeIDVector.getValue (srcNodeIDVector.selVector.get 0))]
          (srcNodeIDVector.getValue (srcNodeIDVector.selVector.get 0)) k = some b ∧
          0 < b.outState.getSelSize
      · obtain ⟨k, b, hk, hb, hpos⟩ := hex
        refine ⟨true, ?_, ⟨fun _ => ⟨k, b, hk, hb, hpos⟩, fun _ => rfl⟩⟩
        rw [hrun]
        exact checkIfNodeHasRelsLoop_true _ fuel 0 k b (Nat.zero_le _) hb hpos
          (fun j _ h2 => hfirst j (by omega)) (by omega)
      · refine ⟨false, ?_, ⟨fun h => Bool.noConfusion h, fun h => absurd h hex⟩⟩
        rw [hrun]
        refine checkIfNodeHasRelsLoop_false _ fuel 0 n (Nat.zero_le _) hn ?_ (by omega)
        intro j b _ hj hb
        by_contra hne
        exact hex ⟨j, b, hj, hb, Nat.pos_of_ne_zero hne⟩
    · intro fuel hfuel h0
      rw [hrun]
      exact checkIfNodeHasRelsLoop_false _ fuel 0 0 (Nat.le_refl _) h0
        (fun j b _ h2 _ => absurd h2 (Nat.not_lt_zero _)) (by omega)
    · intro m b fuel hfuel hm hpos hsome
      rw [hrun]
      exact checkIfNodeHasRelsLoop_true _ fuel 0 m b (Nat.zero_le _) hm hpos
        (fun j _ h2 => hsome j h2) (by omega)

/-- C22 on the sample table: node 0 has relationships, and a node of a node group the table
does not have yields false. -/
theorem checkIfNodeHasRels_result_witness :
    (flatVector 0).isFlat = true ∧
    RelTableData.checkIfNodeHasRels sampleNodeGroupImpl 0 sampleTransaction emptyTable
      (flatVector 0) = .done false :=
  ⟨rfl, (checkIfNodeHasRels_result sampleNodeGroupImpl sampleTransaction emptyTable
    (flatVector 0) rfl).1 (by decide) 0⟩

/-! ## Dates, timestamps and intervals -/

/-- A 32-bit integer is left as it is by the reduction to 32 bits. -/
theorem wrap32_of_range (x : Int) (h1 : -2 ^ 31 ≤ x) (h2 : x < 2 ^ 31) : wrap32 x = x := by
  unfold wrap32; omega

/-- A 64-bit integer is left as it is by the reduction to 64 bits. -/
theorem wrap64_of_range (x : Int) (h1 : -2 ^ 63 ≤ x) (h2 : x < 2 ^ 63) : wrap64 x = x := by
  unfold wrap64; omega

/-- The reduction to 32 bits gives a 32-bit integer. -/
theorem wrap32_range (x : Int) : -2 ^ 31 ≤ wrap32 x ∧ wrap32 x < 2 ^ 31 := by
  unfold wrap32; omega

/-- The quotient of C++ (truncated toward zero) by a positive divisor, through the floor
quotient. -/
theorem tdiv_eq_ite (a b : Int) (hb : 0 < b) :
    Int.tdiv a b = if 0 ≤ a then a / b else -((-a) / b) := by
  split
  · next h => exact Int.tdiv_eq_ediv h (Int.le_of_lt hb)
  · next h =>
    have h1 : Int.tdiv (-a) b = (-a) / b := Int.tdiv_eq_ediv (by omega) (Int.le_of_lt hb)
    rw [Int.neg_tdiv] at h1
    omega

/-- The remainder of C++ (with the sign of the dividend) by a positive divisor, through the
floor remainder. -/
theorem tmod_eq_ite (a b : Int) (hb : 0 < b) :
    Int.tmod a b = if 0 ≤ a then a % b else -((-a) % b) := by
  have h1 := Int.tdiv_add_tmod a b
  have h2 := tdiv_eq_ite a b hb
  have h3 := Int.ediv_add_emod a b
  have h4 := Int.ediv_add_emod (-a) b
  split
  · next h =>
    rw [if_pos h] at h2
    rw [h2] at h1
    omega
  · next h =>
    rw [if_neg h] at h2
    rw [h2, Int.mul_neg] at h1
    omega

/-- The month arithmetic of the addition of an interval to a date: the month reached is a
month of the calendar, as many months from the start as the interval has. -/
theorem addMonths_spec (c : IntervalConstants) (y m k : Int) (hMPY : c.MONTHS_PER_YEAR = 12)
    (hm1 : 1 ≤ m) (hm2 : m ≤ 12) (hy1 : -2 ^ 30 ≤ y) (hy2 : y ≤ 2 ^ 30)
    (hk1 : -2 ^ 31 ≤ k) (hk2 : k < 2 ^ 31) :
    1 ≤ (Add.addMonths c y m k).2 ∧ (Add.addMonths c y m k).2 ≤ 12 ∧
    12 * (Add.addMonths c y m k).1 + (Add.addMonths c y m k).2 = 12 * y + m + k := by
  have hq := tdiv_eq_ite k 12 (by decide)
  unfold Add.addMonths
  simp only [hMPY, hq]
  unfold wrap32
  split_ifs <;> simp only [] <;> omega

/-- The days and the whole days of the micros of the interval are added, on 32 bits, to the
date the months lead to. -/
theorem add_date_interval_days (impl : DateImpl) (c : IntervalConstants) (left : date_t)
    (right : interval_t)
    (hres : -2 ^ 31 ≤ (Add.dateAfterMonths impl c left right).days ∧
      (Add.dateAfterMonths impl c left right).days < 2 ^ 31) :
    Add.operation_date_interval impl c left right =
      { days := wrap32 ((Add.dateAfterMonths impl c left right).days + right.days +
          Int.tdiv right.micros c.MICROS_PER_DAY) } := by
  unfold Add.operation_date_interval
  generalize Add.dateAfterMonths impl c left right = result at hres
  obtain ⟨days⟩ := result
  simp only at hres
  have hq0 : right.micros = 0 → Int.tdiv right.micros c.MICROS_PER_DAY = 0 := by
    intro h
    rw [h, Int.zero_tdiv]
  generalize Int.tdiv right.micros c.MICROS_PER_DAY = q at hq0
  by_cases hd : right.days = 0
  · by_cases hmic : right.micros = 0
    · have := hq0 hmic
      simp only [hd, hmic, ne_eq, not_true_eq_false, if_false]
      congr 1
      unfold wrap32
      omega
    · simp only [hd, hmic, ne_eq, not_true_eq_false, not_false_eq_true, if_false, if_true]
      congr 1
      unfold wrap32
      omega
  · by_cases hmic : right.micros = 0
    · have := hq0 hmic
      simp only [hd, hmic, ne_eq, not_true_eq_false, not_false_eq_true, if_false, if_true]
      congr 1
      unfold wrap32
      omega
    · simp only [hd, hmic, ne_eq, not_false_eq_true, if_true]
      congr 1
      unfold wrap32
      omega

/-- C23. For a date that `Date::Convert` gives as (y, m, d), with m a month of the calendar,
and an interval with months k different from 0 (twelve months per year), the addition moves
to the calendar month k months from (y, m): the month reached is in 1..12 and
12 * year + month = 12 * y + m + k; the day is the smaller of d and the number of days of
that month, and the date before the days are added is `Date::FromDate` of the three. Then
the days of the interval and the whole days of its micros, `micros / MICROS_PER_DAY`
truncated toward zero, are added to the day number, on 32 bits, so exactly when the sum is
a 32-bit integer. -/
theorem add_date_interval_months (impl : DateImpl) (c : IntervalConstants) (left : date_t)
    (right : interval_t) (y m d : Int) (hMPY : c.MONTHS_PER_YEAR = 12)
    (hconv : impl.Convert left = (y, m, d)) (hm : 1 ≤ m ∧ m ≤ 12)
    (hy : -2 ^ 30 ≤ y ∧ y ≤ 2 ^ 30)
    (hfrom : ∀ y1 m1 d1, -2 ^ 31 ≤ (impl.FromDate y1 m1 d1).days ∧
      (impl.FromDate y1 m1 d1).days < 2 ^ 31)
    (hk : right.months ≠ 0) (hk32 : -2 ^ 31 ≤ right.months ∧ right.months < 2 ^ 31) :
    1 ≤ (Add.addMonths c y m right.months).2 ∧ (Add.addMonths c y m right.months).2 ≤ 12 ∧
    12 * (Add.addMonths c y m right.months).1 + (Add.addMonths c y m right.months).2 =
      12 * y + m + right.months ∧
    Add.dateAfterMonths impl c left right =
      impl.FromDate (Add.addMonths c y m right.months).1 (Add.addMonths c y m right.months).2
        (min d (impl.MonthDays (Add.addMonths c y m right.months).1
          (Add.addMonths c y m right.months).2)) ∧
    Add.operation_date_interval impl c left right =
      { days := wrap32 ((Add.dateAfterMonths impl c left right).days + right.days +
          Int.tdiv right.micros c.MICROS_PER_DAY) } ∧
    (-2 ^ 31 ≤ (Add.dateAfterMonths impl c left right).days + right.days +
        Int.tdiv right.micros c.MICROS_PER_DAY →
      (Add.dateAfterMonths impl c left right).days + right.days +
        Int.tdiv right.micros c.MICROS_PER_DAY < 2 ^ 31 →
      (Add.operation_date_interval impl c left right).days =
        (Add.dateAfterMonths impl c left right).days + right.days +
          Int.tdiv right.micros c.MICROS_PER_DAY) := by
  obtain ⟨h1, h2, h3⟩ := addMonths_spec c y m right.months hMPY hm.1 hm.2 hy.1 hy.2 hk32.1
    hk32.2
  have hafter : Add.dateAfterMonths impl c left right =
      impl.FromDate (Add.addMonths c y m right.months).1 (Add.addMonths c y m right.months).2
        (min d (impl.MonthDays (Add.addMonths c y m right.months).1
          (Add.addMonths c y m right.months).2)) := by
    unfold Add.dateAfterMonths
    rw [if_pos hk, hconv]
    simp only []
    congr 1
    by_cases hgt : d > impl.MonthDays (Add.addMonths c y m right.months).1
        (Add.addMonths c y m right.months).2
    · rw [if_pos hgt, min_eq_right (Int.le_of_lt hgt)]
    · rw [if_neg hgt, min_eq_left (by omega)]
  have hrange : -2 ^ 31 ≤ (Add.dateAfterMonths impl c left right).days ∧
      (Add.dateAfterMonths impl c left right).days < 2 ^ 31 := by
    rw [hafter]
    exact hfrom _ _ _
  have hop := add_date_interval_days impl c left right hrange
  refine ⟨h1, h2, h3, hafter, hop, ?_⟩
  intro hlo hhi
  rw [hop]
  exact wrap32_of_range _ hlo hhi

/-- C23 on the Gregorian calendar: one month added to 2020-01-31 (day number 18292) gives
2020-02-29 (day number 18321). -/
theorem add_date_interval_months_witness :
    sampleDateImpl.Convert { days := 18292 } = (2020, 1, 31) ∧
    sampleDateImpl.FromDate 2020 2 29 = { days := 18321 } ∧
    Add.addMonths sampleIntervalConstants 2020 1 1 = (2020, 2) ∧
    Add.operation_date_interval sampleDateImpl sampleIntervalConstants { days := 18292 }
      { months := 1, days := 0, micros := 0 } = { days := 18321 } := by
  have h := add_date_interval_months sampleDateImpl sampleIntervalConstants { days := 18292 }
    { months := 1, days := 0, micros := 0 } 2020 1 31 rfl (by decide) (by decide) (by decide)
    (fun y1 m1 d1 => wrap32_range _) (by decide) (by decide)
  refine ⟨by decide, by decide, by decide, ?_⟩
  rw [h.2.2.2.2.1]
  decide

/-- For an interval without months the date before the days are added is the left operand
itself. -/
theorem dateAfterMonths_of_months_zero (impl : DateImpl) (c : IntervalConstants)
    (left : date_t) (right : interval_t) (hmonths : right.months = 0) :
    Add.dateAfterMonths impl c left right = left := by
  unfold Add.dateAfterMonths
  rw [if_neg (by simp [hmonths])]

/-- C26. For a timestamp that `Timestamp::Convert` splits into a day number and a time of
day in [0, MICROS_PER_DAY), and an interval with months = 0 (86400000000 microseconds per
day), the time of day handed to `Timestamp::FromDatetime` lies in [0, MICROS_PER_DAY), after
at most one carry or borrow of a day; and, taking the value of a timestamp as
days * MICROS_PER_DAY + time of day, the date and time handed over have the value of the
timestamp plus days * MICROS_PER_DAY + micros of the interval, whenever the day number of
that value is a 32-bit integer and so a day number of `date_t`. -/
theorem add_timestamp_interval_linear (dimpl : DateImpl) (timpl : TimestampImpl)
    (c : IntervalConstants) (left : timestamp_t) (right : interval_t) (date : date_t)
    (time : dtime_t) (hMPD : c.MICROS_PER_DAY = 86400000000)
    (hconv : timpl.Convert left = (date, time))
    (htime : 0 ≤ time.micros ∧ time.micros < 86400000000)
    (hdate : -2 ^ 31 ≤ date.days ∧ date.days < 2 ^ 31)
    (hmonths : right.months = 0) :
    Add.operation_timestamp_interval dimpl timpl c left right =
      timpl.FromDatetime (Add.timestampIntervalDatetime dimpl timpl c left right).1
        (Add.timestampIntervalDatetime dimpl timpl c left right).2 ∧
    0 ≤ (Add.timestampIntervalDatetime dimpl timpl c left right).2.micros ∧
    (Add.timestampIntervalDatetime dimpl timpl c left right).2.micros < 86400000000 ∧
    (-2 ^ 31 * 86400000000 ≤ date.days * 86400000000 + time.micros +
        right.days * 86400000000 + right.micros →
      date.days * 86400000000 + time.micros + right.days * 86400000000 + right.micros
        < 2 ^ 31 * 86400000000 →
      (Add.timestampIntervalDatetime dimpl timpl c left right).1.days * 86400000000 +
        (Add.timestampIntervalDatetime dimpl timpl c left right).2.micros =
      date.days * 86400000000 + time.micros + right.days * 86400000000 + right.micros) := by
  have hadd : Add.operation_date_interval dimpl c date right =
      { days := wrap32 (date.days + right.days + Int.tdiv right.micros c.MICROS_PER_DAY) } := by
    have h := add_date_interval_days dimpl c date right
      (by rw [dateAfterMonths_of_months_zero dimpl c date right hmonths]; exact hdate)
    rw [dateAfterMonths_of_months_zero dimpl c date right hmonths] at h
    exact h
  have hq := tdiv_eq_ite right.micros 86400000000 (by decide)
  refine ⟨rfl, ?_, ?_, ?_⟩
  · unfold Add.timestampIntervalDatetime
    rw [hconv]
    simp only [hadd, hMPD, hq]
    unfold wrap64
    split_ifs <;> simp only [] <;> omega
  · unfold Add.timestampIntervalDatetime
    rw [hconv]
    simp only [hadd, hMPD, hq]
    unfold wrap64
    split_ifs <;> simp only [] <;> omega
  · intro hlo hhi
    unfold Add.timestampIntervalDatetime
    rw [hconv]
    simp only [hadd, hMPD, hq]
    unfold wrap64 wrap32
    split_ifs <;> simp only [] <;> omega

set_option maxRecDepth 8192 in
/-- C26 on sample operands: two days less 200 microseconds added to the timestamp of day 3,
time of day 105, give day 4 and the time of day 86399999905. -/
theorem add_timestamp_interval_linear_witness :
    sampleTimestampImpl.Convert { value := 259200000105 } =
      ({ days := 3 }, { micros := 105 }) ∧
    Add.timestampIntervalDatetime sampleDateImpl sampleTimestampImpl sampleIntervalConstants
      { value := 259200000105 } { months := 0, days := 2, micros := -200 } =
      ({ days := 4 }, { micros := 86399999905 }) ∧
    (Add.timestampIntervalDatetime sampleDateImpl sampleTimestampImpl sampleIntervalConstants
      { value := 259200000105 } { months := 0, days := 2, micros := -200 }).1.days *
        86400000000 +
      (Add.timestampIntervalDatetime sampleDateImpl sampleTimestampImpl
        sampleIntervalConstants { value := 259200000105 }
        { months := 0, days := 2, micros := -200 }).2.micros =
      3 * 86400000000 + 105 + 2 * 86400000000 + -200 := by
  refine ⟨by decide, by decide, ?_⟩
  exact (add_timestamp_interval_linear sampleDateImpl sampleTimestampImpl
    sampleIntervalConstants { value := 259200000105 }
    { months := 0, days := 2, micros := -200 } { days := 3 } { micros := 105 } rfl
    (by decide) (by decide) (by decide) rfl).2.2.2 (by decide) (by decide)

/-- The remainder of a non-negative integer by a positive one is at most the integer. -/
theorem emod_le_of_nonneg (x r : Int) (hx : 0 ≤ x) (hr : 0 < r) : x % r ≤ x := by
  have h1 := Int.ediv_add_emod x r
  have h2 : 0 ≤ r * (x / r) := Int.mul_nonneg (Int.le_of_lt hr) (Int.ediv_nonneg hx (Int.le_of_lt hr))
  omega

/-- C28 (amended): for every interval with non-negative components whose total duration
(months * DAYS_PER_MONTH + days) * MICROS_PER_DAY + micros is below 2^63 microseconds, and
every divisor r > 0 (30 days per month, 86400000000 microseconds per day), the total
duration of `Divide(i, r)` is the floor of the total duration of `i` divided by r; and
dividing any interval by 1 returns it unchanged. -/
theorem divide_interval_total (c : IntervalConstants) (i : interval_t) (r : Int)
    (hDPM : c.DAYS_PER_MONTH = 30) (hMPD : c.MICROS_PER_DAY = 86400000000) :
    (0 ≤ i.months → 0 ≤ i.days → 0 ≤ i.micros → 0 < r → i.total c < 2 ^ 63 →
      (Divide.operation_interval_int64 c i r).total c = i.total c / r) ∧
    (-2 ^ 31 ≤ i.months → i.months < 2 ^ 31 → -2 ^ 31 ≤ i.days → i.days < 2 ^ 31 →
      -2 ^ 63 ≤ i.micros → i.micros < 2 ^ 63 →
      Divide.operation_interval_int64 c i 1 = i) := by
  obtain ⟨M, D, U⟩ := i
  refine ⟨?_, ?_⟩
  · intro hm hd hu hr htotal
    simp only [interval_t.total, hDPM, hMPD] at htotal ⊢
    simp only at hm hd hu
    have hr0 : 0 ≤ r := Int.le_of_lt hr
    have hmr0 : 0 ≤ M % r := Int.emod_nonneg M (by omega)
    have hmrM : M % r ≤ M := emod_le_of_nonneg M r hm hr
    have hqM0 : 0 ≤ M / r := Int.ediv_nonneg hm hr0
    have hqMM : M / r ≤ M := Int.ediv_le_self r hm
    have hD1 : 0 ≤ D + M % r * 30 := by omega
    have hdr0 : 0 ≤ (D + M % r * 30) % r := Int.emod_nonneg _ (by omega)
    have hdrD : (D + M % r * 30) % r ≤ D + M % r * 30 := emod_le_of_nonneg _ r hD1 hr
    have hqD0 : 0 ≤ (D + M % r * 30) / r := Int.ediv_nonneg hD1 hr0
    have hqDD : (D + M % r * 30) / r ≤ D + M % r * 30 := Int.ediv_le_self r hD1
    have hU1 : 0 ≤ U + (D + M % r * 30) % r * 86400000000 := by omega
    have hqU0 : 0 ≤ (U + (D + M % r * 30) % r * 86400000000) / r := Int.ediv_nonneg hU1 hr0
    have hqUU : (U + (D + M % r * 30) % r * 86400000000) / r ≤
        U + (D + M % r * 30) % r * 86400000000 := Int.ediv_le_self r hU1
    have e1 : wrap32 (Int.tmod M r) = M % r := by
      rw [Int.tmod_eq_emod hm hr0]
      exact wrap32_of_range _ (by omega) (by omega)
    have e2 : wrap32 (D + wrap32 (M % r * 30)) = D + M % r * 30 := by
      rw [wrap32_of_range (M % r * 30) (by omega) (by omega)]
      exact wrap32_of_range _ (by omega) (by omega)
    have e3 : wrap32 (Int.tmod (D + M % r * 30) r) = (D + M % r * 30) % r := by
      rw [Int.tmod_eq_emod hD1 hr0]
      exact wrap32_of_range _ (by omega) (by omega)
    have e4 : wrap32 (Int.tdiv M r) = M / r := by
      rw [Int.tdiv_eq_ediv hm hr0]
      exact wrap32_of_range _ (by omega) (by omega)
    have e5 : wrap32 (Int.tdiv (D + M % r * 30) r) = (D + M % r * 30) / r := by
      rw [Int.tdiv_eq_ediv hD1 hr0]
      exact wrap32_of_range _ (by omega) (by omega)
    have e6 : wrap64 (U + wrap64 ((D + M % r * 30) % r * 86400000000)) =
        U + (D + M % r * 30) % r * 86400000000 := by
      rw [wrap64_of_range ((D + M % r * 30) % r * 86400000000) (by omega) (by omega)]
      exact wrap64_of_range _ (by omega) (by omega)
    have e7 : wrap64 (Int.tdiv (U + (D + M % r * 30) % r * 86400000000) r) =
        (U + (D + M % r * 30) % r * 86400000000) / r := by
      rw [Int.tdiv_eq_ediv hU1 hr0]
      exact wrap64_of_range _ (by omega) (by omega)
    unfold Divide.operation_interval_int64
    simp only [hDPM, hMPD, e1, e2, e3, e4, e5, e6, e7]
    have h1 := Int.ediv_add_emod M r
    have h2 := Int.ediv_add_emod (D + M % r * 30) r
    have key : (M * 30 + D) * 86400000000 + U =
        (U + (D + M % r * 30) % r * 86400000000) +
          r * ((M / r * 30 + (D + M % r * 30) / r) * 86400000000) := by
      linear_combination (-(30 * 86400000000 : Int)) * h1 - (86400000000 : Int) * h2
    rw [key, Int.add_mul_ediv_left _ _ (by omega)]
    omega
  · intro hm1 hm2 hd1 hd2 hu1 hu2
    simp only at hm1 hm2 hd1 hd2 hu1 hu2
    unfold Divide.operation_interval_int64
    simp only [hDPM, hMPD, Int.tmod_one, Int.tdiv_one, Int.zero_mul]
    simp only [interval_t.mk.injEq]
    unfold wrap32 wrap64
    omega

/-- The amended C28 on a sample interval: 5 months, 7 days and 11 microseconds divided
by 3. -/
theorem divide_interval_total_witness :
    Divide.operation_interval_int64 sampleIntervalConstants
      { months := 5, days := 7, micros := 11 } 3 =
      { months := 1, days := 22, micros := 28800000003 } ∧
    (Divide.operation_interval_int64 sampleIntervalConstants
      { months := 5, days := 7, micros := 11 } 3).total sampleIntervalConstants =
      ({ months := 5, days := 7, micros := 11 } : interval_t).total sampleIntervalConstants
        / 3 :=
  ⟨by decide,
   (divide_interval_total sampleIntervalConstants { months := 5, days := 7, micros := 11 } 3
      rfl rfl).1 (by decide) (by decide) (by decide) (by decide) (by decide)⟩

/-- Counterexample to C28 as stated: the interval of 2^31 - 1 months, with non-negative
components, divided by 2^40 gives 0 months, 0 days and -2 micros, of total duration -2,
whereas the floor of its total duration divided by 2^40 is 5062499997. -/
theorem divide_interval_counterexample :
    Divide.operation_interval_int64 sampleIntervalConstants
      { months := 2 ^ 31 - 1, days := 0, micros := 0 } (2 ^ 40) =
      { months := 0, days := 0, micros := -2 } ∧
    ({ months := 0, days := 0, micros := -2 } : interval_t).total sampleIntervalConstants
      = -2 ∧
    ({ months := 2 ^ 31 - 1, days := 0, micros := 0 } : interval_t).total
      sampleIntervalConstants / 2 ^ 40 = 5062499997 ∧
    (Divide.operation_interval_int64 sampleIntervalConstants
      { months := 2 ^ 31 - 1, days := 0, micros := 0 } (2 ^ 40)).total sampleIntervalConstants ≠
      ({ months := 2 ^ 31 - 1, days := 0, micros := 0 } : interval_t).total
        sampleIntervalConstants / 2 ^ 40 := by
  refine ⟨by decide, by decide, by decide, by decide⟩

/-! ## Validation of parsed expressions -/

/-- The message format of the two validation functions, with its three arguments put in. -/
theorem stringFormat_has_type (a b c : String) :
    stringFormat "\x7b\x7d has type \x7b\x7d but \x7b\x7d was expected." [a, b, c] =
      a ++ " has type " ++ b ++ " but " ++ c ++ " was expected." := by
  apply String.ext
  simp [stringFormat, stringFormatChars]

/-- C24. `ParsedExpressionUtils::validateExpressionType` returns normally if and only if
the type of the expression equals the expected type, and otherwise throws a
`BinderException` with the message "<expr> has type <actual> but <expected> was
expected."; `validateDataType` does the same, on a literal expression, for the data type of
the value of the literal. -/
theorem validate_returns_iff_type_matches {L : Type} [DecidableEq L]
    (exprTypeToString : ExpressionType → String) (logicalTypeToString : L → String)
    (expr : ParsedExpression L) (type : ExpressionType) (dataType expected : L) :
    (ParsedExpressionUtils.validateExpressionType exprTypeToString expr type = .returned () ↔
      expr.expressionType = type) ∧
    (expr.expressionType ≠ type →
      ParsedExpressionUtils.validateExpressionType exprTypeToString expr type =
        .thrown (.BinderException (expr.toString ++ " has type " ++
          exprTypeToString expr.expressionType ++ " but " ++ exprTypeToString type ++
          " was expected."))) ∧
    (expr.expressionType = .LITERAL → expr.literalValueDataType = some dataType →
      (ParsedExpressionUtils.validateDataType logicalTypeToString expr expected =
          .returned () ↔ dataType = expected) ∧
      (dataType ≠ expected →
        ParsedExpressionUtils.validateDataType logicalTypeToString expr expected =
          .thrown (.BinderException (expr.toString ++ " has type " ++
            logicalTypeToString dataType ++ " but " ++ logicalTypeToString expected ++
            " was expected.")))) := by
  refine ⟨?_, ?_, ?_⟩
  · unfold ParsedExpressionUtils.validateExpressionType
    by_cases h : expr.expressionType = type
    · simp [h]
    · simp [h]
  · intro h
    unfold ParsedExpressionUtils.validateExpressionType
    rw [if_neg h, stringFormat_has_type]
  · intro hlit hval
    unfold ParsedExpressionUtils.validateDataType
    rw [if_neg (by simp [hlit]), hval]
    by_cases h : dataType = expected
    · simp [h]
    · refine ⟨by simp [h], fun _ => ?_⟩
      simp only [h, if_false, stringFormat_has_type]

/-- C24 on a sample expression: a property expression validated as a literal is refused
with the message naming the expression and the two types. -/
theorem validate_returns_iff_type_matches_witness :
    ParsedExpressionUtils.validateExpressionType
      (fun t => match t with
        | .LITERAL => "LITERAL"
        | .OTHER _ => "PROPERTY")
      ({ expressionType := .OTHER 1, toString := "a.b", literalValueDataType := none } :
        ParsedExpression Nat) .LITERAL =
      .thrown (.BinderException "a.b has type PROPERTY but LITERAL was expected.") := by
  have h := (validate_returns_iff_type_matches
    (fun t => match t with
      | .LITERAL => "LITERAL"
      | .OTHER _ => "PROPERTY")
    (fun (n : Nat) => toString n)
    ({ expressionType := .OTHER 1, toString := "a.b", literalValueDataType := none } :
      ParsedExpression Nat) .LITERAL 0 0).2.1 (by decide)
  rw [h]
  decide

/-! ## String concatenation -/

/-- A `memcpy` within the bounds of both byte sequences has a result. -/
theorem memcpy_some (dst : List Nat) (offset : Nat) (src : List Nat) (n : Nat)
    (h1 : n ≤ src.length) (h2 : offset + n ≤ dst.length) :
    memcpy dst offset src n = some (dst.take offset ++ src.take n ++ dst.drop (offset + n)) := by
  unfold memcpy
  rw [if_pos ⟨h1, h2⟩]

/-- A `memcpy` leaves the length of the destination as it is. -/
theorem length_memcpy_result (dst : List Nat) (offset : Nat) (src : List Nat) (n : Nat)
    (h1 : n ≤ src.length) (h2 : offset + n ≤ dst.length) :
    (dst.take offset ++ src.take n ++ dst.drop (offset + n)).length = dst.length := by
  simp only [List.length_append, List.length_take, List.length_drop]
  omega

/-- The first bytes of a destination after two `memcpy` calls that fill it from the start:
the bytes of the first source followed by those of the second. -/
theorem take_two_copies (lb rb rest : List Nat) :
    (lb ++ rb ++ rest).take (lb.length + rb.length) = lb ++ rb := by
  exact List.take_left' (List.length_append lb rb)

/-- The two `memcpy` calls of the concatenation, from the start of a destination that is
long enough, leave the bytes of the left string followed by those of the right string and
then the bytes the destination had. -/
theorem memcpy_twice (dst lsrc rsrc : List Nat) (n k : Nat) (hn : n ≤ lsrc.length)
    (hk : k ≤ rsrc.length) (hdst : n + k ≤ dst.length) :
    ∃ dst2, (∀ dst1, memcpy dst 0 lsrc n = some dst1 → memcpy dst1 n rsrc k = some dst2) ∧
      memcpy dst 0 lsrc n = some (lsrc.take n ++ dst.drop n) ∧
      dst2 = lsrc.take n ++ rsrc.take k ++ dst.drop (n + k) ∧
      dst2.length = dst.length ∧
      dst2.take (n + k) = lsrc.take n ++ rsrc.take k := by
  have h1 : memcpy dst 0 lsrc n = some (lsrc.take n ++ dst.drop n) := by
    rw [memcpy_some dst 0 lsrc n hn (by omega)]
    simp
  have hlen1 : (lsrc.take n ++ dst.drop n).length = dst.length := by
    simp only [List.length_append, List.length_take, List.length_drop]
    omega
  have hltake : (lsrc.take n).length = n := by
    rw [List.length_take]; omega
  have hrtake : (rsrc.take k).length = k := by
    rw [List.length_take]; omega
  have htake1 : (lsrc.take n ++ dst.drop n).take n = lsrc.take n := by
    exact List.take_left' hltake
  have hdrop1 : (lsrc.take n ++ dst.drop n).drop (n + k) = dst.drop (n + k) := by
    rw [List.drop_append_eq_append_drop, hltake]
    rw [List.drop_eq_nil_of_le (by rw [hltake]; omega), List.nil_append, List.drop_drop]
    congr 1
    omega
  have h2 : memcpy (lsrc.take n ++ dst.drop n) n rsrc k =
      some (lsrc.take n ++ rsrc.take k ++ dst.drop (n + k)) := by
    rw [memcpy_some _ n rsrc k hk (by rw [hlen1]; exact hdst), htake1, hdrop1]
  refine ⟨lsrc.take n ++ rsrc.take k ++ dst.drop (n + k), ?_, h1, rfl, ?_, ?_⟩
  · intro dst1 hd
    rw [h1] at hd
    cases hd
    exact h2
  · simp only [List.length_append, List.length_take, List.length_drop]
    omega
  · have := take_two_copies (lsrc.take n) (rsrc.take k) (dst.drop (n + k))
    rw [hltake, hrtake] at this
    exact this

/-- C25. For all well-formed strings `left` and `right` whose total length fits the 32-bit
length field, and a result whose overflow buffer holds the total length when that is above
`SHORT_STR_LENGTH`, the concatenation returns; the length of the result is
`left.len + right.len` and its bytes are the bytes of `left` followed by those of `right`.
When the total length is at most `SHORT_STR_LENGTH` the bytes are stored in the value
itself; otherwise they are stored in the overflow buffer of the result, and the prefix of
the result holds the first `PREFIX_LENGTH` bytes of the concatenation. -/
theorem concat_string_bytes (SHORT_STR_LENGTH PREFIX_LENGTH : Nat)
    (left right result : gf_string_t) (hplen : PREFIX_LENGTH ≤ SHORT_STR_LENGTH)
    (hleft : left.WellFormed SHORT_STR_LENGTH) (hright : right.WellFormed SHORT_STR_LENGTH)
    (hresult : result.inlined.length = SHORT_STR_LENGTH)
    (hlen : left.len + right.len < 2 ^ 32)
    (hbuffer : SHORT_STR_LENGTH < left.len + right.len →
      left.len + right.len ≤ result.overflow.length) :
    ∃ res,
      Add.operation_string SHORT_STR_LENGTH PREFIX_LENGTH left right result = .done res ∧
      res.len = left.len + right.len ∧
      res.bytes SHORT_STR_LENGTH =
        left.bytes SHORT_STR_LENGTH ++ right.bytes SHORT_STR_LENGTH ∧
      (left.len + right.len ≤ SHORT_STR_LENGTH →
        res.inlined.take (left.len + right.len) =
          left.bytes SHORT_STR_LENGTH ++ right.bytes SHORT_STR_LENGTH) ∧
      (SHORT_STR_LENGTH < left.len + right.len →
        res.overflow.take (left.len + right.len) =
          left.bytes SHORT_STR_LENGTH ++ right.bytes SHORT_STR_LENGTH ∧
        res.inlined.take PREFIX_LENGTH =
          (left.bytes SHORT_STR_LENGTH ++ right.bytes SHORT_STR_LENGTH).take PREFIX_LENGTH) := by
  obtain ⟨hlin, hldata⟩ := hleft
  obtain ⟨hrin, hrdata⟩ := hright
  have hmod : (left.len + right.len) % 2 ^ 32 = left.len + right.len := Nat.mod_eq_of_lt hlen
  by_cases hshort : left.len + right.len ≤ SHORT_STR_LENGTH
  · have hl : left.getData SHORT_STR_LENGTH = left.inlined := by
      unfold gf_string_t.getData
      rw [if_pos (by omega)]
    have hr : right.getData SHORT_STR_LENGTH = right.inlined := by
      unfold gf_string_t.getData
      rw [if_pos (by omega)]
    obtain ⟨dst2, hsecond, hfirst, _, hlen2, htake2⟩ :=
      memcpy_twice result.inlined left.inlined right.inlined left.len right.len
        (by omega) (by omega) (by omega)
    have hsecond1 := hsecond _ hfirst
    refine ⟨{ result with inlined := dst2, len := left.len + right.len }, ?_, rfl, ?_, ?_, ?_⟩
    · unfold Add.operation_string
      simp only [hmod, if_pos hshort, hfirst, hsecond1]
    · unfold gf_string_t.bytes
      rw [hl, hr]
      unfold gf_string_t.getData
      simp only [if_pos hshort]
      exact htake2
    · intro _
      unfold gf_string_t.bytes
      rw [hl, hr]
      exact htake2
    · intro hlong
      omega
  · have hlong : SHORT_STR_LENGTH < left.len + right.len := by omega
    have hbuf := hbuffer hlong
    obtain ⟨dst2, hsecond, hfirst, hdst2, hlen2, htake2⟩ :=
      memcpy_twice result.overflow (left.getData SHORT_STR_LENGTH)
        (right.getData SHORT_STR_LENGTH) left.len right.len hldata hrdata hbuf
    have hsecond1 := hsecond _ hfirst
    have hthird := memcpy_some result.inlined 0 dst2 PREFIX_LENGTH (by omega) (by omega)
    have hpre : (dst2.take PREFIX_LENGTH) =
        ((left.getData SHORT_STR_LENGTH).take left.len ++
          (right.getData SHORT_STR_LENGTH).take right.len).take PREFIX_LENGTH := by
      rw [← htake2, List.take_take, Nat.min_eq_left (by omega)]
    refine ⟨{ len := left.len + right.len,
              inlined := result.inlined.take 0 ++ dst2.take PREFIX_LENGTH ++
                result.inlined.drop (0 + PREFIX_LENGTH),
              overflow := dst2 }, ?_, rfl, ?_, ?_, ?_⟩
    · unfold Add.operation_string
      simp only [hmod, if_neg hshort, hfirst, hsecond1, hthird]
    · unfold gf_string_t.bytes
      simp only [gf_string_t.getData, if_neg hshort]
      exact htake2
    · intro h
      omega
    · intro _
      refine ⟨htake2, ?_⟩
      unfold gf_string_t.bytes
      simp only [List.take_zero, List.nil_append]
      rw [← hpre]
      have hlenp : (dst2.take PREFIX_LENGTH).length = PREFIX_LENGTH := by
        rw [List.length_take]
        omega
      exact List.take_left' hlenp

/-- C25 on sample strings: "ab" followed by "0123456789abc" has 15 bytes, stored in the
overflow buffer of the result, and the prefix of the result holds the bytes of "ab01". -/
theorem concat_string_bytes_witness :
    ∃ res,
      Add.operation_string 12 4 sampleShortString sampleLongString sampleResultString =
        .done res ∧
      res.len = 15 ∧
      res.bytes 12 = [97, 98, 48, 49, 50, 51, 52, 53, 54, 55, 56, 57, 97, 98, 99] := by
  obtain ⟨res, hrun, hlen, hbytes, _⟩ := concat_string_bytes 12 4 sampleShortString
    sampleLongString sampleResultString (by decide) ⟨by decide, by decide⟩
    ⟨by decide, by decide⟩ (by decide) (by decide) (by decide)
  exact ⟨res, hrun, hlen, by rw [hbytes]; decide⟩

/-! ## The `Modulo` template -/

/-- The remainder of C++ of a dividend that is not positive is not positive. -/
theorem tmod_nonpos (a b : Int) (ha : a ≤ 0) : Int.tmod a b ≤ 0 := by
  have h1 := Int.tdiv_add_tmod a b
  have h2 := Int.tdiv_add_tmod (-a) b
  have h3 := Int.tmod_nonneg b (show 0 ≤ -a by omega)
  rw [Int.neg_tdiv, Int.mul_neg] at h2
  omega

/-- The floor quotient of a non-negative integer by a divisor of at least 2 is at most half
of it. -/
theorem two_mul_ediv_le (a b : Int) (ha : 0 ≤ a) (hb : 2 ≤ b) : 2 * (a / b) ≤ a := by
  have h1 := Int.ediv_add_emod a b
  have h2 : 0 ≤ a % b := Int.emod_nonneg a (by omega)
  have h3 : 0 ≤ a / b := Int.ediv_nonneg ha (by omega)
  have h4 : 0 ≤ (b - 2) * (a / b) := Int.mul_nonneg (by omega) h3
  rw [Int.sub_mul] at h4
  omega

/-- The quotient of C++ of a 64-bit integer by a positive divisor is a 64-bit integer, and
below 2^62 in absolute value when the divisor is at least 2. -/
theorem tdiv_pos_range (l r : Int) (hl1 : -2 ^ 63 ≤ l) (hl2 : l < 2 ^ 63) (hr : 0 < r) :
    -2 ^ 63 ≤ Int.tdiv l r ∧ Int.tdiv l r < 2 ^ 63 ∧
    (2 ≤ r → -2 ^ 62 ≤ Int.tdiv l r ∧ Int.tdiv l r ≤ 2 ^ 62) := by
  rw [tdiv_eq_ite l r hr]
  split
  · next h =>
    have h1 := Int.ediv_nonneg h (Int.le_of_lt hr)
    have h2 := Int.ediv_le_self r h
    refine ⟨by omega, by omega, fun h2r => ?_⟩
    have h3 := two_mul_ediv_le l r h h2r
    omega
  · next h =>
    have h1 := Int.ediv_nonneg (show 0 ≤ -l by omega) (Int.le_of_lt hr)
    have h2 := Int.ediv_le_self r (show 0 ≤ -l by omega)
    refine ⟨by omega, by omega, fun h2r => ?_⟩
    have h3 := two_mul_ediv_le (-l) r (by omega) h2r
    omega

/-- The quotient of C++ of two 64-bit integers is a 64-bit integer, unless the divisor is 0
or the least 64-bit integer is divided by -1. -/
theorem tdiv_int64_range (l r : Int) (hl1 : -2 ^ 63 ≤ l) (hl2 : l < 2 ^ 63) (hr : r ≠ 0)
    (hover : ¬ (l = -2 ^ 63 ∧ r = -1)) :
    -2 ^ 63 ≤ Int.tdiv l r ∧ Int.tdiv l r < 2 ^ 63 := by
  rcases Int.lt_or_gt_of_ne hr with hneg | hpos
  · have h := tdiv_pos_range l (-r) hl1 hl2 (by omega)
    rw [Int.tdiv_neg] at h
    obtain ⟨h1, h2, h3⟩ := h
    by_cases hr1 : r = -1
    · have hl : l ≠ -2 ^ 63 := fun hl => hover ⟨hl, hr1⟩
      subst hr1
      have h5 : Int.tdiv l (-1) = -l := by rw [Int.tdiv_neg, Int.tdiv_one]
      rw [h5]
      omega
    · have := h3 (by omega)
      omega
  · exact ⟨(tdiv_pos_range l r hl1 hl2 hpos).1, (tdiv_pos_range l r hl1 hl2 hpos).2.1⟩

/-- The remainder of C++ lies between 0 and the dividend. -/
theorem tmod_bounds (l r : Int) (hr : r ≠ 0) :
    (0 ≤ l → 0 ≤ Int.tmod l r ∧ Int.tmod l r ≤ l) ∧
    (l ≤ 0 → Int.tmod l r ≤ 0 ∧ l ≤ Int.tmod l r) := by
  have key : ∀ b : Int, 0 < b →
      (0 ≤ l → 0 ≤ Int.tmod l b ∧ Int.tmod l b ≤ l) ∧
      (l ≤ 0 → Int.tmod l b ≤ 0 ∧ l ≤ Int.tmod l b) := by
    intro b hb
    rw [tmod_eq_ite l b hb]
    refine ⟨fun h => ?_, fun h => ?_⟩
    · rw [if_pos h]
      exact ⟨Int.emod_nonneg l (by omega), emod_le_of_nonneg l b h hb⟩
    · have h1 := Int.emod_nonneg (-l) (show b ≠ 0 by omega)
      have h2 := emod_le_of_nonneg (-l) b (by omega) hb
      have h3 := Int.emod_nonneg l (show b ≠ 0 by omega)
      have h4 := Int.emod_lt_of_pos l hb
      split
      · next h0 =>
        have hl0 : l = 0 := by omega
        subst hl0
        simp
      · omega
  rcases Int.lt_or_gt_of_ne hr with hneg | hpos
  · have h := key (-r) (by omega)
    rw [Int.tmod_neg] at h
    exact h
  · exact key r hpos

/-- The dispatcher instantiated with a `FUNC` whose instantiations all return is the
dispatcher on the overloads of that `FUNC`. -/
theorem operationTemplate_eq_operation {D : Type} (func : ArithmeticFunc D)
    (fii : Int → Int → Int → Int) (fid : Int → D → D → D) (fdi : D → Int → D → D)
    (fdd : D → D → D → D)
    (hii : ∀ l r res, func .int64_t .int64_t .int64_t l r res = some (.returned (fii l r res)))
    (hid : ∀ l r res, func .int64_t .double_t .double_t l r res =
      some (.returned (fid l r res)))
    (hdi : ∀ l r res, func .double_t .int64_t .double_t l r res =
      some (.returned (fdi l r res)))
    (hdd : ∀ l r res, func .double_t .double_t .double_t l r res =
      some (.returned (fdd l r res)))
    (arithmeticOpStr : String) (dataTypeToString : DataType → String)
    (left right result : Value (ValueUnion D)) :
    ArithmeticOnValues.operationTemplate func arithmeticOpStr dataTypeToString left right
        result =
      some (ArithmeticOnValues.operation
        { int64_int64 := fun l r res =>
            { res with int64Val := fii l.int64Val r.int64Val res.int64Val }
          int64_double := fun l r res =>
            { res with doubleVal := fid l.int64Val r.doubleVal res.doubleVal }
          double_int64 := fun l r res =>
            { res with doubleVal := fdi l.doubleVal r.int64Val res.doubleVal }
          double_double := fun l r res =>
            { res with doubleVal := fdd l.doubleVal r.doubleVal res.doubleVal } }
        arithmeticOpStr dataTypeToString left right result) := by
  obtain ⟨lt, lv⟩ := left
  obtain ⟨rt, rv⟩ := right
  cases lt <;> cases rt <;>
    simp [ArithmeticOnValues.operationTemplate, ArithmeticOnValues.operation,
      ArithmeticOnValues.finish, hii, hid, hdi, hdd]

/-- C30 (amended). The primary template of `Modulo`, whose body is `assert(false)`, is not
reached through `Modulo::operation` on values: for every pair of values the call runs one of
the four specialisations, when each operand is an `INT64` or a `DOUBLE`, or throws
`invalid_argument`, and it never fails an assertion, although every instantiation other than
the four does. On two `INT64` operands the specialisation `left % right` has a result
exactly when `right != 0` and the pair is not the least 64-bit integer with -1, where the
behaviour of `%` is undefined; the result then satisfies
`left = (left / right) * right + (left % right)` with a quotient, truncated toward zero,
that is a 64-bit integer, and it has the sign of `left` or is zero. -/
theorem modulo_generic_unreachable {D : Type} (fm : FmodImpl D)
    (dataTypeToString : DataType → String) (left right result : Value (ValueUnion D)) :
    Modulo.operationOnValues fm dataTypeToString left right result ≠
      some .assertionFailure ∧
    (left.dataType = .INT64 → right.dataType = .INT64 → right.val.int64Val ≠ 0 →
      ¬ (left.val.int64Val = -2 ^ 63 ∧ right.val.int64Val = -1) →
      Modulo.operationOnValues fm dataTypeToString left right result =
        some (.returned { dataType := .INT64, val := { result.val with
          int64Val := Int.tmod left.val.int64Val right.val.int64Val } })) ∧
    (left.dataType = .INT64 → right.dataType = .INT64 →
      (right.val.int64Val = 0 ∨ (left.val.int64Val = -2 ^ 63 ∧ right.val.int64Val = -1)) →
      Modulo.operationOnValues fm dataTypeToString left right result = none) ∧
    (left.dataType = .INT64 → right.dataType = .DOUBLE →
      Modulo.operationOnValues fm dataTypeToString left right result =
        some (.returned { dataType := .DOUBLE, val := { result.val with
          doubleVal := fm.fmod_int64_double left.val.int64Val right.val.doubleVal } })) ∧
    (left.dataType = .DOUBLE → right.dataType = .INT64 →
      Modulo.operationOnValues fm dataTypeToString left right result =
        some (.returned { dataType := .DOUBLE, val := { result.val with
          doubleVal := fm.fmod_double_int64 left.val.doubleVal right.val.int64Val } })) ∧
    (left.dataType = .DOUBLE → right.dataType = .DOUBLE →
      Modulo.operationOnValues fm dataTypeToString left right result =
        some (.returned { dataType := .DOUBLE, val := { result.val with
          doubleVal := fm.fmod_double_double left.val.doubleVal right.val.doubleVal } })) ∧
    (¬ ((left.dataType = .INT64 ∨ left.dataType = .DOUBLE) ∧
        (right.dataType = .INT64 ∨ right.dataType = .DOUBLE)) →
      ∃ msg, Modulo.operationOnValues fm dataTypeToString left right result =
        some (.thrown (.invalid_argument msg))) ∧
    (∀ (A B R : CType) (l : A.denote D) (r : B.denote D) (res : R.denote D),
      (A, B, R) ≠ (.int64_t, .int64_t, .int64_t) → (A, B, R) ≠ (.int64_t, .double_t, .double_t) →
      (A, B, R) ≠ (.double_t, .int64_t, .double_t) →
      (A, B, R) ≠ (.double_t, .double_t, .double_t) →
      Modulo.operation fm A B R l r res = some .assertionFailure) ∧
    (∀ (l r res : Int), -2 ^ 63 ≤ l → l < 2 ^ 63 → r ≠ 0 → ¬ (l = -2 ^ 63 ∧ r = -1) →
      Modulo.operation fm .int64_t .int64_t .int64_t l r res =
        some (.returned (Int.tmod l r)) ∧
      -2 ^ 63 ≤ Int.tdiv l r ∧ Int.tdiv l r < 2 ^ 63 ∧
      l = Int.tdiv l r * r + Int.tmod l r ∧
      (0 ≤ l → 0 ≤ Int.tmod l r ∧ Int.tmod l r ≤ l) ∧
      (l ≤ 0 → Int.tmod l r ≤ 0 ∧ l ≤ Int.tmod l r)) := by
  obtain ⟨lt, lv⟩ := left
  obtain ⟨rt, rv⟩ := right
  refine ⟨?_, ?_, ?_, ?_, ?_, ?_, ?_, ?_, ?_⟩
  · cases lt <;> cases rt
    case INT64.INT64 =>
      simp only [Modulo.operationOnValues, ArithmeticOnValues.operationTemplate,
        Modulo.operation]
      cases Modulo.remainder_int64 lv.int64Val rv.int64Val <;>
        simp [ArithmeticOnValues.finish]
    all_goals
      simp [Modulo.operationOnValues, ArithmeticOnValues.operationTemplate,
        ArithmeticOnValues.finish, Modulo.operation]
  · intro hl hr h0 hover
    simp only at hl hr h0 hover
    subst hl hr
    simp only [Modulo.operationOnValues, ArithmeticOnValues.operationTemplate,
      Modulo.operation, Modulo.remainder_int64]
    rw [if_neg (by rintro (h | h); exact h0 h; exact hover h)]
    rfl
  · intro hl hr hub
    simp only at hl hr hub
    subst hl hr
    simp only [Modulo.operationOnValues, ArithmeticOnValues.operationTemplate,
      Modulo.operation, Modulo.remainder_int64]
    rw [if_pos hub]
    rfl
  · intro hl hr
    simp only at hl hr
    subst hl hr
    rfl
  · intro hl hr
    simp only at hl hr
    subst hl hr
    rfl
  · intro hl hr
    simp only at hl hr
    subst hl hr
    rfl
  · cases lt <;> cases rt <;>
      simp [Modulo.operationOnValues, ArithmeticOnValues.operationTemplate]
  · intro A B R l r res h1 h2 h3 h4
    cases A <;> cases B <;> cases R <;> simp_all [Modulo.operation]
  · intro l r res hl1 hl2 hr hover
    have hq := tdiv_int64_range l r hl1 hl2 hr hover
    have hid := Int.tdiv_add_tmod l r
    rw [Int.mul_comm] at hid
    refine ⟨?_, hq.1, hq.2, hid.symm, ?_, ?_⟩
    · simp only [Modulo.operation, Modulo.remainder_int64]
      rw [if_neg (by rintro (h | h); exact hr h; exact hover h)]
      rfl
    · exact (tmod_bounds l r hr).1
    · exact (tmod_bounds l r hr).2

/-- The amended C30 on sample values: the remainder of -7 by 2 is -1, with the sign of -7,
and -7 = (-3) * 2 + (-1). -/
theorem modulo_generic_unreachable_witness :
    Modulo.operation sampleFmodImpl .int64_t .int64_t .int64_t (-7 : Int) (2 : Int) (0 : Int)
      = some (.returned (-1 : Int)) ∧
    (-7 : Int) = Int.tdiv (-7) 2 * 2 + Int.tmod (-7) 2 := by
  have h := (modulo_generic_unreachable sampleFmodImpl sampleDataTypeToString
    ⟨.INT64, ⟨-7, 0⟩⟩ ⟨.INT64, ⟨2, 0⟩⟩ ⟨.STRING, ⟨0, 0⟩⟩).2.2.2.2.2.2.2.2 (-7) 2 0
    (by decide) (by decide) (by decide) (by decide)
  exact ⟨h.1, h.2.2.2.1⟩

/-- Counterexample to C30 as stated: for the `INT64` operands -2^63 and -1, with
`right != 0`, the quotient 2^63 is not a 64-bit integer, the behaviour of `left % right` is
undefined and the call has no result. -/
theorem modulo_overflow_counterexample :
    (-1 : Int) ≠ 0 ∧
    Modulo.operationOnValues sampleFmodImpl sampleDataTypeToString
      ⟨.INT64, ⟨-2 ^ 63, 0⟩⟩ ⟨.INT64, ⟨-1, 0⟩⟩ ⟨.STRING, ⟨0, 0⟩⟩ = none ∧
    ¬ (Int.tdiv (-2 ^ 63) (-1) < 2 ^ 63) := by
  refine ⟨by decide, rfl, by decide⟩

end kuzu
